import Mathlib

/-!
# fltrdr: the terminal controller `Tui` (src/fltrdr/tui.cc)

A shallow embedding of the key decoder `Tui::get_key`, the command interpreter
`Tui::command`, the scheduler (`play`, `pause`, `set_wait`, the countdown of
`event_loop`), the input poll `Tui::get_input`, the configuration file
(`Tui::config`, `Tui::press_to_continue`) and the drawing of the status bar and
of the line of text (`Tui::draw_status`, `Tui::draw_content`), with their
properties.

Conventions of the embedding.

* A `std::string` is a `Str`, a list of `Char`, each `Char` standing for one
  byte of the C++ string (so a multi-byte display symbol is several `Char`s,
  the continuation bytes having code 128 or more).
* The regular expressions of `Tui::command` are transcribed one by one into the
  syntax tree `Re`.  Every pattern of the source has the shape `^...$`, so a
  pattern is matched against the whole input line.
* `ob/string.hh`, `ob/term.hh`, `fltrdr/tui.hh` and the text model are not part
  of the translated file: what `tui.cc` uses of them is either a parameter
  (`Env`, `KeyCodes`, `Answers`, `Files`) or a definition marked as modelled.
* Sizes (`std::size_t`) are natural numbers; where a difference of sizes can
  wrap around it is taken modulo 2^64.  The two values that `draw_content`
  computes in floating point are parameters.
* An exception leaving a function is the `Except.error` result.
-/

namespace Fltrdr

/-- A byte string (`std::string`): one `Char` per byte. -/
abbrev Str := List Char

/-! ## Regular expressions (`std::regex`, ECMAScript grammar) -/

/-- The white space class `\s`: space, `\t`, `\n`, `\v`, `\f`, `\r`. -/
def isSpace (c : Char) : Bool :=
  c.toNat = 32 || (9 ≤ c.toNat && c.toNat ≤ 13)

/-- The class `[0-9]`. -/
def isDigit (c : Char) : Bool :=
  48 ≤ c.toNat && c.toNat ≤ 57

/-- The class `[0-8]`. -/
def isDigit08 (c : Char) : Bool :=
  48 ≤ c.toNat && c.toNat ≤ 56

/-- The class `[0-9a-fA-F]`. -/
def isHex (c : Char) : Bool :=
  (48 ≤ c.toNat && c.toNat ≤ 57) || (97 ≤ c.toNat && c.toNat ≤ 102) ||
    (65 ≤ c.toNat && c.toNat ≤ 70)

/-- The class `.`: every character but the line terminators `\n` and `\r`. -/
def isDot (c : Char) : Bool :=
  c.toNat != 10 && c.toNat != 13

/-- The class `[^\r]`. -/
def isNotCR (c : Char) : Bool :=
  c.toNat != 13

/-- The fragment of the regular expression grammar that `Tui::command` uses.
Repetition is only ever applied to a character class in the source, so `plus`
and `rep` take the class. -/
inductive Re where
  /-- The empty pattern. -/
  | eps : Re
  /-- One literal character. -/
  | chr (c : Char) : Re
  /-- One character of a class. -/
  | cls (p : Char → Bool) : Re
  /-- Concatenation. -/
  | seq (a b : Re) : Re
  /-- Alternation `a|b`, the left branch tried first. -/
  | alt (a b : Re) : Re
  /-- Greedy option `a?`. -/
  | opt (a : Re) : Re
  /-- Greedy `[class]+`. -/
  | plus (p : Char → Bool) : Re
  /-- Greedy `[class]{lo,hi}`. -/
  | rep (p : Char → Bool) (lo hi : Nat) : Re
  /-- Capturing group number `i`. -/
  | grp (i : Nat) (a : Re) : Re

/-- A literal string. -/
def Re.lit : Str → Re
  | [] => Re.eps
  | c :: cs => Re.seq (Re.chr c) (Re.lit cs)

/-- Concatenation of a list of patterns. -/
def Re.cat : List Re → Re
  | [] => Re.eps
  | r :: rs => Re.seq r (Re.cat rs)

/-- Alternation of a non-empty list of literal strings, `(w1|w2|...)`. -/
def Re.words : List Str → Re
  | [] => Re.cls (fun _ => false)
  | [w] => Re.lit w
  | w :: ws => Re.alt (Re.lit w) (Re.words ws)

/-- The remainders after a greedy `[class]*`, longest match first. -/
def starRests (p : Char → Bool) : Str → List Str
  | [] => [[]]
  | c :: cs => (if p c then starRests p cs else []) ++ [c :: cs]

/-- The remainders after a greedy `[class]+`, longest match first. -/
def plusRests (p : Char → Bool) : Str → List Str
  | [] => []
  | c :: cs => if p c then starRests p cs else []

/-- The remainders after a greedy `[class]{lo,hi}`, longest match first. -/
def repRests (p : Char → Bool) : Nat → Nat → Str → List Str
  | lo, 0, s => if lo = 0 then [s] else []
  | lo, _ + 1, [] => if lo = 0 then [[]] else []
  | lo, hi + 1, c :: cs =>
    (if p c then repRests p (lo - 1) hi cs else []) ++ (if lo = 0 then [c :: cs] else [])

/-- Number of the highest capturing group of a pattern. -/
def Re.groups : Re → Nat
  | .eps => 0
  | .chr _ => 0
  | .cls _ => 0
  | .seq a b => max a.groups b.groups
  | .alt a b => max a.groups b.groups
  | .opt a => a.groups
  | .plus _ => 0
  | .rep _ _ _ => 0
  | .grp i a => max i a.groups

/-- Backtracking matcher: all the ways the pattern matches a prefix of `s`, in
the priority order of the ECMAScript grammar (greedy, left alternative first),
each as the unread remainder and the captures so far. -/
def Re.run : Re → Str → List Str → List (Str × List Str)
  | .eps, s, m => [(s, m)]
  | .chr c, s, m =>
    match s with
    | [] => []
    | x :: xs => if x = c then [(xs, m)] else []
  | .cls p, s, m =>
    match s with
    | [] => []
    | x :: xs => if p x then [(xs, m)] else []
  | .seq a b, s, m => (a.run s m).flatMap (fun r => b.run r.1 r.2)
  | .alt a b, s, m => a.run s m ++ b.run s m
  | .opt a, s, m => a.run s m ++ [(s, m)]
  | .plus p, s, m => (plusRests p s).map (fun r => (r, m))
  | .rep p lo hi, s, m => (repRests p lo hi s).map (fun r => (r, m))
  | .grp i a, s, m =>
    (a.run s m).map (fun r => (r.1, r.2.set i (s.take (s.length - r.1.length))))

/-- Modelled from the spec: `OB::String::match` (ob/string.hh), which is not in
the translated file.  The whole line has to match the pattern; the result is the
vector of sub-matches, entry 0 the whole match and entry `i` the text of group
`i`, empty for a group that took no part in the match. -/
def rxMatch (input : Str) (rx : Re) : Option (List Str) :=
  ((rx.run input (List.replicate (rx.groups + 1) [])).find? (fun r => r.1.isEmpty)).map
    (fun r => r.2.set 0 input)

/-- Entry `i` of a sub-match vector (`std::vector::at`). -/
def subAt (m : List Str) (i : Nat) : Str :=
  m.getD i []

/-- Modelled from the spec: `OB::String::trim` (ob/string.hh), which is not in
the translated file: leading and trailing white space removed. -/
def trim (s : Str) : Str :=
  ((s.dropWhile isSpace).reverse.dropWhile isSpace).reverse

/-! ## Session state -/

/-- The style table `_ctx.style`: one styling directive per slot. -/
structure Style where
  primary : Str
  secondary : Str
  background : Str
  border : Str
  progress_bar : Str
  progress_fill : Str
  word_primary : Str
  word_secondary : Str
  word_highlight : Str
  word_punct : Str
  word_quote : Str
  prompt : Str
  prompt_status : Str
  success : Str
  error : Str
  countdown : Str
  deriving DecidableEq, Repr

/-- The visibility flags `_ctx.show`. -/
structure Show where
  border_top : Bool
  border_bottom : Bool
  progress : Bool
  status : Bool
  deriving DecidableEq, Repr

/-- The symbol set `_ctx.sym`. -/
structure Sym where
  progress : Str
  border_top : Str
  border_top_mark : Str
  border_bottom : Str
  border_bottom_mark : Str
  deriving DecidableEq, Repr

/-- The file metadata `_ctx.file`. -/
structure FileInfo where
  path : Str
  name : Str
  deriving DecidableEq, Repr

/-- The playback record `_ctx.state`. -/
structure Playback where
  play : Bool
  counting_down : Bool
  count_down : Int
  count_total : Int
  wait : Int
  refresh_rate : Int
  deriving DecidableEq, Repr

/-- The status record `_ctx.status`: the mode label of the status bar. -/
structure Status where
  mode : Str
  deriving DecidableEq, Repr

/-- The prompt record `_ctx.prompt`. -/
structure Prompt where
  str : Str
  count : Int
  timeout : Int
  deriving DecidableEq, Repr

/-- The session state `_ctx`.  The key buffer `chars` is given by the values
of its two `char`s. -/
structure Ctx where
  is_running : Bool
  width : Nat
  height : Nat
  width_min : Nat
  height_min : Nat
  input_interval : Int
  offset : Nat
  offset_value : Int
  state : Playback
  status : Status
  style : Style
  show_ : Show
  sym : Sym
  file : FileInfo
  prompt : Prompt
  chars : Int × Int
  deriving DecidableEq, Repr

/-- An operation of the text model `_fltrdr` that the controller invokes;
`timer_start` and `timer_stop` are `_fltrdr.timer.start()` and
`_fltrdr.timer.stop()`. -/
inductive FltrdrCall where
  | set_show_line (b : Bool)
  | set_show_prev (n : Int)
  | set_show_next (n : Int)
  | reset_timer
  | reset_wpm_avg
  | parse (path : Str)
  | parse_text (text : Str)
  | set_wpm (n : Int)
  | set_index (n : Nat)
  | timer_start
  | timer_stop
  | begin_
  | end_
  | next_word
  | prev_word
  | next_sentence
  | prev_sentence
  | next_chapter
  | prev_chapter
  | inc_wpm
  | dec_wpm
  | search_forward (s : Str)
  | search_backward (s : Str)
  | search_next
  | search_prev
  | set_line (offset : Nat)
  deriving DecidableEq, Repr

/-- Modelled from the spec: the text model `_fltrdr` (class `Fltrdr`), an
external collaborator that is not in the translated file, as the sequence of
the operations the controller has invoked on it, the latest last. -/
abbrev TextModel := List FltrdrCall

/-- The controller `Tui`: the session state `_ctx` and the text model `_fltrdr`. -/
structure Tui where
  ctx : Ctx
  fltrdr : TextModel
  deriving DecidableEq, Repr

/-- What `tui.cc` takes from `ob/term.hh` (the colour composers of
`OB::Term::ANSI_Escape_Codes`), from `std::filesystem` and `std::ifstream`, and
the success flag of the text model's `parse`. -/
structure Env where
  fg_true : Str → Str
  bg_true : Str → Str
  fg_256 : Str → Str
  bg_256 : Str → Str
  str_to_fg_color : Str → Bool → Str
  str_to_bg_color : Str → Bool → Str
  fs_exists : Str → Bool
  ifstream_is_open : Str → Bool
  parse_ok : Str → Bool
  lexically_normal : Str → Str

/-- The exceptions that can leave the translated functions, and the integer
division by zero, which is no exception but ends the process as well. -/
inductive Exn where
  | invalid_argument
  | out_of_range
  | runtime_error (msg : Str)
  | division_by_zero
  deriving DecidableEq, Repr

/-- A Command Outcome: no message, or a pair (success, message). -/
abbrev Outcome := Option (Bool × Str)

/-! ## `std::stoi` and `std::stoul` -/

/-- Value of a decimal digit string. -/
def decVal (ds : Str) : Nat :=
  ds.foldl (fun n c => 10 * n + (c.toNat - 48)) 0

/-- The sign and the digits that `strtol` reads at the start of a string: white
space is skipped, then an optional sign, then the longest run of digits. -/
def numPrefix (s : Str) : Bool × Str :=
  match s.dropWhile isSpace with
  | '-' :: r => (true, r.takeWhile isDigit)
  | '+' :: r => (false, r.takeWhile isDigit)
  | r => (false, r.takeWhile isDigit)

/-- The conversion `std::stoi` (32-bit `int`): `invalid_argument` when no digit
can be read, `out_of_range` when the value does not fit an `int`. -/
def stoi (s : Str) : Except Exn Int :=
  let p := numPrefix s
  if p.2.isEmpty then Except.error Exn.invalid_argument
  else if p.1 then
    (if decVal p.2 ≤ 2147483648 then Except.ok (-(decVal p.2 : Int))
     else Except.error Exn.out_of_range)
  else
    (if decVal p.2 ≤ 2147483647 then Except.ok (decVal p.2 : Int)
     else Except.error Exn.out_of_range)

/-- The conversion `std::stoul` (64-bit `unsigned long`): a negated value wraps
modulo `2^64`. -/
def stoul (s : Str) : Except Exn Nat :=
  let p := numPrefix s
  if p.2.isEmpty then Except.error Exn.invalid_argument
  else if decVal p.2 ≤ 18446744073709551615 then
    Except.ok (if p.1 then (18446744073709551616 - decVal p.2) % 18446744073709551616
               else decVal p.2)
  else Except.error Exn.out_of_range

/-! ## The command interpreter `Tui::command` -/

/-- The slots of the style table that a `style` command can set. -/
inductive Slot where
  | primary | secondary | background | border | progress_bar | progress_fill
  | word_primary | word_secondary | word_highlight | word_punct | word_quote
  | prompt | success | error | countdown
  deriving DecidableEq, Repr

/-- Whether a slot is given a foreground or a background colour. -/
inductive Ground where
  | fg | bg
  deriving DecidableEq, Repr

/-- The three colour depths, one rule each per style name. -/
inductive Depth where
  | true24 | pal256 | named4
  deriving DecidableEq, Repr

/-- The assignment `_ctx.style.<slot> = v`. -/
def Style.put (st : Style) (k : Slot) (v : Str) : Style :=
  match k with
  | .primary => { st with primary := v }
  | .secondary => { st with secondary := v }
  | .background => { st with background := v }
  | .border => { st with border := v }
  | .progress_bar => { st with progress_bar := v }
  | .progress_fill => { st with progress_fill := v }
  | .word_primary => { st with word_primary := v }
  | .word_secondary => { st with word_secondary := v }
  | .word_highlight => { st with word_highlight := v }
  | .word_punct => { st with word_punct := v }
  | .word_quote => { st with word_quote := v }
  | .prompt => { st with prompt := v }
  | .success => { st with success := v }
  | .error => { st with error := v }
  | .countdown => { st with countdown := v }

/-- The directive a style rule composes from its sub-matches `m`:
`aec::fg_true(match)` / `aec::bg_true(match)` for the 24-bit rule,
`aec::fg_256(match)` / `aec::bg_256(match)` for the 8-bit rule and
`aec::str_to_fg_color(match, bright)` / `aec::str_to_bg_color(match, bright)` for
the 4-bit rule, where `match` is sub-match 1 and `bright` says that the trimmed
sub-match 2 is not empty. -/
def paint (E : Env) (d : Depth) (g : Ground) (m : List Str) : Str :=
  match d, g with
  | .true24, .fg => E.fg_true (subAt m 1)
  | .true24, .bg => E.bg_true (subAt m 1)
  | .pal256, .fg => E.fg_256 (subAt m 1)
  | .pal256, .bg => E.bg_256 (subAt m 1)
  | .named4, .fg => E.str_to_fg_color (subAt m 1) (!(trim (subAt m 2)).isEmpty)
  | .named4, .bg => E.str_to_bg_color (subAt m 1) (!(trim (subAt m 2)).isEmpty)

/-- The value part of the three patterns of a style name:
`(#?[0-9a-fA-F]{6})`, `([0-9]{1,3})` and
`(black|red|green|yellow|blue|magenta|cyan|white)(:?\s+(bright))?`. -/
def rxColour : Depth → Re
  | .true24 => Re.grp 1 (Re.seq (Re.opt (Re.chr '#')) (Re.rep isHex 6 6))
  | .pal256 => Re.grp 1 (Re.rep isDigit 1 3)
  | .named4 =>
    Re.seq
      (Re.grp 1 (Re.words ["black".toList, "red".toList, "green".toList, "yellow".toList,
        "blue".toList, "magenta".toList, "cyan".toList, "white".toList]))
      (Re.opt (Re.grp 2 (Re.cat [Re.opt (Re.chr ':'), Re.plus isSpace,
        Re.grp 3 (Re.lit "bright".toList)])))

/-- The pattern `^style\s+<name>\s+<value>$`. -/
def rxStyle (name : Str) (d : Depth) : Re :=
  Re.cat [Re.lit "style".toList, Re.plus isSpace, Re.lit name, Re.plus isSpace, rxColour d]

/-- The optional argument `(:?\s+(<arg>))?` at the end of the `set`, `sym`, `prev`,
`next` and `reset` patterns: group 1 holds an optional colon, white space and
the argument, group 2 the argument. -/
def rxOptArg (arg : Re) : Re :=
  Re.opt (Re.grp 1 (Re.cat [Re.opt (Re.chr ':'), Re.plus isSpace, Re.grp 2 arg]))

/-- The pattern `^set\s+<name>(:?\s+(true|false|t|f|1|0|on|off))?$`. -/
def rxSet (name : Str) : Re :=
  Re.cat [Re.lit "set".toList, Re.plus isSpace, Re.lit name,
    rxOptArg (Re.words ["true".toList, "false".toList, "t".toList, "f".toList,
      "1".toList, "0".toList, "on".toList, "off".toList])]

/-- The pattern `^sym\s+<name>(:?\s+(.{0,4}))?$`. -/
def rxSym (name : Str) : Re :=
  Re.cat [Re.lit "sym".toList, Re.plus isSpace, Re.lit name, rxOptArg (Re.rep isDot 0 4)]

/-- The pattern `^<cmd>(:?\s+([0-8]{1}))?$` of `prev` and `next`. -/
def rxCount (cmd : Str) : Re :=
  Re.cat [Re.lit cmd, rxOptArg (Re.rep isDigit08 1 1)]

/-- The pattern `^(q|Q|quit|Quit)$`. -/
def rxQuit : Re :=
  Re.grp 1 (Re.words ["q".toList, "Q".toList, "quit".toList, "Quit".toList])

/-- The pattern `^reset(:?\s+(wpm|timer))?$`. -/
def rxReset : Re :=
  Re.cat [Re.lit "reset".toList, rxOptArg (Re.words ["wpm".toList, "timer".toList])]

/-- The pattern `^open\s+([^\r]+)$`. -/
def rxOpen : Re :=
  Re.cat [Re.lit "open".toList, Re.plus isSpace, Re.grp 1 (Re.plus isNotCR)]

/-- The pattern `^<cmd>\s+([0-9]+)$` of `wpm` and `goto`. -/
def rxNumber (cmd : Str) : Re :=
  Re.cat [Re.lit cmd, Re.plus isSpace, Re.grp 1 (Re.plus isDigit)]

/-- The pattern `^offset\s+([0-8]{1})$`. -/
def rxOffset : Re :=
  Re.cat [Re.lit "offset".toList, Re.plus isSpace, Re.grp 1 (Re.rep isDigit08 1 1)]

/-- The body of a rule: from the sub-matches, the input line and the
controller, the outcome and the new controller, or an exception. -/
abbrev Action := Env → List Str → Str → Tui → Except Exn (Outcome × Tui)

/-- One `else if (match_opt = OB::String::match(input, std::regex(...)))` branch. -/
structure Rule where
  rx : Re
  act : Action

/-- The quit branch: `_ctx.is_running = false; return {};`. -/
def actQuit : Action := fun _ _ _ t =>
  Except.ok (none, { t with ctx := { t.ctx with is_running := false } })

/-- The body of a style branch: every listed slot is assigned the composed
directive. -/
def actStyle (targets : List (Slot × Ground)) (d : Depth) : Action := fun E m _ t =>
  Except.ok (none, { t with ctx := { t.ctx with
    style := targets.foldl (fun st k => st.put k.1 (paint E d k.2 m)) t.ctx.style } })

/-- The test `match.empty() || "true" == match || "t" == match || "1" == match ||
"on" == match` on the trimmed sub-match 1. -/
def isOn (m : List Str) : Bool :=
  let w := trim (subAt m 1)
  w.isEmpty || w == "true".toList || w == "t".toList || w == "1".toList || w == "on".toList

/-- The body of a `set` branch, `put b` standing for the assignments of the
branch with `true` or `false`. -/
def actSet (put : Bool → Tui → Tui) : Action := fun _ m _ t =>
  Except.ok (none, put (isOn m) t)

/-- The slots of the symbol set. -/
inductive SymSlot where
  | progress | border_top | border_top_mark | border_bottom | border_bottom_mark
  deriving DecidableEq, Repr

/-- The assignment `_ctx.sym.<slot> = v`. -/
def Sym.put (y : Sym) (k : SymSlot) (v : Str) : Sym :=
  match k with
  | .progress => { y with progress := v }
  | .border_top => { y with border_top := v }
  | .border_top_mark => { y with border_top_mark := v }
  | .border_bottom => { y with border_bottom := v }
  | .border_bottom_mark => { y with border_bottom_mark := v }

/-- The test `match.at(i) & 0x80` on one byte. -/
def topBit (c : Char) : Bool :=
  (c.toNat &&& 0x80) != 0

/-- The assignment of `v` to every listed symbol slot. -/
def Tui.setSyms (t : Tui) (slots : List SymSlot) (v : Str) : Tui :=
  { t with ctx := { t.ctx with sym := slots.foldl (fun y k => y.put k v) t.ctx.sym } }

/-- The body of a `sym` branch: an empty value resets the slots to one blank; a
value of more than one byte is refused as soon as a byte after the first has
its top bit clear. -/
def actSym (slots : List SymSlot) : Action := fun _ m _ t =>
  let g := trim (subAt m 1)
  if g.isEmpty then Except.ok (none, t.setSyms slots " ".toList)
  else if g.length > 1 then
    (if (g.drop 1).all topBit then Except.ok (none, t.setSyms slots g)
     else Except.ok (some (false, "error: invalid symbol '".toList ++ g ++ "'".toList), t))
  else Except.ok (none, t.setSyms slots g)

/-- The body of the `prev` branch (`next = false`) and of the `next` branch. -/
def actCount (next : Bool) : Action := fun _ m _ t =>
  let g := trim (subAt m 1)
  let call : Int → FltrdrCall :=
    fun n => if next then FltrdrCall.set_show_next n else FltrdrCall.set_show_prev n
  if g.isEmpty then Except.ok (none, { t with fltrdr := t.fltrdr ++ [call 0] })
  else (stoi g).bind (fun n => Except.ok (none, { t with fltrdr := t.fltrdr ++ [call n] }))

/-- The body of the `reset` branch. -/
def actReset : Action := fun _ m _ t =>
  let g := trim (subAt m 1)
  let t1 : Tui :=
    if g.isEmpty then
      { t with fltrdr := t.fltrdr ++ [FltrdrCall.reset_timer, FltrdrCall.reset_wpm_avg] }
    else t
  if g == "wpm".toList then
    Except.ok (none, { t1 with fltrdr := t1.fltrdr ++ [FltrdrCall.reset_wpm_avg] })
  else if g == "timer".toList then
    Except.ok (none, { t1 with fltrdr := t1.fltrdr ++ [FltrdrCall.reset_timer] })
  else Except.ok (none, t1)

/-- The body of the `open` branch. -/
def actOpen : Action := fun E m _ t =>
  let file_path := subAt m 1
  if !E.fs_exists file_path then
    Except.ok (some (false, "error: could not open file '".toList ++ file_path ++ "'".toList), t)
  else if !E.ifstream_is_open file_path then
    Except.ok (some (false, "error: could not open file '".toList ++ file_path ++ "'".toList), t)
  else if E.parse_ok file_path then
    Except.ok (none,
      { ctx := { t.ctx with file := ⟨file_path, E.lexically_normal file_path⟩ },
        fltrdr := t.fltrdr ++ [FltrdrCall.parse file_path] })
  else Except.ok (none, { t with fltrdr := t.fltrdr ++ [FltrdrCall.parse file_path] })

/-- The body of the `wpm` branch: `_fltrdr.set_wpm(std::stoi(match))`. -/
def actWpm : Action := fun _ m _ t =>
  (stoi (subAt m 1)).bind
    (fun n => Except.ok (none, { t with fltrdr := t.fltrdr ++ [FltrdrCall.set_wpm n] }))

/-- The body of the `goto` branch: `_fltrdr.set_index(std::stoul(match))`. -/
def actGoto : Action := fun _ m _ t =>
  (stoul (subAt m 1)).bind
    (fun n => Except.ok (none, { t with fltrdr := t.fltrdr ++ [FltrdrCall.set_index n] }))

/-- The body of the `offset` branch: `_ctx.offset_value = std::stoi(match)`. -/
def actOffset : Action := fun _ m _ t =>
  (stoi (subAt m 1)).bind
    (fun n => Except.ok (none, { t with ctx := { t.ctx with offset_value := n } }))

/-- The three branches of one style name, in the order 24-bit, 8-bit, 4-bit. -/
def styleRules (name : Str) (targets : List (Slot × Ground)) : List Rule :=
  [⟨rxStyle name Depth.true24, actStyle targets Depth.true24⟩,
   ⟨rxStyle name Depth.pal256, actStyle targets Depth.pal256⟩,
   ⟨rxStyle name Depth.named4, actStyle targets Depth.named4⟩]

/-- The style names in the order of their branches (lines 1140 to 1603), each
with the slots its branches assign. -/
def styleTable : List (Str × List (Slot × Ground)) :=
  [("primary".toList,
      [(Slot.primary, Ground.fg), (Slot.background, Ground.bg), (Slot.border, Ground.fg),
       (Slot.progress_fill, Ground.fg), (Slot.word_primary, Ground.fg),
       (Slot.prompt, Ground.fg), (Slot.success, Ground.fg)]),
   ("secondary".toList,
      [(Slot.secondary, Ground.fg), (Slot.progress_bar, Ground.fg),
       (Slot.word_secondary, Ground.fg), (Slot.word_highlight, Ground.fg),
       (Slot.word_punct, Ground.fg), (Slot.word_quote, Ground.fg), (Slot.error, Ground.fg)]),
   ("text".toList,
      [(Slot.word_primary, Ground.fg), (Slot.word_secondary, Ground.fg),
       (Slot.word_highlight, Ground.fg), (Slot.word_punct, Ground.fg),
       (Slot.word_quote, Ground.fg)]),
   ("status-background".toList, [(Slot.background, Ground.bg)]),
   ("countdown".toList, [(Slot.countdown, Ground.bg)]),
   ("status-primary".toList, [(Slot.primary, Ground.fg)]),
   ("status-secondary".toList, [(Slot.secondary, Ground.fg)]),
   ("border".toList, [(Slot.border, Ground.fg)]),
   ("progress-primary".toList, [(Slot.progress_bar, Ground.fg)]),
   ("progress-secondary".toList, [(Slot.progress_fill, Ground.fg)]),
   ("prompt".toList, [(Slot.prompt, Ground.fg)]),
   ("success".toList, [(Slot.success, Ground.fg)]),
   ("error".toList, [(Slot.error, Ground.fg)]),
   ("text-primary".toList, [(Slot.word_primary, Ground.fg)]),
   ("text-secondary".toList, [(Slot.word_secondary, Ground.fg)]),
   ("text-highlight".toList, [(Slot.word_highlight, Ground.fg)]),
   ("text-punct".toList, [(Slot.word_punct, Ground.fg)]),
   ("text-quote".toList, [(Slot.word_quote, Ground.fg)])]

/-- The branches of `Tui::command` after the two guards, in source order. -/
def rules : List Rule :=
  [⟨rxQuit, actQuit⟩] ++
  styleTable.flatMap (fun e => styleRules e.1 e.2) ++
  [⟨rxSet "border-top".toList, actSet (fun b t =>
      { t with ctx := { t.ctx with show_ := { t.ctx.show_ with border_top := b } } })⟩,
   ⟨rxSet "border-bottom".toList, actSet (fun b t =>
      { t with ctx := { t.ctx with show_ := { t.ctx.show_ with border_bottom := b } } })⟩,
   ⟨rxSet "progress".toList, actSet (fun b t =>
      { t with ctx := { t.ctx with show_ := { t.ctx.show_ with progress := b } } })⟩,
   ⟨rxSet "status".toList, actSet (fun b t =>
      { t with ctx := { t.ctx with show_ := { t.ctx.show_ with status := b } } })⟩,
   ⟨rxSym "progress".toList, actSym [SymSlot.progress]⟩,
   ⟨rxSym "border-top".toList, actSym [SymSlot.border_top]⟩,
   ⟨rxSym "border-top-mark".toList, actSym [SymSlot.border_top_mark]⟩,
   ⟨rxSym "border-bottom".toList, actSym [SymSlot.border_bottom]⟩,
   ⟨rxSym "border-bottom-mark".toList, actSym [SymSlot.border_bottom_mark]⟩,
   ⟨rxSym "border.top.line".toList, actSym [SymSlot.border_top, SymSlot.border_top_mark]⟩,
   ⟨rxSym "border.bottom.line".toList,
     actSym [SymSlot.border_bottom, SymSlot.border_bottom_mark]⟩,
   ⟨rxSet "border".toList, actSet (fun b t =>
      { t with ctx := { t.ctx with
          show_ := { t.ctx.show_ with border_top := b, border_bottom := b } } })⟩,
   ⟨rxSet "view".toList, actSet (fun b t =>
      { t with fltrdr := t.fltrdr ++ [FltrdrCall.set_show_line b] })⟩,
   ⟨rxCount "prev".toList, actCount false⟩,
   ⟨rxCount "next".toList, actCount true⟩,
   ⟨rxReset, actReset⟩,
   ⟨rxOpen, actOpen⟩,
   ⟨rxNumber "wpm".toList, actWpm⟩,
   ⟨rxNumber "goto".toList, actGoto⟩,
   ⟨rxOffset, actOffset⟩]

/-- The first rule of a list whose pattern matches the line, with its
sub-matches: the `if ... else if ...` chain. -/
def firstMatch (input : Str) : List Rule → Option (Rule × List Str)
  | [] => none
  | r :: rs =>
    match rxMatch input r.rx with
    | some m => some (r, m)
    | none => firstMatch input rs

/-- The message of the final `else` branch. -/
def unknownMsg (input : Str) : Str :=
  "warning: unknown command '".toList ++ input ++ "'".toList

/-- The function `Tui::command` (lines 1114 to 2000). -/
def command (E : Env) (input : Str) (t : Tui) : Except Exn (Outcome × Tui) :=
  if !t.ctx.is_running then
    Except.ok (none, { t with ctx := { t.ctx with is_running := false } })
  else if input.isEmpty then Except.ok (none, t)
  else
    match firstMatch input rules with
    | some (r, m) => r.act E m input t
    | none => Except.ok (some (false, unknownMsg input), t)

/-! ## The key decoder `Tui::get_key` -/

/-- The result of one `read(STDIN_FILENO, buf, 1)`: a byte was read (return
value 1), nothing was available (return value 0), the read would block (return
value -1 with `errno == EAGAIN`), or the read failed (return value -1 with
another `errno`). -/
inductive ReadRes where
  | byte (c : Char)
  | nothing
  | eagain
  | failed
  deriving DecidableEq, Repr

/-- The values of the enumeration `Key` of `fltrdr/tui.hh`, which is not in the
translated file. -/
structure KeyCodes where
  up : Int
  down : Int
  right : Int
  left : Int
  del : Int

/-- One call of `read` on the terminal, the terminal being the results of its
future reads: once they are used up nothing more is available. -/
def read1 : List ReadRes → ReadRes × List ReadRes
  | [] => (ReadRes.nothing, [])
  | r :: rs => (r, rs)

/-- The function `Tui::get_key` (lines 756 to 842): the decoded key and the reads
left to the terminal.  The first read stores its byte in the low byte of the
zero-initialised `int key`. -/
def get_key (K : KeyCodes) (tty : List ReadRes) : Except Exn (Int × List ReadRes) :=
  match read1 tty with
  | (ReadRes.failed, _) => Except.error (Exn.runtime_error "read failed".toList)
  | (ReadRes.nothing, tty1) => Except.ok (0, tty1)
  | (ReadRes.eagain, tty1) => Except.ok (0, tty1)
  | (ReadRes.byte c, tty1) =>
    let key : Int := (c.toNat : Int)
    if key = 27 then
      match read1 tty1 with
      | (ReadRes.byte seq0, tty2) =>
        match read1 tty2 with
        | (ReadRes.byte seq1, tty3) =>
          if seq0 = '[' then
            if isDigit seq1 then
              match read1 tty3 with
              | (ReadRes.byte seq2, tty4) =>
                if seq2 = '~' then
                  (if seq1 = '3' then Except.ok (K.del, tty4) else Except.ok (key, tty4))
                else Except.ok (key, tty4)
              | (_, tty4) => Except.ok (key, tty4)
            else if seq1 = 'A' then Except.ok (K.up, tty3)
            else if seq1 = 'B' then Except.ok (K.down, tty3)
            else if seq1 = 'C' then Except.ok (K.right, tty3)
            else if seq1 = 'D' then Except.ok (K.left, tty3)
            else Except.ok (key, tty3)
          else Except.ok (key, tty3)
        | (_, tty3) => Except.ok (key, tty3)
      | (_, tty2) => Except.ok (key, tty2)
    else Except.ok (key, tty1)

/-! ## The scheduler: `play`, `pause`, the countdown, `set_wait` -/

/-- Modelled from the spec: the answers of the external collaborators to the
queries of the controller.  The text model answers from the operations invoked
on it so far (`timer` is the truth value of `_fltrdr.timer`, `search_forward`
and `search_backward` say whether the text was found).  The line editors
`_readline` and `_readline_search` answer, from the reads left to the terminal,
with the text entered, whether they leave the running flag as it is (they are
handed `_ctx.is_running` by reference and can clear it) and the number of reads
they used up. -/
structure Answers where
  timer : TextModel → Bool
  get_wpm : TextModel → Int
  get_wait : TextModel → Int
  get_show_prev : TextModel → Int
  get_show_next : TextModel → Int
  get_show_line : TextModel → Bool
  word : TextModel → Str
  search_forward : Str → TextModel → Bool
  search_backward : Str → TextModel → Bool
  get_stats : TextModel → Str
  readline : List ReadRes → Str × Bool × Nat
  readline_search : List ReadRes → Str × Bool × Nat

/-- One operation invoked on the text model. -/
def Tui.call (t : Tui) (c : FltrdrCall) : Tui :=
  { t with fltrdr := t.fltrdr ++ [c] }

/-- The function `Tui::play` (lines 1078 to 1093). -/
def play (t : Tui) : Tui :=
  if t.ctx.state.play then t
  else
    { t with ctx := { t.ctx with
        state := { t.ctx.state with
          play := true, counting_down := true, count_down := t.ctx.state.count_total },
        status := ⟨"PLAY".toList⟩,
        prompt := { t.ctx.prompt with count := 0 } } }

/-- The function `Tui::pause` (lines 1095 to 1112). -/
def pause (A : Answers) (t : Tui) : Tui :=
  if !t.ctx.state.play then t
  else
    let t1 := if A.timer t.fltrdr then t.call FltrdrCall.timer_stop else t
    { t1 with ctx := { t1.ctx with
        state := { t1.ctx.state with play := false, counting_down := false, count_down := 0 },
        status := ⟨"PAUSE".toList⟩ } }

/-- The countdown step of one iteration of `Tui::event_loop` (lines 301 to
312). -/
def countdown_tick (t : Tui) : Tui :=
  if t.ctx.state.counting_down then
    if t.ctx.state.count_down = 0 then
      ({ t with ctx := { t.ctx with
          state := { t.ctx.state with counting_down := false } } }).call FltrdrCall.timer_start
    else
      { t with ctx := { t.ctx with
          state := { t.ctx.state with count_down := t.ctx.state.count_down - 1 } } }
  else t

/-- The quotient of two `int`s, truncated towards zero. -/
def cdiv (a b : Int) : Except Exn Int :=
  if b = 0 then Except.error Exn.division_by_zero else Except.ok (Int.tdiv a b)

/-- The function `Tui::set_wait` (lines 737 to 754). -/
def set_wait (A : Answers) (t : Tui) : Except Exn Tui :=
  if t.ctx.state.play then
    if t.ctx.state.counting_down then
      (cdiv 60000 (A.get_wpm t.fltrdr)).bind (fun w =>
        Except.ok { t with ctx := { t.ctx with state := { t.ctx.state with wait := w } } })
    else
      Except.ok { t with ctx := { t.ctx with
        state := { t.ctx.state with wait := A.get_wait t.fltrdr } } }
  else
    Except.ok { t with ctx := { t.ctx with
      state := { t.ctx.state with wait := t.ctx.state.refresh_rate } } }

/-! ## The input poll `Tui::get_input` -/

/-- The code of a character. -/
def ch (c : Char) : Int := (c.toNat : Int)

/-- The function `Tui::ctrl_key` (lines 2123 to 2126), `c & 0x1f`. -/
def ctrl_key (c : Int) : Int := c % 32

/-- The value a key code has once it is stored in a `char` of the key buffer
(a signed 8-bit `char`). -/
def narrow (k : Int) : Int := (k + 128) % 256 - 128

/-- The assignment of both `char`s of the key buffer. -/
def Tui.setChars (t : Tui) (c : Int × Int) : Tui :=
  { t with ctx := { t.ctx with chars := c } }

/-- The four calls `_fltrdr.set_line(_ctx.offset); clear(); draw(); refresh();`
as far as the session state goes: the text model is handed the offset, and
`draw_prompt_message` (lines 567 to 581) counts a positive `prompt.count` down.
What the calls write to the terminal is not part of the session state, and the
drawing is taken to complete (see `draw_status` for the one of its parts that is
given here in full). -/
def render (t : Tui) : Tui :=
  let t1 := t.call (FltrdrCall.set_line t.ctx.offset)
  if t1.ctx.prompt.count > 0 then
    { t1 with ctx := { t1.ctx with
        prompt := { t1.ctx.prompt with count := t1.ctx.prompt.count - 1 } } }
  else t1

/-- The function `Tui::command_prompt` (lines 2002 to 2037), with the reads left
to the terminal. -/
def command_prompt (A : Answers) (E : Env) (t : Tui) (tty : List ReadRes) :
    Except Exn (Tui × List ReadRes) :=
  let t1 : Tui := { t with ctx := { t.ctx with prompt := { t.ctx.prompt with count := 0 } } }
  let r := A.readline tty
  let t2 : Tui := { t1 with ctx := { t1.ctx with is_running := t1.ctx.is_running && r.2.1 } }
  (command E r.1 t2).bind (fun res =>
    match res.1 with
    | none => Except.ok (res.2, tty.drop r.2.2)
    | some (ok, msg) =>
      Except.ok ({ res.2 with ctx := { res.2.ctx with
          style := { res.2.ctx.style with
            prompt_status := if ok then res.2.ctx.style.success else res.2.ctx.style.error },
          prompt := { res.2.ctx.prompt with str := msg, count := res.2.ctx.prompt.timeout } } },
        tty.drop r.2.2))

/-- The functions `Tui::search_forward` (lines 2039 to 2079) and
`Tui::search_backward` (lines 2081 to 2121), which differ in the direction of
the search only. -/
def search_prompt (backward : Bool) (A : Answers) (t : Tui) (tty : List ReadRes) :
    Except Exn (Tui × List ReadRes) :=
  let t1 : Tui := { t with ctx := { t.ctx with prompt := { t.ctx.prompt with count := 0 } } }
  let r := A.readline_search tty
  let t2 : Tui := { t1 with ctx := { t1.ctx with is_running := t1.ctx.is_running && r.2.1 } }
  if !t2.ctx.is_running then Except.ok (t2, tty.drop r.2.2)
  else if r.1.isEmpty then Except.ok (t2, tty.drop r.2.2)
  else
    let found :=
      if backward then A.search_backward r.1 t2.fltrdr else A.search_forward r.1 t2.fltrdr
    let t3 :=
      t2.call (if backward then FltrdrCall.search_backward r.1 else FltrdrCall.search_forward r.1)
    if found then Except.ok (t3, tty.drop r.2.2)
    else
      (cdiv t3.ctx.state.wait t3.ctx.input_interval).bind (fun n =>
        Except.ok ({ t3 with ctx := { t3.ctx with
          prompt := { t3.ctx.prompt with str := r.1, count := n } } }, tty.drop r.2.2))

/-- How the body of the loop of `Tui::get_input` is left: `ret` by a `return`
of the function, `cont` at the end of the `if ... else if` chain, with the flag
`single`. -/
inductive Step where
  | ret (wait : Int) (t : Tui) (tty : List ReadRes)
  | cont (single : Bool) (t : Tui) (tty : List ReadRes)

/-- The `if ... else if` chain of `Tui::get_input` (lines 861 to 1063) on the
key to dispatch. -/
def dispatch (K : KeyCodes) (A : Answers) (E : Env) (key : Int) (single : Bool) (wait : Int)
    (t : Tui) (tty : List ReadRes) : Except Exn Step :=
  if key = ch 'q' ∨ key = ch 'Q' then
    Except.ok (Step.ret wait { t with ctx := { t.ctx with is_running := false } } tty)
  else if key = ctrl_key (ch 'c') then
    Except.ok (Step.ret wait { t with ctx := { t.ctx with is_running := false } } tty)
  else if key = ctrl_key (ch 'j') then
    Except.ok (Step.cont single (t.setChars (0, 0)) tty)
  else if key = ctrl_key (ch '[') then
    Except.ok (Step.cont single
      (({ pause A t with ctx := { (pause A t).ctx with
          prompt := { (pause A t).ctx.prompt with count := 0 } } } : Tui).setChars (0, 0)) tty)
  else if key = ch 'g' then
    (if t.ctx.chars.2 = ch 'g' then
      Except.ok (Step.cont single ((pause A t).call FltrdrCall.begin_) tty)
     else Except.ok (Step.cont false t tty))
  else if key = ch 'G' then
    Except.ok (Step.cont single ((pause A t).call FltrdrCall.end_) tty)
  else if key = ch ' ' then
    (if t.ctx.state.play then Except.ok (Step.cont single (pause A t) tty)
     else Except.ok (Step.ret 0 ((play t).setChars (0, 0)) tty))
  else if key = ch 'i' then
    Except.ok (Step.cont single
      (t.call (FltrdrCall.set_show_prev (A.get_show_prev t.fltrdr + 1))) tty)
  else if key = ch 'I' then
    Except.ok (Step.cont single
      (t.call (FltrdrCall.set_show_prev (A.get_show_prev t.fltrdr - 1))) tty)
  else if key = ch 'o' then
    Except.ok (Step.cont single
      (t.call (FltrdrCall.set_show_next (A.get_show_next t.fltrdr + 1))) tty)
  else if key = ch 'O' then
    Except.ok (Step.cont single
      (t.call (FltrdrCall.set_show_next (A.get_show_next t.fltrdr - 1))) tty)
  else if key = ch '*' then
    Except.ok (Step.cont single
      ((pause A t).call (FltrdrCall.search_forward (A.word (pause A t).fltrdr))) tty)
  else if key = ch '#' then
    Except.ok (Step.cont single
      ((pause A t).call (FltrdrCall.search_backward (A.word (pause A t).fltrdr))) tty)
  else if key = ch 'n' then
    Except.ok (Step.cont single ((pause A t).call FltrdrCall.search_next) tty)
  else if key = ch 'N' then
    Except.ok (Step.cont single ((pause A t).call FltrdrCall.search_prev) tty)
  else if key = ch 'h' ∨ key = K.left then
    Except.ok (Step.cont single ((pause A t).call FltrdrCall.prev_word) tty)
  else if key = ch 'l' ∨ key = K.right then
    Except.ok (Step.cont single ((pause A t).call FltrdrCall.next_word) tty)
  else if key = ch 'H' then
    Except.ok (Step.cont single ((pause A t).call FltrdrCall.prev_sentence) tty)
  else if key = ch 'L' then
    Except.ok (Step.cont single ((pause A t).call FltrdrCall.next_sentence) tty)
  else if key = ch 'k' ∨ key = K.up then
    Except.ok (Step.cont single (t.call FltrdrCall.inc_wpm) tty)
  else if key = ch 'j' ∨ key = K.down then
    Except.ok (Step.cont single (t.call FltrdrCall.dec_wpm) tty)
  else if key = ch 'J' then
    Except.ok (Step.cont single ((pause A t).call FltrdrCall.prev_chapter) tty)
  else if key = ch 'K' then
    Except.ok (Step.cont single ((pause A t).call FltrdrCall.next_chapter) tty)
  else if key = ch 'v' then
    Except.ok (Step.cont single
      (t.call (FltrdrCall.set_show_line (!A.get_show_line t.fltrdr))) tty)
  else if key = ch ':' then
    (command_prompt A E (pause A t) tty).bind (fun r =>
      Except.ok (Step.cont single (r.1.setChars (0, 0)) r.2))
  else if key = ch '/' then
    (search_prompt false A (pause A t) tty).bind (fun r =>
      Except.ok (Step.cont single (r.1.setChars (0, 0)) r.2))
  else if key = ch '?' then
    (search_prompt true A (pause A t) tty).bind (fun r =>
      Except.ok (Step.cont single (r.1.setChars (0, 0)) r.2))
  else Except.ok (Step.cont single t tty)

/-- The loop of `Tui::get_input` (lines 848 to 1075): `fuel` bounds the number
of keys read, `single` is the local flag of the function. -/
def get_input_loop (K : KeyCodes) (A : Answers) (E : Env) :
    Nat → Bool → Int → Tui → List ReadRes → Except Exn (Int × Tui × List ReadRes)
  | 0, _, wait, t, tty => Except.ok (wait, t, tty)
  | fuel + 1, single, wait, t, tty =>
    match get_key K tty with
    | Except.error e => Except.error e
    | Except.ok (k, tty1) =>
      if k > 0 then
        let t1 :=
          if t.ctx.chars.1 = 0 then t.setChars (narrow k, t.ctx.chars.2)
          else t.setChars (t.ctx.chars.1, narrow k)
        let key := if t.ctx.chars.1 = 0 then k else t.ctx.chars.1
        match dispatch K A E key single wait t1 tty1 with
        | Except.error e => Except.error e
        | Except.ok (Step.ret w t2 tty2) => Except.ok (w, t2, tty2)
        | Except.ok (Step.cont s t2 tty2) =>
          get_input_loop K A E fuel s wait
            (if s then (render t2).setChars (0, 0) else render t2) tty2
      else Except.ok (wait, t, tty1)

/-- The function `Tui::get_input` (lines 844 to 1076): the caller's `wait`, the
controller and the reads left to the terminal after the poll.  Every key uses
up at least one read, so the loop ends within the fuel given. -/
def get_input (K : KeyCodes) (A : Answers) (E : Env) (wait : Int) (t : Tui)
    (tty : List ReadRes) : Except Exn (Int × Tui × List ReadRes) :=
  get_input_loop K A E (tty.length + 1) true wait t tty

/-- The input poll of one wait increment of `Tui::event_loop` (lines 330 to
335): a full key buffer is cleared, then the keys are read. -/
def wait_poll (K : KeyCodes) (A : Answers) (E : Env) (wait : Int) (t : Tui)
    (tty : List ReadRes) : Except Exn (Int × Tui × List ReadRes) :=
  get_input K A E wait (if t.ctx.chars.2 ≠ 0 then t.setChars (0, 0) else t) tty

/-! ## The status bar `Tui::draw_status` -/

/-- What is written to the output buffer `_ctx.buf`: the control sequences of
`ob/term.hh` by their names (`space` is one blank), the styling directives of
the style table, and text. -/
inductive Out where
  | cursor_save
  | cursor_load
  | cursor_set (x y : Int)
  | clear
  | space
  | erase_line
  | style (s : Str)
  | text (s : Str)
  deriving DecidableEq, Repr

/-- The value `len_mode` of `draw_status`. -/
def len_mode (t : Tui) : Int := 2 + (t.ctx.status.mode.length : Int)

/-- The value `len_file` of `draw_status`. -/
def len_file (t : Tui) : Int := 2 + (t.ctx.file.name.length : Int)

/-- The value `len_stats` of `draw_status`. -/
def len_stats (A : Answers) (t : Tui) : Int := 2 + ((A.get_stats t.fltrdr).length : Int)

/-- The value `pad_center` of `draw_status` (and of `len_center`). -/
def pad_center (A : Answers) (t : Tui) : Int :=
  (t.ctx.width : Int) - len_mode t - len_file t - len_stats A t

/-- The mode segment of the status bar (lines 590 to 603). -/
def statusMode (t : Tui) : List Out :=
  [Out.cursor_save, Out.cursor_set 0 ((t.ctx.height : Int) - 1),
   Out.style t.ctx.style.background, Out.style t.ctx.style.primary,
   Out.space, Out.text t.ctx.status.mode, Out.space, Out.clear, Out.space]

/-- The stats segment in full: style, blank, stats, blank, reset. -/
def statusStats (A : Answers) (t : Tui) : List Out :=
  [Out.style t.ctx.style.background, Out.style t.ctx.style.primary,
   Out.space, Out.text (A.get_stats t.fltrdr), Out.space, Out.clear]

/-- The function `Tui::draw_status` (lines 583 to 691): what it writes to the
output buffer, and the exception that ends it, if any (`std::string::substr`
with a start beyond the end of the string; the operands of the `<<` chain are
evaluated from left to right, so that what stands before the failing `substr`
has been written). -/
def draw_status (A : Answers) (t : Tui) : List Out × Option Exn :=
  if !t.ctx.show_.status then ([], none)
  else if pad_center A t ≥ 0 then
    (statusMode t ++
      [Out.style t.ctx.style.secondary, Out.text t.ctx.file.name, Out.clear, Out.space] ++
      List.replicate (pad_center A t).toNat Out.space ++
      statusStats A t ++ [Out.cursor_load], none)
  else if (pad_center A t).natAbs < t.ctx.file.name.length then
    (statusMode t ++
      [Out.style t.ctx.style.secondary, Out.text ['<'],
       Out.text (t.ctx.file.name.drop ((pad_center A t).natAbs + 1)), Out.clear, Out.space] ++
      statusStats A t ++ [Out.cursor_load], none)
  else if (pad_center A t).natAbs = t.ctx.file.name.length then
    (statusMode t ++ [Out.space] ++ statusStats A t ++ [Out.cursor_load], none)
  else if (pad_center A t).natAbs = t.ctx.file.name.length + 1 then
    (statusMode t ++ statusStats A t ++ [Out.cursor_load], none)
  else if (pad_center A t).natAbs - t.ctx.file.name.length > (A.get_stats t.fltrdr).length then
    (statusMode t ++
      [Out.style t.ctx.style.background, Out.style t.ctx.style.primary, Out.space,
       Out.text ['<']], some Exn.out_of_range)
  else
    (statusMode t ++
      [Out.style t.ctx.style.background, Out.style t.ctx.style.primary, Out.space,
       Out.text ['<'],
       Out.text ((A.get_stats t.fltrdr).drop
         ((pad_center A t).natAbs - t.ctx.file.name.length)),
       Out.space, Out.clear, Out.cursor_load], none)

/-! ## The configuration file: `Tui::press_to_continue` and `Tui::config` -/

/-- What `Tui::config` takes from its surroundings: the environment variables
(`OB::Term::env_var`) and, for a path, the lines that `std::getline` delivers of
the file at that path, `none` for a file that does not open.  Whether a path
exists is `Env.fs_exists`. -/
structure Files where
  env_var : Str → Str
  getlines : Str → Option (List Str)

/-- The pattern `^#[^\r]*$` of a comment line, the `[^\r]*` written as an
optional `[^\r]+`. -/
def rxComment : Re :=
  Re.seq (Re.chr '#') (Re.opt (Re.plus isNotCR))

/-- Modelled from the spec: `OB::String::assert_rx` (ob/string.hh), which is not
in the translated file: whether the whole string matches the pattern. -/
def assert_rx (s : Str) (rx : Re) : Bool :=
  (rxMatch s rx).isSome

/-- The decimal digits of a `std::size_t` written to a stream. -/
def natStr (n : Nat) : Str :=
  Nat.toDigits 10 n

/-- The function `Tui::press_to_continue` (lines 83 to 104): the answer and the
reads left to the terminal.  The text written to `std::cerr` and the switches of
the terminal mode are left out. -/
def press_to_continue (K : KeyCodes) (val : Int) (tty : List ReadRes) :
    Except Exn (Bool × List ReadRes) :=
  (get_key K tty).bind (fun r =>
    if r.1 > 0 then Except.ok ((if val = 0 then true else decide (val = r.1)), r.2)
    else Except.ok (false, r.2))

/-- The search for the configuration file of `Tui::config` (lines 120 to 155):
the flag `use_default` and the path found, empty if there is none. -/
def config_path (E : Env) (F : Files) (custom_path : Str) : Bool × Str :=
  if !custom_path.isEmpty && E.fs_exists custom_path then (false, custom_path)
  else
    let home := F.env_var "HOME".toList
    let config_home :=
      if (F.env_var "XDG_CONFIG_HOME".toList).isEmpty then home ++ "/.config/fltrdr/config".toList
      else F.env_var "XDG_CONFIG_HOME".toList ++ "/fltrdr/config".toList
    if E.fs_exists config_home then (true, config_home)
    else if E.fs_exists (home ++ "/.fltrdr/config".toList) then
      (true, home ++ "/.fltrdr/config".toList)
    else (true, [])

/-- The error line `path:num: message` that `Tui::config` buffers (line 192). -/
def config_error (path : Str) (num : Nat) (msg : Str) : Str :=
  path ++ ":".toList ++ natStr num ++ ": ".toList ++ msg ++ "\n".toList

/-- The loop of `Tui::config` over the lines of the file (lines 176 to 196):
`num` is the number of lines read so far, `buf` the error buffer. -/
def config_loop (E : Env) (path : Str) : List Str → Nat → Tui → Str → Except Exn (Tui × Str)
  | [], _, t, buf => Except.ok (t, buf)
  | line :: rest, num, t, buf =>
    if (trim line).isEmpty || assert_rx (trim line) rxComment then
      config_loop E path rest (num + 1) t buf
    else
      match command E (trim line) t with
      | Except.error e => Except.error e
      | Except.ok (some (false, msg), t1) =>
        config_loop E path rest (num + 1) t1 (buf ++ config_error path (num + 1) msg)
      | Except.ok (_, t1) => config_loop E path rest (num + 1) t1 buf

/-- The end of `Tui::config` (lines 205 to 214): a buffer that is not empty is
written to `std::cerr` and has to be acknowledged.  The result is the session,
the text shown and the reads left to the terminal. -/
def config_finish (K : KeyCodes) (r : Tui × Str) (tty : List ReadRes) :
    Except Exn (Tui × Str × List ReadRes) :=
  if !r.2.isEmpty then
    (press_to_continue K (ch '\n') tty).bind (fun p =>
      if !p.1 then Except.error (Exn.runtime_error "aborted by user".toList)
      else Except.ok (r.1, r.2, p.2))
  else Except.ok (r.1, [], tty)

/-- The function `Tui::config` (lines 106 to 215): the session, the text shown on
`std::cerr` and the reads left to the terminal. -/
def config (K : KeyCodes) (E : Env) (F : Files) (custom_path : Str) (t : Tui)
    (tty : List ReadRes) : Except Exn (Tui × Str × List ReadRes) :=
  if custom_path = "NONE".toList then Except.ok (t, [], tty)
  else
    let p := config_path E F custom_path
    let buf :=
      if p.1 && !custom_path.isEmpty then
        "error: could not open config file '".toList ++ custom_path ++ "'\n".toList
      else []
    if !p.2.isEmpty then
      match F.getlines p.2 with
      | some lines => (config_loop E p.2 lines 0 t buf).bind (fun r => config_finish K r tty)
      | none => Except.ok (t, [], tty)
    else config_finish K (t, buf) tty

/-! ## The line of text `Tui::draw_content` -/

/-- The three spans of the line of text that the text model hands over
(`_fltrdr.get_line()`): the words before the current word, the current word and
the words after it. -/
structure Line where
  prev : Str
  curr : Str
  next : Str
  deriving DecidableEq, Repr

/-- A cell `Block` of the line buffer of `draw_content`: the styling directives
written before the character, and the character.  The member `after` is
`aec::clear` in every cell and is written by the rendering. -/
structure Block where
  before : Str
  value : Str
  deriving DecidableEq, Repr

/-- An update of the cell `buf.at(i)`; `std::vector::at` throws `out_of_range`
for an index that is not below the size. -/
def bufAt (buf : List Block) (i : Nat) (f : Block → Block) : Except Exn (List Block) :=
  match buf[i]? with
  | some b => Except.ok (buf.set i (f b))
  | none => Except.error Exn.out_of_range

/-- The statement `buf.at(i).before += style`. -/
def Block.addBefore (style : Str) (b : Block) : Block :=
  { b with before := b.before ++ style }

/-- The value `width_left` of `draw_content` (line 393), the `std::size_t`
difference `(_ctx.width / 2) - _ctx.offset`.  The `double`s of lines 393 to 401
that hold sizes hold them exactly, sizes being far below 2^53. -/
def width_left (t : Tui) : Nat :=
  (t.ctx.width / 2 + 2 ^ 64 - t.ctx.offset) % 2 ^ 64

/-- The loop of lines 408 to 411: `n` cells from the cell `i` on get the
countdown style. -/
def countdown_band (style : Str) : Nat → Nat → List Block → Except Exn (List Block)
  | 0, _, buf => Except.ok buf
  | n + 1, i, buf =>
    (bufAt buf i (Block.addBefore style)).bind (countdown_band style n (i + 1))

/-- The countdown overlay of `draw_content` (lines 403 to 417).  The values
`perc_left` and `perc_right` come out of a computation in `double`s (lines 397
and 398) and are taken as given.  In the last frame of the countdown the cell
`width_left - 1` is marked; for `width_left = 0` the index is the conversion of
the `double` -1 to `std::size_t`, here an index out of range. -/
def countdown_pass (t : Tui) (perc_left perc_right : Nat) (buf : List Block) :
    Except Exn (List Block) :=
  if t.ctx.state.counting_down then
    if t.ctx.state.count_down ≠ 0 then
      let pad_left := (width_left t + 2 ^ 64 - perc_left) % 2 ^ 64
      countdown_band t.ctx.style.countdown
        ((pad_left + perc_left + perc_right) % 2 ^ 64 - pad_left) pad_left buf
    else if width_left t = 0 then Except.error Exn.out_of_range
    else bufAt buf (width_left t - 1) (Block.addBefore t.ctx.style.countdown)
  else Except.ok buf

/-- The word style of a character of the spans before and after the current
word (lines 426 to 446 and 487 to 507): none for a blank, which the loop skips
with `continue`.  The classification `std::ispunct` of `<cctype>` is a
parameter. -/
def side_style (ispunct : Char → Bool) (st : Style) (c : Char) : Str :=
  if c = ' ' then []
  else if c = '-' then st.word_secondary
  else if c = '\'' ∨ c = '"' then st.word_quote
  else if ispunct c then st.word_punct
  else st.word_secondary

/-- The word style of a character of the current word (lines 458 to 477);
`focal` is the test `i + line.prev.size() == width_left - 1`. -/
def curr_style (ispunct : Char → Bool) (st : Style) (focal : Bool) (c : Char) : Str :=
  if focal then st.word_highlight
  else if c = '-' then st.word_secondary
  else if c = '\'' ∨ c = '"' then st.word_quote
  else if ispunct c then st.word_punct
  else st.word_primary

/-- One of the three loops over a span (lines 420 to 447, 450 to 478, 481 to
508): the characters of the span go to the cells from `it` on, each with the
word style `style` gives it. -/
def span_loop (style : Nat → Char → Str) : Str → Nat → List Block → Except Exn (List Block)
  | [], _, buf => Except.ok buf
  | c :: cs, it, buf =>
    (bufAt buf it (fun b => Block.addBefore (style it c) { b with value := [c] })).bind
      (span_loop style cs (it + 1))

/-- The three loops of `draw_content` over the spans of the line (lines 419 to
508). -/
def word_pass (ispunct : Char → Bool) (t : Tui) (line : Line) (buf : List Block) :
    Except Exn (List Block) :=
  (span_loop (fun _ c => side_style ispunct t.ctx.style c) line.prev 0 buf).bind (fun b1 =>
    (span_loop
      (fun it c => curr_style ispunct t.ctx.style
        (decide ((it : Int) = (width_left t : Int) - 1)) c)
      line.curr line.prev.length b1).bind (fun b2 =>
        span_loop (fun _ c => side_style ispunct t.ctx.style c) line.next
          (line.prev.length + line.curr.length) b2))

/-- The line buffer `buf` of `draw_content` before it is rendered (lines 381 to
508). -/
def draw_content_buf (ispunct : Char → Bool) (t : Tui) (line : Line)
    (perc_left perc_right : Nat) : Except Exn (List Block) :=
  (countdown_pass t perc_left perc_right (List.replicate t.ctx.width ⟨[], []⟩)).bind
    (word_pass ispunct t line)

/-- The function `Tui::draw_content` (lines 374 to 522): what it writes to the
output buffer. -/
def draw_content (ispunct : Char → Bool) (t : Tui) (line : Line)
    (perc_left perc_right : Nat) : Except Exn (List Out) :=
  (draw_content_buf ispunct t line perc_left perc_right).bind (fun buf =>
    Except.ok
      ([Out.cursor_save, Out.cursor_set 0 ((t.ctx.height / 2 : Nat) - 1), Out.erase_line] ++
        buf.flatMap (fun e => [Out.style e.before, Out.text e.value, Out.clear]) ++
        [Out.clear, Out.cursor_load]))

/-! ## The start of a session: `Tui::init` -/

/-- The function `Tui::init` (lines 35 to 81): the session it leaves behind and
the exception it throws, if any.  The text model is handed the built-in text,
standard input (named `*stdin*`) or the file; whether its `parse` succeeds is
`Env.parse_ok`. -/
def init (E : Env) (file_path : Str) (t : Tui) : Tui × Option Exn :=
  let t0 : Tui := { t with ctx := { t.ctx with file := ⟨[], []⟩ } }
  if file_path.isEmpty then (t0.call (FltrdrCall.parse_text "fltrdr".toList), none)
  else if file_path = "*stdin*".toList then
    if E.parse_ok "*stdin*".toList then
      (⟨{ t0.ctx with file := ⟨"*stdin*".toList, "*stdin*".toList⟩ },
        t0.fltrdr ++ [FltrdrCall.parse "*stdin*".toList]⟩, none)
    else (t0.call (FltrdrCall.parse "*stdin*".toList), none)
  else if !E.fs_exists file_path then
    (t0, some (Exn.runtime_error
      ("the file does not exist '".toList ++ t0.ctx.file.path ++ "'".toList)))
  else if !E.ifstream_is_open file_path then
    (t0, some (Exn.runtime_error
      ("could not open the file '".toList ++ file_path ++ "'".toList)))
  else if E.parse_ok file_path then
    (⟨{ t0.ctx with file := ⟨file_path, E.lexically_normal file_path⟩ },
      t0.fltrdr ++ [FltrdrCall.parse file_path]⟩, none)
  else (t0.call (FltrdrCall.parse file_path), none)

/-! ## The branch of `event_loop` for a terminal that is too small -/

/-- The branch of `Tui::event_loop` taken when `screen_size()` reports a terminal
below the minimum size (lines 249 to 271): playback is paused and one key is
read, which can only end the session.  The overlay that `screen_size` draws and
the sleep are left out. -/
def event_loop_invalid_size (K : KeyCodes) (A : Answers) (t : Tui) (tty : List ReadRes) :
    Except Exn (Tui × List ReadRes) :=
  (get_key K tty).bind (fun r =>
    if r.1 > 0 then
      if r.1 = ch 'q' ∨ r.1 = ch 'Q' then
        Except.ok ({ pause A t with ctx := { (pause A t).ctx with is_running := false } }, r.2)
      else if r.1 = ctrl_key (ch 'c') then
        Except.ok ({ pause A t with ctx := { (pause A t).ctx with is_running := false } }, r.2)
      else Except.ok (pause A t, r.2)
    else Except.ok (pause A t, r.2))

/-! ## The wait loop of `Tui::event_loop` -/

/-- What the wait loop does besides changing the session: it sleeps for a number
of milliseconds and it polls the input. -/
inductive WaitEvent where
  | sleep (ms : Int)
  | poll
  deriving DecidableEq, Repr

/-- The wait loop of `Tui::event_loop` (lines 317 to 336): the session, the reads
left to the terminal and what the loop did, appended to `log`; `none` when the
loop has not ended within `fuel` passes. -/
def wait_loop (K : KeyCodes) (A : Answers) (E : Env) :
    Nat → Int → Tui → List ReadRes → List WaitEvent →
      Except Exn (Option (Tui × List ReadRes × List WaitEvent))
  | 0, _, _, _, _ => Except.ok none
  | fuel + 1, wait, t, tty, log =>
    if t.ctx.is_running = true ∧ wait ≠ 0 then
      match wait_poll K A E
          (if wait > t.ctx.input_interval then wait - t.ctx.input_interval else 0) t tty with
      | Except.error e => Except.error e
      | Except.ok (w, t1, tty1) =>
        wait_loop K A E fuel w t1 tty1
          (log ++ [WaitEvent.sleep
              (if wait > t.ctx.input_interval then t.ctx.input_interval else wait),
            WaitEvent.poll])
    else Except.ok (some (t, tty, log))

/-! ## Vocabulary of the properties -/

/-- The ESC byte (27). -/
def ESC : Char := Char.ofNat 27

/-- Whether the reads that follow an ESC byte start with one of the five
sequences of the escape decode table: `[A`, `[B`, `[C`, `[D` or `[3~`, every
byte of the sequence being available. -/
def inEscTable : List ReadRes → Bool
  | ReadRes.byte s0 :: ReadRes.byte s1 :: rest =>
    s0 == '[' && (s1 == 'A' || s1 == 'B' || s1 == 'C' || s1 == 'D' ||
      (s1 == '3' && match rest with
        | ReadRes.byte s2 :: _ => s2 == '~'
        | _ => false))
  | _ => false

/-- A sample environment: every colour composer tags its argument. -/
def Env.sample : Env where
  fg_true := fun s => "fg24:".toList ++ s
  bg_true := fun s => "bg24:".toList ++ s
  fg_256 := fun s => "fg8:".toList ++ s
  bg_256 := fun s => "bg8:".toList ++ s
  str_to_fg_color := fun s b => "fg4:".toList ++ s ++ (if b then "+".toList else [])
  str_to_bg_color := fun s b => "bg4:".toList ++ s ++ (if b then "+".toList else [])
  fs_exists := fun _ => false
  ifstream_is_open := fun _ => false
  parse_ok := fun _ => false
  lexically_normal := fun s => s

/-- A sample running session: an 80x24 terminal, paused, empty style table,
every bar shown, blank symbols. -/
def Tui.sample : Tui where
  ctx :=
    { is_running := true, width := 80, height := 24, width_min := 20, height_min := 4,
      input_interval := 50, offset := 0, offset_value := 0,
      state := ⟨false, false, 0, 2, 250, 250⟩, status := ⟨"PAUSE".toList⟩,
      style := ⟨[], [], [], [], [], [], [], [], [], [], [], [], [], [], [], []⟩,
      show_ := ⟨true, true, true, true⟩,
      sym := ⟨" ".toList, " ".toList, " ".toList, " ".toList, " ".toList⟩,
      file := ⟨[], []⟩, prompt := ⟨[], 0, 6⟩, chars := (0, 0) }
  fltrdr := []

/-- Sample key codes, outside the range of a byte. -/
def KeyCodes.sample : KeyCodes := ⟨1001, 1002, 1003, 1004, 1005⟩

/-- The eight colour names of the 4-bit rules. -/
def colourNames : List Str :=
  ["black".toList, "red".toList, "green".toList, "yellow".toList, "blue".toList,
   "magenta".toList, "cyan".toList, "white".toList]

/-- A colour value of a `style` line, in one of the three colour depths: a
24-bit code (six hex digits, with or without a leading `#`), an 8-bit palette
index (decimal digits) or a 4-bit colour name, plain or `bright`. -/
inductive Colour where
  | hex (hash : Bool) (digits : Str)
  | pal (digits : Str)
  | named (name : Str) (bright : Bool)

/-- The colour values the patterns are written for: exactly six hex digits;
one to three decimal digits (every palette index from 0 to 255 is of this
form); one of the eight colour names. -/
def Colour.wf : Colour → Bool
  | .hex _ ds => ds.length == 6 && ds.all isHex
  | .pal ds => 1 ≤ ds.length && ds.length ≤ 3 && ds.all isDigit
  | .named n _ => colourNames.contains n

/-- The text of a colour value on the command line. -/
def Colour.text : Colour → Str
  | .hex h ds => if h then '#' :: ds else ds
  | .pal ds => ds
  | .named n b => if b then n ++ " bright".toList else n

/-- The colour depth of a colour value. -/
def Colour.depth : Colour → Depth
  | .hex _ _ => Depth.true24
  | .pal _ => Depth.pal256
  | .named _ _ => Depth.named4

/-- The styling directive of a colour value as a foreground or a background
colour, composed by the composer of its depth. -/
def Colour.directive (E : Env) (v : Colour) (g : Ground) : Str :=
  match v, g with
  | .hex h ds, .fg => E.fg_true (Colour.text (.hex h ds))
  | .hex h ds, .bg => E.bg_true (Colour.text (.hex h ds))
  | .pal ds, .fg => E.fg_256 ds
  | .pal ds, .bg => E.bg_256 ds
  | .named n b, .fg => E.str_to_fg_color n b
  | .named n b, .bg => E.str_to_bg_color n b

/-- The capture vector a colour pattern starts from. -/
def caps0 (d : Depth) : List Str :=
  List.replicate ((rxColour d).groups + 1) []

/-- The toggles of the `set` command. -/
inductive Toggle where
  | border_top | border_bottom | progress | status | border | view
  deriving DecidableEq, Repr

/-- The name of a toggle on the command line. -/
def Toggle.text : Toggle → Str
  | .border_top => "border-top".toList
  | .border_bottom => "border-bottom".toList
  | .progress => "progress".toList
  | .status => "status".toList
  | .border => "border".toList
  | .view => "view".toList

/-- The session after a toggle is given the value `b`: the visibility flag of
its name, both border flags for `border`, and for `view` the text model is
handed the value through `set_show_line`. -/
def Tui.toggled (t : Tui) (g : Toggle) (b : Bool) : Tui :=
  match g with
  | .border_top => { t with ctx := { t.ctx with show_ := { t.ctx.show_ with border_top := b } } }
  | .border_bottom =>
    { t with ctx := { t.ctx with show_ := { t.ctx.show_ with border_bottom := b } } }
  | .progress => { t with ctx := { t.ctx with show_ := { t.ctx.show_ with progress := b } } }
  | .status => { t with ctx := { t.ctx with show_ := { t.ctx.show_ with status := b } } }
  | .border =>
    { t with ctx := { t.ctx with
        show_ := { t.ctx.show_ with border_top := b, border_bottom := b } } }
  | .view => { t with fltrdr := t.fltrdr ++ [FltrdrCall.set_show_line b] }

/-- The values that enable a toggle. -/
def onWords : List Str := ["true".toList, "t".toList, "1".toList, "on".toList]

/-- The values that disable a toggle. -/
def offWords : List Str := ["false".toList, "f".toList, "0".toList, "off".toList]

/-- The names of the `sym` command. -/
inductive SymName where
  | progress | border_top | border_top_mark | border_bottom | border_bottom_mark
  | border_top_line | border_bottom_line
  deriving DecidableEq, Repr

/-- The name of a symbol on the command line. -/
def SymName.text : SymName → Str
  | .progress => "progress".toList
  | .border_top => "border-top".toList
  | .border_top_mark => "border-top-mark".toList
  | .border_bottom => "border-bottom".toList
  | .border_bottom_mark => "border-bottom-mark".toList
  | .border_top_line => "border.top.line".toList
  | .border_bottom_line => "border.bottom.line".toList

/-- The session after the glyph `g` is stored under a symbol name: the slot of
the name, and for the two compound names the fill slot and the marker slot of
the border. -/
def Tui.withSym (t : Tui) (k : SymName) (g : Str) : Tui :=
  match k with
  | .progress => { t with ctx := { t.ctx with sym := { t.ctx.sym with progress := g } } }
  | .border_top => { t with ctx := { t.ctx with sym := { t.ctx.sym with border_top := g } } }
  | .border_top_mark =>
    { t with ctx := { t.ctx with sym := { t.ctx.sym with border_top_mark := g } } }
  | .border_bottom =>
    { t with ctx := { t.ctx with sym := { t.ctx.sym with border_bottom := g } } }
  | .border_bottom_mark =>
    { t with ctx := { t.ctx with sym := { t.ctx.sym with border_bottom_mark := g } } }
  | .border_top_line =>
    { t with ctx := { t.ctx with
        sym := { t.ctx.sym with border_top := g, border_top_mark := g } } }
  | .border_bottom_line =>
    { t with ctx := { t.ctx with
        sym := { t.ctx.sym with border_bottom := g, border_bottom_mark := g } } }

/-- A glyph as it can stand on a trimmed `sym` line: one to four bytes, none of
them a line terminator, the first and the last not white space. -/
def glyphWf (g : Str) : Bool :=
  1 ≤ g.length && g.length ≤ 4 && g.all isDot &&
    !(g.head?.any isSpace) && !(g.getLast?.any isSpace)

/-- Sample answers of the collaborators: the timer is off, 300 words per
minute, 200 ms between words, nothing is found and the line editors return an
empty line without using up a read. -/
def Answers.sample : Answers where
  timer := fun _ => false
  get_wpm := fun _ => 300
  get_wait := fun _ => 200
  get_show_prev := fun _ => 0
  get_show_next := fun _ => 0
  get_show_line := fun _ => false
  word := fun _ => "word".toList
  search_forward := fun _ _ => false
  search_backward := fun _ _ => false
  get_stats := fun _ => "12% 300wpm 5m".toList
  readline := fun _ => ([], true, 0)
  readline_search := fun _ => ([], true, 0)

/-- The sample session, paused, with a countdown of five ticks. -/
def Tui.paused5 : Tui :=
  { Tui.sample with ctx := { Tui.sample.ctx with
      state := { Tui.sample.ctx.state with count_total := 5 } } }

/-- The display columns one item of the output takes: one for a blank, one for
each character of a text, none for a control sequence or a styling directive. -/
def Out.cols : Out → Nat
  | Out.space => 1
  | Out.text s => s.length
  | _ => 0

/-- The display columns a piece of output takes. -/
def columns (out : List Out) : Nat :=
  (out.map Out.cols).sum

/-- The value of `std::abs(len_center)` in `draw_status`: by how many columns
the three segments exceed the width. -/
def deficit (A : Answers) (t : Tui) : Nat :=
  (pad_center A t).natAbs

/-- The sample session with a file name of ten characters and a terminal of
`w` columns. -/
def Tui.report (w : Nat) : Tui :=
  { Tui.sample with ctx := { Tui.sample.ctx with
      width := w, file := ⟨"./report.txt".toList, "report.txt".toList⟩ } }

/-- The literal case of the specification: 40 columns, mode `PLAY`, file name
`a-very-long-document-name.txt`. -/
def Tui.literal : Tui :=
  { Tui.sample with ctx := { Tui.sample.ctx with
      width := 40, status := ⟨"PLAY".toList⟩,
      file := ⟨"a-very-long-document-name.txt".toList, "a-very-long-document-name.txt".toList⟩ } }

/-- The answers of the literal case: the statistics read `12%`. -/
def Answers.literal : Answers :=
  { Answers.sample with get_stats := fun _ => "12%".toList }

/-- The reads left to the terminal after a step of the loop of `get_input`. -/
def Step.rest : Step → List ReadRes
  | Step.ret _ _ tty => tty
  | Step.cont _ _ tty => tty

/-- The wait a step of the loop returns with: the caller's, or 0 with the
session playing. -/
def Step.waitOk (wait : Int) : Step → Prop
  | Step.ret w t _ => w = wait ∨ (w = 0 ∧ t.ctx.state.play = true)
  | Step.cont _ _ _ => True

/-- The key buffer after a step of the loop entered with an empty buffer and the
flag `single` set: a `return` leaves the session stopped or the buffer empty,
and the flag is cleared only by a first `g`, which changes nothing else. -/
def Step.bufOk (key : Int) (t1 : Tui) : Step → Prop
  | Step.ret _ t2 _ => t2.ctx.is_running = false ∨ t2.ctx.chars = (0, 0)
  | Step.cont s t2 _ => s = true ∨ (key = 103 ∧ t2 = t1)

/-- The lines of a file that `Tui::config` passes on, as the specification
words it: with the number of the first line being `num + 1`, each line trimmed,
those left out that are empty or that `isComment` takes for a comment. -/
def keptLines (isComment : Str → Bool) : Nat → List Str → List (Nat × Str)
  | _, [] => []
  | num, line :: rest =>
    if (trim line).isEmpty || isComment (trim line) then keptLines isComment (num + 1) rest
    else (num + 1, trim line) :: keptLines isComment (num + 1) rest

/-- Every numbered line handed to `command` in turn, one error line buffered for
each line that is rejected. -/
def runKept (E : Env) (path : Str) : List (Nat × Str) → Tui → Str → Except Exn (Tui × Str)
  | [], t, buf => Except.ok (t, buf)
  | (num, l) :: rest, t, buf =>
    (command E l t).bind (fun r =>
      runKept E path rest r.2
        (match r.1 with
         | some (false, msg) => buf ++ config_error path num msg
         | _ => buf))

/-- A comment line as the code has it: `#` followed by characters other than
carriage return. -/
def isCommentLine (l : Str) : Bool :=
  match l with
  | '#' :: rest => rest.all isNotCR
  | _ => false

/-- A line that starts with `#`. -/
def startsWithHash (l : Str) : Bool :=
  match l with
  | '#' :: _ => true
  | _ => false

/-- A sample environment of `config`: one configuration file, `/cfg`, of five
lines: a comment, a blank line, a command, a line that is no command and a line
that starts with `#` and holds a carriage return. -/
def Files.sample : Files where
  env_var := fun _ => []
  getlines := fun p =>
    if p = "/cfg".toList then
      some ["# colours".toList, "  ".toList, " set status off ".toList, "bogus".toList,
        "#a\rb".toList]
    else none

/-- The sample environment with the file `/cfg` in it. -/
def Env.withCfg : Env :=
  { Env.sample with fs_exists := fun p => p = "/cfg".toList }

/-- The characters that `std::ispunct` accepts in the default locale. -/
def ispunctC (c : Char) : Bool :=
  (33 ≤ c.toNat && c.toNat ≤ 47) || (58 ≤ c.toNat && c.toNat ≤ 64) ||
    (91 ≤ c.toNat && c.toNat ≤ 96) || (123 ≤ c.toNat && c.toNat ≤ 126)

/-- A sample session of 20 columns in the last frame of its countdown, with a
style table that names its slots. -/
def Tui.lastFrame : Tui :=
  { Tui.sample with ctx := { Tui.sample.ctx with
      width := 20,
      state := ⟨true, true, 0, 2, 250, 250⟩, status := ⟨"PLAY".toList⟩,
      style := { Tui.sample.ctx.style with
        word_primary := "P".toList, word_secondary := "S".toList,
        word_highlight := "H".toList, word_punct := "U".toList, word_quote := "Q".toList,
        countdown := "C".toList } } }

/-- A sample line: the current word `reader` from column 7 on. -/
def Line.sample : Line := ⟨"a fast ".toList, "reader".toList, " - ok".toList⟩

/-- The state in which the wait loop of `event_loop` enters `get_input` (lines
330 to 335): a key buffer whose second slot is filled has been cleared. -/
def pollEntry (t : Tui) : Tui :=
  if t.ctx.chars.2 ≠ 0 then t.setChars (0, 0) else t

/-- The states in which `get_input` is entered from the wait loop in a session
that starts as `t0`: the first entry, and each entry that follows a poll which
left the session running, whatever the rest of the loop did in between to the
fields other than the key buffer. -/
inductive Entered (K : KeyCodes) (A : Answers) (E : Env) (t0 : Tui) : Tui → Prop where
  | first : Entered K A E t0 (pollEntry t0)
  | next (t u : Tui) (wait : Int) (tty : List ReadRes) (r : Int × Tui × List ReadRes) :
      Entered K A E t0 t → get_input K A E wait t tty = Except.ok r →
      r.2.1.ctx.is_running = true → u.ctx.chars = r.2.1.ctx.chars →
      Entered K A E t0 (pollEntry u)

/-- A sample environment in which no file exists but `/tmp/book.txt`, which does
not parse. -/
def Env.withBook : Env :=
  { Env.sample with
    fs_exists := fun p => p = "/tmp/book.txt".toList
    ifstream_is_open := fun p => p = "/tmp/book.txt".toList }

/-- The invariant of the scheduler: `counting_down` implies `play`; `count_down`
is at most `count_total`; `count_down` is 0 whenever `counting_down` is false;
the mode label is `PLAY` iff `play` is true. -/
def SchedInv (t : Tui) : Prop :=
  (t.ctx.state.counting_down = true → t.ctx.state.play = true) ∧
  t.ctx.state.count_down ≤ t.ctx.state.count_total ∧
  (t.ctx.state.counting_down = false → t.ctx.state.count_down = 0) ∧
  (t.ctx.status.mode = "PLAY".toList ↔ t.ctx.state.play = true)

/-- What an operation that takes the session `t` to `u` keeps: the invariant of
the scheduler and the length `count_total` of the countdown, and for `b = true`
also that `count_down` is not negative. -/
def SchedKeeps (b : Bool) (t u : Tui) : Prop :=
  SchedInv u ∧ u.ctx.state.count_total = t.ctx.state.count_total ∧
  (b = true → 0 ≤ u.ctx.state.count_down)

/-- The session a step of the loop of `get_input` is left with. -/
def Step.tui : Step → Tui
  | Step.ret _ t _ => t
  | Step.cont _ t _ => t

/-- The sample session at the start of a countdown of two ticks. -/
def Tui.counting : Tui := play Tui.sample

/-- The sleeps of a wait consumed in `k` increments, as the specification words
it: each increment sleeps the smaller of what remains and the interval. -/
def waitSleeps (interval : Int) : Nat → Int → List Int
  | 0, _ => []
  | k + 1, remaining =>
    min remaining interval :: waitSleeps interval k (remaining - min remaining interval)

/-- The number of increments, the ceiling of `wait / interval`. -/
def waitIncrements (wait interval : Int) : Nat :=
  ((wait + interval - 1) / interval).toNat

/-- A terminal on which no key arrives: every read reports that nothing is
available or that it would block. -/
def noInput (tty : List ReadRes) : Prop :=
  ∀ r ∈ tty, r = ReadRes.nothing ∨ r = ReadRes.eagain

/-- The pattern `r` can match a prefix of `s` and leave `rest` unread, whatever
the captures. -/
def Acc (r : Re) (s rest : Str) : Prop :=
  ∃ m m1 : List Str, (rest, m1) ∈ r.run s m

/-- A character that ends a word of a command line: white space or a colon. -/
def isSep (c : Char) : Bool :=
  isSpace c || c == ':'

/-- A character of a word of a command line. -/
def notSep (c : Char) : Bool :=
  !isSep c

/-- A string that is empty or starts with a character outside the class `p`. -/
def stopsAt (p : Char → Bool) : Str → Bool
  | [] => true
  | c :: _ => !p c

/-- The first word of a line. -/
def word1 (s : Str) : Str :=
  s.takeWhile notSep

/-- What follows the first word and the white space after it. -/
def after1 (s : Str) : Str :=
  (s.dropWhile notSep).dropWhile isSpace

/-- The second word of a line. -/
def word2 (s : Str) : Str :=
  word1 (after1 s)

/-- What follows the second word and the white space after it. -/
def after2 (s : Str) : Str :=
  after1 (after1 s)

/-- The colour depth that a colour value can belong to: at most three digits
are a palette index, a `#` or hexadecimal digits only are a 24-bit value,
anything else can only be a colour name. -/
def clsOf (col : Str) : Depth :=
  if col.all isDigit && decide (col.length ≤ 3) then Depth.pal256
  else if col.head? == some '#' || col.all isHex then Depth.true24
  else Depth.named4

/-- What a line has to start with for a branch of `Tui::command` to take it:
one key for each branch. -/
inductive RuleKey where
  | quit
  | style (name : Str) (d : Depth)
  | set (name : Str)
  | sym (name : Str)
  | count (cmd : Str)
  | arg (cmd : Str)
  deriving DecidableEq, Repr

/-- The key of the only branch that can take a line, read from the first two
words of the line and the shape of the colour value. -/
def tagOf (input : Str) : RuleKey :=
  if word1 input = "style".toList then RuleKey.style (word2 input) (clsOf (after2 input))
  else if word1 input = "set".toList then RuleKey.set (word2 input)
  else if word1 input = "sym".toList then RuleKey.sym (word2 input)
  else if word1 input ∈ ["prev".toList, "next".toList, "reset".toList] then
    RuleKey.count (word1 input)
  else if word1 input ∈ ["open".toList, "wpm".toList, "goto".toList, "offset".toList] then
    RuleKey.arg (word1 input)
  else RuleKey.quit

/-- The keys of the branches of `Tui::command`, in the order of `rules`. -/
def ruleKeys : List RuleKey :=
  [RuleKey.quit] ++
  styleTable.flatMap (fun e =>
    [RuleKey.style e.1 Depth.true24, RuleKey.style e.1 Depth.pal256,
     RuleKey.style e.1 Depth.named4]) ++
  [RuleKey.set "border-top".toList, RuleKey.set "border-bottom".toList,
   RuleKey.set "progress".toList, RuleKey.set "status".toList,
   RuleKey.sym "progress".toList, RuleKey.sym "border-top".toList,
   RuleKey.sym "border-top-mark".toList, RuleKey.sym "border-bottom".toList,
   RuleKey.sym "border-bottom-mark".toList, RuleKey.sym "border.top.line".toList,
   RuleKey.sym "border.bottom.line".toList,
   RuleKey.set "border".toList, RuleKey.set "view".toList,
   RuleKey.count "prev".toList, RuleKey.count "next".toList, RuleKey.count "reset".toList,
   RuleKey.arg "open".toList, RuleKey.arg "wpm".toList, RuleKey.arg "goto".toList,
   RuleKey.arg "offset".toList]

/-- The function `Tui::command` with its branches replaced by the list `rs`, to
state what testing the branches in another order would give. -/
def commandWith (rs : List Rule) (E : Env) (input : Str) (t : Tui) :
    Except Exn (Outcome × Tui) :=
  if !t.ctx.is_running then
    Except.ok (none, { t with ctx := { t.ctx with is_running := false } })
  else if input.isEmpty then Except.ok (none, t)
  else
    match firstMatch input rs with
    | some (r, m) => r.act E m input t
    | none => Except.ok (some (false, unknownMsg input), t)

set_option maxRecDepth 100000

/-! ## Lemmas on the dispatch -/

theorem firstMatch_skip (input : Str) (xs ys : List Rule)
    (h : ∀ r ∈ xs, rxMatch input r.rx = none) :
    firstMatch input (xs ++ ys) = firstMatch input ys := by
  induction xs with
  | nil => rfl
  | cons x xs ih =>
    have hx := h x (List.mem_cons_self _ _)
    simp only [List.cons_append, firstMatch, hx]
    exact ih (fun r hr => h r (List.mem_cons_of_mem _ hr))

theorem firstMatch_none (input : Str) (xs : List Rule)
    (h : ∀ r ∈ xs, rxMatch input r.rx = none) : firstMatch input xs = none := by
  have := firstMatch_skip input xs [] h
  simpa [firstMatch] using this

theorem firstMatch_some (input : Str) (xs : List Rule) (r : Rule) (m : List Str)
    (h : firstMatch input xs = some (r, m)) : r ∈ xs ∧ rxMatch input r.rx = some m := by
  induction xs with
  | nil => simp [firstMatch] at h
  | cons x xs ih =>
    simp only [firstMatch] at h
    cases hx : rxMatch input x.rx with
    | none =>
      rw [hx] at h
      exact ⟨List.mem_cons_of_mem _ (ih h).1, (ih h).2⟩
    | some m1 =>
      rw [hx] at h
      simp only [Option.some.injEq, Prod.mk.injEq] at h
      obtain ⟨h1, h2⟩ := h
      subst h1
      subst h2
      exact ⟨List.mem_cons_self _ _, hx⟩

theorem command_of_match (E : Env) (input : Str) (t : Tui) (r : Rule) (m : List Str)
    (hrun : t.ctx.is_running = true) (hne : input ≠ [])
    (hm : firstMatch input rules = some (r, m)) :
    command E input t = r.act E m input t := by
  cases input with
  | nil => exact absurd rfl hne
  | cons c cs => simp only [command, hrun, hm, List.isEmpty_cons, Bool.not_true, if_false,
      Bool.false_eq_true]

theorem command_of_no_match (E : Env) (input : Str) (t : Tui)
    (hrun : t.ctx.is_running = true) (hne : input ≠ [])
    (hm : firstMatch input rules = none) :
    command E input t = Except.ok (some (false, unknownMsg input), t) := by
  cases input with
  | nil => exact absurd rfl hne
  | cons c cs => simp only [command, hrun, hm, List.isEmpty_cons, Bool.not_true, if_false,
      Bool.false_eq_true]

/-! ## The key decoder -/

/-- C1: `get_key` decodes ESC-led input by the escape table: with all bytes
available `ESC [ A`, `ESC [ B`, `ESC [ C`, `ESC [ D` give `Key::up`, `Key::down`,
`Key::right`, `Key::left` and `ESC [ 3 ~` gives `Key::del`; every other
sequence of reads that starts with the byte ESC gives plain ESC (27). -/
theorem get_key_escape (K : KeyCodes) :
    (∀ tl, get_key K (ReadRes.byte ESC :: ReadRes.byte '[' :: ReadRes.byte 'A' :: tl)
        = Except.ok (K.up, tl)) ∧
    (∀ tl, get_key K (ReadRes.byte ESC :: ReadRes.byte '[' :: ReadRes.byte 'B' :: tl)
        = Except.ok (K.down, tl)) ∧
    (∀ tl, get_key K (ReadRes.byte ESC :: ReadRes.byte '[' :: ReadRes.byte 'C' :: tl)
        = Except.ok (K.right, tl)) ∧
    (∀ tl, get_key K (ReadRes.byte ESC :: ReadRes.byte '[' :: ReadRes.byte 'D' :: tl)
        = Except.ok (K.left, tl)) ∧
    (∀ tl, get_key K (ReadRes.byte ESC :: ReadRes.byte '[' :: ReadRes.byte '3' ::
        ReadRes.byte '~' :: tl) = Except.ok (K.del, tl)) ∧
    (∀ tl, inEscTable tl = false →
      Except.map Prod.fst (get_key K (ReadRes.byte ESC :: tl)) = Except.ok 27) := by
  refine ⟨fun tl => by rfl, fun tl => by rfl, fun tl => by rfl, fun tl => by rfl,
    fun tl => by rfl, ?_⟩
  intro tl h
  have hesc : ((ESC.toNat : Int) = 27) := by decide
  match tl, h with
  | [], _ => simp [get_key, read1, hesc, Except.map]
  | ReadRes.nothing :: _, _ => simp [get_key, read1, hesc, Except.map]
  | ReadRes.eagain :: _, _ => simp [get_key, read1, hesc, Except.map]
  | ReadRes.failed :: _, _ => simp [get_key, read1, hesc, Except.map]
  | [ReadRes.byte _], _ => simp [get_key, read1, hesc, Except.map]
  | ReadRes.byte _ :: ReadRes.nothing :: _, _ => simp [get_key, read1, hesc, Except.map]
  | ReadRes.byte _ :: ReadRes.eagain :: _, _ => simp [get_key, read1, hesc, Except.map]
  | ReadRes.byte _ :: ReadRes.failed :: _, _ => simp [get_key, read1, hesc, Except.map]
  | ReadRes.byte s0 :: ReadRes.byte s1 :: rest, h =>
    simp only [get_key, read1, hesc, if_true]
    by_cases h0 : s0 = '['
    · subst h0
      simp only [inEscTable, beq_self_eq_true, Bool.true_and, Bool.or_eq_false_iff,
        Bool.and_eq_false_iff, beq_eq_false_iff_ne, ne_eq] at h
      obtain ⟨⟨⟨⟨hA, hB⟩, hC⟩, hD⟩, h3⟩ := h
      simp only [if_true, hA, hB, hC, hD, if_false]
      by_cases hd : isDigit s1 = true
      · simp only [hd, if_true]
        match rest, h3 with
        | [], _ => rfl
        | ReadRes.nothing :: _, _ => rfl
        | ReadRes.eagain :: _, _ => rfl
        | ReadRes.failed :: _, _ => rfl
        | ReadRes.byte s2 :: r, h3 =>
          simp only []
          by_cases h2 : s2 = '~'
          · subst h2
            have : s1 ≠ '3' := by simpa using h3
            simp [this, Except.map]
          · simp [h2, Except.map]
      · simp [hd, Except.map]
    · simp [h0, Except.map]

/-- The unrecognised sequence `ESC [ 9 x` of the specification decodes to plain
ESC. -/
theorem get_key_escape_witness :
    Except.map Prod.fst (get_key KeyCodes.sample
      [ReadRes.byte ESC, ReadRes.byte '[', ReadRes.byte '9', ReadRes.byte 'x']) = Except.ok 27 :=
  (get_key_escape KeyCodes.sample).2.2.2.2.2 _ (by decide)


/-! ## Lemmas on the matching of `style` lines -/

theorem run_lit (l s : Str) (m : List Str) : (Re.lit l).run (l ++ s) m = [(s, m)] := by
  induction l with
  | nil => rfl
  | cons c cs ih => simp [Re.lit, Re.run, ih]

theorem run_seq_lit (l s : Str) (R : Re) (m : List Str) :
    (Re.seq (Re.lit l) R).run (l ++ s) m = R.run s m := by
  simp [Re.run, run_lit]

theorem run_seq_spaces (c : Char) (s : Str) (R : Re) (m : List Str) (hc : isSpace c = false) :
    (Re.seq (Re.plus isSpace) R).run (' ' :: c :: s) m = R.run (c :: s) m := by
  have h32 : isSpace ' ' = true := by decide
  simp [Re.run, plusRests, starRests, hc, h32]

theorem run_style (n v : Str) (c0 c : Char) (d : Depth) (m : List Str)
    (h0 : isSpace c0 = false) (hc : isSpace c = false) :
    (rxStyle (c0 :: n) d).run ("style ".toList ++ ((c0 :: n) ++ ' ' :: c :: v)) m
      = (rxColour d).run (c :: v) m := by
  have e : "style ".toList ++ ((c0 :: n) ++ ' ' :: c :: v)
      = "style".toList ++ (' ' :: c0 :: (n ++ ' ' :: c :: v)) := by simp
  rw [e]
  simp only [rxStyle, Re.cat]
  rw [run_seq_lit, run_seq_spaces _ _ _ _ h0]
  have e2 : c0 :: (n ++ ' ' :: c :: v) = (c0 :: n) ++ (' ' :: c :: v) := by simp
  rw [e2, run_seq_lit, run_seq_spaces _ _ _ _ hc]
  simp [Re.run]

theorem groups_lit (l : Str) : (Re.lit l).groups = 0 := by
  induction l with
  | nil => rfl
  | cons c cs ih => simp [Re.lit, Re.groups, ih]

theorem isHex_facts (c : Char) (h : isHex c = true) : isSpace c = false ∧ c ≠ '#' := by
  constructor
  · simp only [isHex, isSpace, Bool.or_eq_true, Bool.and_eq_true, decide_eq_true_eq] at h ⊢
    simp only [Bool.or_eq_false_iff, decide_eq_false_iff_not, Bool.and_eq_false_iff]
    omega
  · intro e
    subst e
    revert h
    decide

theorem isHex_of_isDigit (c : Char) (h : isDigit c = true) : isHex c = true := by
  simp only [isHex, isDigit, Bool.or_eq_true, Bool.and_eq_true, decide_eq_true_eq] at h ⊢
  omega

theorem run_hex (ds : Str) (m : List Str) (hl : ds.length = 6) (hh : ds.all isHex = true) :
    (rxColour Depth.true24).run ds m = [([], m.set 1 ds)] := by
  match ds, hl with
  | [c1, c2, c3, c4, c5, c6], _ =>
    simp only [List.all_cons, List.all_nil, Bool.and_true, Bool.and_eq_true] at hh
    obtain ⟨h1, h2, h3, h4, h5, h6⟩ := hh
    have n1 := (isHex_facts c1 h1).2
    simp [rxColour, Re.run, repRests, h1, h2, h3, h4, h5, h6, n1]

theorem run_hex_hash (ds : Str) (m : List Str) (hl : ds.length = 6) (hh : ds.all isHex = true) :
    (rxColour Depth.true24).run ('#' :: ds) m = [([], m.set 1 ('#' :: ds))] := by
  match ds, hl with
  | [c1, c2, c3, c4, c5, c6], _ =>
    simp only [List.all_cons, List.all_nil, Bool.and_true, Bool.and_eq_true] at hh
    obtain ⟨h1, h2, h3, h4, h5, h6⟩ := hh
    have hx : isHex '#' = false := by decide
    simp [rxColour, Re.run, repRests, h1, h2, h3, h4, h5, h6, hx]

theorem run_pal_true24 (ds : Str) (m : List Str) (hl : ds.length ≤ 3)
    (hd : ds.all isDigit = true) : (rxColour Depth.true24).run ds m = [] := by
  match ds, hl with
  | [], _ => simp [rxColour, Re.run, repRests]
  | [c1], _ =>
    simp only [List.all_cons, List.all_nil, Bool.and_true, Bool.and_eq_true] at hd
    have h1 := isHex_of_isDigit c1 hd
    simp [rxColour, Re.run, repRests, h1, (isHex_facts c1 h1).2]
  | [c1, c2], _ =>
    simp only [List.all_cons, List.all_nil, Bool.and_true, Bool.and_eq_true] at hd
    have h1 := isHex_of_isDigit c1 hd.1
    have h2 := isHex_of_isDigit c2 hd.2
    simp [rxColour, Re.run, repRests, h1, h2, (isHex_facts c1 h1).2]
  | [c1, c2, c3], _ =>
    simp only [List.all_cons, List.all_nil, Bool.and_true, Bool.and_eq_true] at hd
    have h1 := isHex_of_isDigit c1 hd.1
    have h2 := isHex_of_isDigit c2 hd.2.1
    have h3 := isHex_of_isDigit c3 hd.2.2
    simp [rxColour, Re.run, repRests, h1, h2, h3, (isHex_facts c1 h1).2]

theorem run_pal (ds : Str) (m : List Str) (h1 : 1 ≤ ds.length) (hl : ds.length ≤ 3)
    (hd : ds.all isDigit = true) :
    ∃ tl, (rxColour Depth.pal256).run ds m = ([], m.set 1 ds) :: tl := by
  match ds, h1, hl with
  | [c1], _, _ =>
    simp only [List.all_cons, List.all_nil, Bool.and_true, Bool.and_eq_true] at hd
    exact ⟨_, by simp [rxColour, Re.run, repRests, hd]; rfl⟩
  | [c1, c2], _, _ =>
    simp only [List.all_cons, List.all_nil, Bool.and_true, Bool.and_eq_true] at hd
    exact ⟨_, by simp [rxColour, Re.run, repRests, hd]; rfl⟩
  | [c1, c2, c3], _, _ =>
    simp only [List.all_cons, List.all_nil, Bool.and_true, Bool.and_eq_true] at hd
    exact ⟨_, by simp [rxColour, Re.run, repRests, hd]; rfl⟩

theorem groups_rxStyle (n : Str) (d : Depth) : (rxStyle n d).groups = (rxColour d).groups := by
  simp [rxStyle, Re.cat, Re.groups, groups_lit]

theorem rxMatch_style (n v : Str) (c0 c : Char) (d : Depth)
    (h0 : isSpace c0 = false) (hc : isSpace c = false) :
    rxMatch ("style ".toList ++ ((c0 :: n) ++ ' ' :: c :: v)) (rxStyle (c0 :: n) d)
      = (((rxColour d).run (c :: v) (caps0 d)).find? (fun r => r.1.isEmpty)).map
          (fun r => r.2.set 0 ("style ".toList ++ ((c0 :: n) ++ ' ' :: c :: v))) := by
  unfold rxMatch
  rw [groups_rxStyle, run_style n v c0 c d _ h0 hc]
  rfl

theorem rxMatch_style_head (n v : Str) (c0 c : Char) (d : Depth) (m1 : List Str)
    (tl : List (Str × List Str)) (h0 : isSpace c0 = false) (hc : isSpace c = false)
    (hrun : (rxColour d).run (c :: v) (caps0 d) = ([], m1) :: tl) :
    rxMatch ("style ".toList ++ ((c0 :: n) ++ ' ' :: c :: v)) (rxStyle (c0 :: n) d)
      = some (m1.set 0 ("style ".toList ++ ((c0 :: n) ++ ' ' :: c :: v))) := by
  rw [rxMatch_style n v c0 c d h0 hc, hrun]
  rfl

theorem rxMatch_style_nil (n v : Str) (c0 c : Char) (d : Depth)
    (h0 : isSpace c0 = false) (hc : isSpace c = false)
    (hrun : (rxColour d).run (c :: v) (caps0 d) = []) :
    rxMatch ("style ".toList ++ ((c0 :: n) ++ ' ' :: c :: v)) (rxStyle (c0 :: n) d) = none := by
  rw [rxMatch_style n v c0 c d h0 hc, hrun]
  rfl

theorem style_match (n : Str) (c0 : Char) (v : Colour) (hv : v.wf = true)
    (h0 : isSpace c0 = false) :
    (v.depth ≠ Depth.true24 →
      rxMatch ("style ".toList ++ ((c0 :: n) ++ ' ' :: v.text)) (rxStyle (c0 :: n) Depth.true24)
        = none) ∧
    (v.depth = Depth.named4 →
      rxMatch ("style ".toList ++ ((c0 :: n) ++ ' ' :: v.text)) (rxStyle (c0 :: n) Depth.pal256)
        = none) ∧
    ∃ m, rxMatch ("style ".toList ++ ((c0 :: n) ++ ' ' :: v.text)) (rxStyle (c0 :: n) v.depth)
        = some m ∧ ∀ E g, paint E v.depth g m = v.directive E g := by
  cases v with
  | hex hash ds =>
    simp only [Colour.wf, Bool.and_eq_true, beq_iff_eq] at hv
    obtain ⟨hl, hh⟩ := hv
    refine ⟨fun h => absurd rfl h, (fun h => Depth.noConfusion h), ?_⟩
    cases hash with
    | false =>
      match ds, hl, hh with
      | c :: cs, hl, hh =>
        have hc : isHex c = true := by
          simp only [List.all_cons, Bool.and_eq_true] at hh
          exact hh.1
        exact ⟨_, rxMatch_style_head n cs c0 c Depth.true24 _ _ h0 (isHex_facts c hc).1
          (run_hex _ _ hl hh), fun E g => by cases g <;> rfl⟩
    | true =>
      exact ⟨_, rxMatch_style_head n ds c0 '#' Depth.true24 _ _ h0 (by decide)
        (run_hex_hash _ _ hl hh), fun E g => by cases g <;> rfl⟩
  | pal ds =>
    simp only [Colour.wf, Bool.and_eq_true, decide_eq_true_eq] at hv
    obtain ⟨⟨h1, hl⟩, hd⟩ := hv
    match ds, h1, hl, hd with
    | c :: cs, h1, hl, hd =>
      have hc : isDigit c = true := by
        simp only [List.all_cons, Bool.and_eq_true] at hd
        exact hd.1
      have hs := (isHex_facts c (isHex_of_isDigit c hc)).1
      obtain ⟨tl, htl⟩ := run_pal (c :: cs) (caps0 Depth.pal256) h1 hl hd
      exact ⟨fun _ => rxMatch_style_nil n cs c0 c Depth.true24 h0 hs (run_pal_true24 _ _ hl hd),
        (fun h => Depth.noConfusion h),
        _, rxMatch_style_head n cs c0 c Depth.pal256 _ _ h0 hs htl,
        fun E g => by cases g <;> rfl⟩
  | named nm b =>
    simp only [Colour.wf, colourNames, List.contains_cons, List.contains_nil, Bool.or_false,
      Bool.or_eq_true, beq_iff_eq] at hv
    rcases hv with h | h | h | h | h | h | h | h <;> subst h <;> cases b <;>
      exact ⟨fun _ => rxMatch_style_nil n _ c0 _ Depth.true24 h0 (by decide) rfl,
        fun _ => rxMatch_style_nil n _ c0 _ Depth.pal256 h0 (by decide) rfl,
        _, rxMatch_style_head n _ c0 _ Depth.named4 _ _ h0 (by decide) rfl,
        fun E g => by cases g <;> rfl⟩

theorem firstMatch_cons_some (input : Str) (r : Rule) (rs : List Rule) (m : List Str)
    (h : rxMatch input r.rx = some m) : firstMatch input (r :: rs) = some (r, m) := by
  simp only [firstMatch, h]

theorem firstMatch_cons_none (input : Str) (r : Rule) (rs : List Rule)
    (h : rxMatch input r.rx = none) : firstMatch input (r :: rs) = firstMatch input rs := by
  simp only [firstMatch, h]

theorem style_dispatch (E : Env) (t : Tui) (n : Str) (c0 : Char) (tg : List (Slot × Ground))
    (rest : List Rule) (v : Colour) (hv : v.wf = true) (h0 : isSpace c0 = false) :
    ∃ r m, firstMatch ("style ".toList ++ ((c0 :: n) ++ ' ' :: v.text))
        (styleRules (c0 :: n) tg ++ rest) = some (r, m) ∧
      r.act E m ("style ".toList ++ ((c0 :: n) ++ ' ' :: v.text)) t =
        Except.ok (none, { t with ctx := { t.ctx with
          style := tg.foldl (fun st k => st.put k.1 (v.directive E k.2)) t.ctx.style } }) := by
  obtain ⟨h24, h256, m, hm, hp⟩ := style_match n c0 v hv h0
  cases hd : v.depth with
  | true24 =>
    rw [hd] at hm hp
    refine ⟨⟨rxStyle (c0 :: n) Depth.true24, actStyle tg Depth.true24⟩, m, ?_, ?_⟩
    · exact firstMatch_cons_some _ ⟨rxStyle (c0 :: n) Depth.true24, actStyle tg Depth.true24⟩ _ m hm
    · simp only [actStyle, hp]
  | pal256 =>
    rw [hd] at hm hp
    have h1 := h24 (by rw [hd]; exact fun h => Depth.noConfusion h)
    refine ⟨⟨rxStyle (c0 :: n) Depth.pal256, actStyle tg Depth.pal256⟩, m, ?_, ?_⟩
    · exact (firstMatch_cons_none _ ⟨rxStyle (c0 :: n) Depth.true24, actStyle tg Depth.true24⟩ _ h1).trans
        (firstMatch_cons_some _ ⟨rxStyle (c0 :: n) Depth.pal256, actStyle tg Depth.pal256⟩ _ m hm)
    · simp only [actStyle, hp]
  | named4 =>
    rw [hd] at hm hp
    have h1 := h24 (by rw [hd]; exact fun h => Depth.noConfusion h)
    have h2 := h256 hd
    refine ⟨⟨rxStyle (c0 :: n) Depth.named4, actStyle tg Depth.named4⟩, m, ?_, ?_⟩
    · exact (firstMatch_cons_none _ ⟨rxStyle (c0 :: n) Depth.true24, actStyle tg Depth.true24⟩ _ h1).trans
        ((firstMatch_cons_none _ ⟨rxStyle (c0 :: n) Depth.pal256, actStyle tg Depth.pal256⟩ _ h2).trans
          (firstMatch_cons_some _ ⟨rxStyle (c0 :: n) Depth.named4, actStyle tg Depth.named4⟩ _ m hm))
    · simp only [actStyle, hp]

theorem command_style (E : Env) (t : Tui) (hrun : t.ctx.is_running = true) (k : Nat) (n : Str)
    (c0 : Char) (tg : List (Slot × Ground)) (v : Colour) (hv : v.wf = true)
    (h0 : isSpace c0 = false)
    (hdrop : rules.drop k = styleRules (c0 :: n) tg ++ rules.drop (k + 3))
    (hskip : ∀ r ∈ rules.take k,
      rxMatch ("style ".toList ++ ((c0 :: n) ++ ' ' :: v.text)) r.rx = none) :
    command E ("style ".toList ++ ((c0 :: n) ++ ' ' :: v.text)) t =
      Except.ok (none, { t with ctx := { t.ctx with
        style := tg.foldl (fun st k => st.put k.1 (v.directive E k.2)) t.ctx.style } }) := by
  obtain ⟨r, m, hm, hact⟩ := style_dispatch E t n c0 tg (rules.drop (k + 3)) v hv h0
  have hfm : firstMatch ("style ".toList ++ ((c0 :: n) ++ ' ' :: v.text)) rules = some (r, m) := by
    rw [← List.take_append_drop k rules, firstMatch_skip _ _ _ hskip, hdrop]
    exact hm
  rw [command_of_match E _ t r m hrun (by simp) hfm]
  exact hact

set_option maxHeartbeats 4000000 in
theorem skip_primary (w : Str) :
    ∀ r ∈ rules.take 1, rxMatch ("style primary ".toList ++ w) r.rx = none := by
  simp [rules, styleTable, styleRules, rxStyle, rxQuit, rxMatch, Re.run, Re.cat, Re.lit, Re.words,
    plusRests, starRests, isSpace]

set_option maxHeartbeats 4000000 in
theorem skip_secondary (w : Str) :
    ∀ r ∈ rules.take 4, rxMatch ("style secondary ".toList ++ w) r.rx = none := by
  simp [rules, styleTable, styleRules, rxStyle, rxQuit, rxMatch, Re.run, Re.cat, Re.lit, Re.words,
    plusRests, starRests, isSpace]

set_option maxHeartbeats 4000000 in
theorem skip_status_primary (w : Str) :
    ∀ r ∈ rules.take 16, rxMatch ("style status-primary ".toList ++ w) r.rx = none := by
  simp [rules, styleTable, styleRules, rxStyle, rxQuit, rxMatch, Re.run, Re.cat, Re.lit, Re.words,
    plusRests, starRests, isSpace]

set_option maxHeartbeats 4000000 in
theorem skip_text_highlight (w : Str) :
    ∀ r ∈ rules.take 46, rxMatch ("style text-highlight ".toList ++ w) r.rx = none := by
  simp [rules, styleTable, styleRules, rxStyle, rxQuit, rxMatch, Re.run, Re.cat, Re.lit, Re.words,
    plusRests, starRests, isSpace]

theorem command_eval (E : Env) (input : Str) (t : Tui) (r : Rule) (m : List Str)
    (res : Except Exn (Outcome × Tui))
    (hrun : t.ctx.is_running = true) (hne : input ≠ [])
    (hm : firstMatch input rules = some (r, m)) (hres : r.act E m input t = res) :
    command E input t = res := by
  rw [command_of_match E input t r m hrun hne hm, hres]

/-! ## Lemmas on repeated `style` lines and on `sym` lines -/

set_option maxHeartbeats 4000000 in
theorem skip_nonstyle (w : Str) :
    ∀ r ∈ (⟨rxQuit, actQuit⟩ : Rule) :: rules.drop 55,
      rxMatch ("style".toList ++ w) r.rx = none := by
  simp [rules, styleTable, styleRules, rxQuit, rxSet, rxSym, rxCount, rxReset, rxOpen, rxNumber,
    rxOffset, rxOptArg, rxMatch, Re.run, Re.cat, Re.lit, Re.words, plusRests, starRests, isSpace]

theorem rules_split :
    rules = (⟨rxQuit, actQuit⟩ : Rule) ::
      (styleTable.flatMap (fun e => styleRules e.1 e.2) ++ rules.drop 55) := by
  rfl

theorem put_put (st : Style) (k : Slot) (v v1 : Str) : (st.put k v).put k v1 = st.put k v1 := by
  cases k <;> rfl

theorem put_comm (st : Style) (k k1 : Slot) (v v1 : Str) (h : k ≠ k1) :
    (st.put k v).put k1 v1 = (st.put k1 v1).put k v := by
  cases k <;> cases k1 <;> first | rfl | exact absurd rfl h

theorem foldl_put_absorb (f : Ground → Str) (tg : List (Slot × Ground)) (k : Slot)
    (v v1 : Str) (st : Style) :
    (tg.foldl (fun s e => s.put e.1 (f e.2)) (st.put k v1)).put k v
      = (tg.foldl (fun s e => s.put e.1 (f e.2)) st).put k v := by
  induction tg generalizing st with
  | nil => exact put_put st k v1 v
  | cons e es ih =>
    simp only [List.foldl_cons]
    by_cases h : k = e.1
    · subst h
      rw [put_put]
    · rw [put_comm st k e.1 v1 (f e.2) h]
      exact ih _

theorem foldl_put_twice (f : Ground → Str) (tg : List (Slot × Ground)) (st : Style) :
    tg.foldl (fun s e => s.put e.1 (f e.2)) (tg.foldl (fun s e => s.put e.1 (f e.2)) st)
      = tg.foldl (fun s e => s.put e.1 (f e.2)) st := by
  induction tg using List.reverseRecOn generalizing st with
  | nil => rfl
  | append_singleton es e ih =>
    simp only [List.foldl_append, List.foldl_cons, List.foldl_nil]
    rw [foldl_put_absorb, ih]

theorem actStyle_twice (E : Env) (m : List Str) (input : Str) (t : Tui)
    (tg : List (Slot × Ground)) (d : Depth) :
    ∃ t1, actStyle tg d E m input t = Except.ok (none, t1) ∧
      t1.ctx.is_running = t.ctx.is_running ∧
      actStyle tg d E m input t1 = Except.ok (none, t1) := by
  refine ⟨_, rfl, rfl, ?_⟩
  simp only [actStyle]
  rw [foldl_put_twice (fun g => paint E d g m) tg t.ctx.style]

theorem style_rule_twice (E : Env) (m : List Str) (input : Str) (t : Tui) (r : Rule)
    (hr : r ∈ styleTable.flatMap (fun e => styleRules e.1 e.2)) :
    ∃ t1, r.act E m input t = Except.ok (none, t1) ∧
      t1.ctx.is_running = t.ctx.is_running ∧
      r.act E m input t1 = Except.ok (none, t1) := by
  rw [List.mem_flatMap] at hr
  obtain ⟨e, he, hr⟩ := hr
  simp only [styleRules, List.mem_cons, List.mem_singleton, List.not_mem_nil, or_false] at hr
  rcases hr with h | h | h <;> subst h <;> exact actStyle_twice E m input t e.2 _

theorem command_twice_of_style (E : Env) (t : Tui) (w : Str) :
    (command E ("style".toList ++ w) t).bind (fun r => command E ("style".toList ++ w) r.2)
      = command E ("style".toList ++ w) t := by
  have hne : "style".toList ++ w ≠ [] := by simp
  cases hrun : t.ctx.is_running with
  | false =>
    have h1 : ∀ u : Tui, u.ctx.is_running = false → command E ("style".toList ++ w) u
        = Except.ok (none, { u with ctx := { u.ctx with is_running := false } }) := by
      intro u hu
      simp only [command, hu, Bool.not_false, if_true]
    rw [h1 t hrun]
    exact h1 _ rfl
  | true =>
    cases hfm : firstMatch ("style".toList ++ w) rules with
    | none =>
      rw [command_of_no_match E _ t hrun hne hfm]
      exact command_of_no_match E _ t hrun hne hfm
    | some p =>
      obtain ⟨r, m⟩ := p
      obtain ⟨hmem, hmatch⟩ := firstMatch_some _ _ _ _ hfm
      rw [command_of_match E _ t r m hrun hne hfm]
      rw [rules_split, List.mem_cons, List.mem_append] at hmem
      have hstyle : r ∈ styleTable.flatMap (fun e => styleRules e.1 e.2) := by
        rcases hmem with h | h | h
        · have := skip_nonstyle w r (by rw [h]; exact List.mem_cons_self _ _)
          rw [this] at hmatch
          cases hmatch
        · exact h
        · have := skip_nonstyle w r (List.mem_cons_of_mem _ h)
          rw [this] at hmatch
          cases hmatch
      obtain ⟨t1, h1, hr1, h2⟩ := style_rule_twice E m ("style".toList ++ w) t r hstyle
      rw [h1]
      show command E ("style".toList ++ w) t1 = _
      rw [command_of_match E _ t1 r m (hr1.trans hrun) hne hfm]
      exact h2

theorem run_optArg_glyph (g : Str) (m : List Str) (hg : glyphWf g = true) :
    ∃ tl, (rxOptArg (Re.rep isDot 0 4)).run (' ' :: g) m
      = ([], (m.set 2 g).set 1 (' ' :: g)) :: tl := by
  have h32 : isSpace ' ' = true := by decide
  simp only [glyphWf, Bool.and_eq_true, decide_eq_true_eq, Bool.not_eq_true',
    ] at hg
  obtain ⟨⟨⟨⟨h1, h4⟩, hdot⟩, hhead⟩, _⟩ := hg
  match g, h1, h4, hdot, hhead with
  | [a], _, _, hdot, hhead =>
    simp only [List.all_cons, List.all_nil, Bool.and_true, Bool.and_eq_true, List.head?_cons,
      Option.any_some] at hdot hhead
    simp [rxOptArg, Re.cat, Re.run, plusRests, starRests, repRests, h32, hdot, hhead]
  | [a, b], _, _, hdot, hhead =>
    simp only [List.all_cons, List.all_nil, Bool.and_true, Bool.and_eq_true, List.head?_cons,
      Option.any_some] at hdot hhead
    simp [rxOptArg, Re.cat, Re.run, plusRests, starRests, repRests, h32, hdot, hhead]
  | [a, b, c], _, _, hdot, hhead =>
    simp only [List.all_cons, List.all_nil, Bool.and_true, Bool.and_eq_true, List.head?_cons,
      Option.any_some] at hdot hhead
    simp [rxOptArg, Re.cat, Re.run, plusRests, starRests, repRests, h32, hdot, hhead]
  | [a, b, c, d], _, _, hdot, hhead =>
    simp only [List.all_cons, List.all_nil, Bool.and_true, Bool.and_eq_true, List.head?_cons,
      Option.any_some] at hdot hhead
    simp [rxOptArg, Re.cat, Re.run, plusRests, starRests, repRests, h32, hdot, hhead]

theorem trim_glyph (g : Str) (hg : glyphWf g = true) : trim (' ' :: g) = g := by
  have h32 : isSpace ' ' = true := by decide
  simp only [glyphWf, Bool.and_eq_true, decide_eq_true_eq, Bool.not_eq_true'] at hg
  obtain ⟨⟨⟨⟨h1, h4⟩, _⟩, hhead⟩, hlast⟩ := hg
  match g, h1, h4, hhead, hlast with
  | [a], _, _, hhead, hlast =>
    simp only [List.head?_cons, Option.any_some] at hhead
    simp [trim, List.dropWhile, h32, hhead]
  | [a, b], _, _, hhead, hlast =>
    simp only [List.head?_cons, Option.any_some, List.getLast?_cons_cons,
      List.getLast?_singleton] at hhead hlast
    simp [trim, List.dropWhile, h32, hhead, hlast]
  | [a, b, c], _, _, hhead, hlast =>
    simp only [List.head?_cons, Option.any_some, List.getLast?_cons_cons,
      List.getLast?_singleton] at hhead hlast
    simp [trim, List.dropWhile, h32, hhead, hlast]
  | [a, b, c, d], _, _, hhead, hlast =>
    simp only [List.head?_cons, Option.any_some, List.getLast?_cons_cons,
      List.getLast?_singleton] at hhead hlast
    simp [trim, List.dropWhile, h32, hhead, hlast]

theorem run_seq_eps (R : Re) (s : Str) (m : List Str) :
    (Re.seq R Re.eps).run s m = R.run s m := by
  simp [Re.run]

theorem groups_rxSym (n : Str) : (rxSym n).groups = 2 := by
  simp [rxSym, rxOptArg, Re.cat, Re.groups, groups_lit]

theorem rxMatch_sym (n g : Str) (c0 : Char) (h0 : isSpace c0 = false) (hg : glyphWf g = true) :
    rxMatch ("sym ".toList ++ ((c0 :: n) ++ ' ' :: g)) (rxSym (c0 :: n))
      = some ["sym ".toList ++ ((c0 :: n) ++ ' ' :: g), ' ' :: g, g] := by
  obtain ⟨tl, htl⟩ := run_optArg_glyph g (List.replicate (2 + 1) []) hg
  have e : "sym ".toList ++ ((c0 :: n) ++ ' ' :: g)
      = "sym".toList ++ (' ' :: c0 :: (n ++ ' ' :: g)) := by simp
  have e2 : c0 :: (n ++ ' ' :: g) = (c0 :: n) ++ (' ' :: g) := by simp
  unfold rxMatch
  rw [groups_rxSym]
  have hrun : (rxSym (c0 :: n)).run ("sym ".toList ++ ((c0 :: n) ++ ' ' :: g))
      (List.replicate (2 + 1) [])
      = ([], ((List.replicate (2 + 1) []).set 2 g).set 1 (' ' :: g)) :: tl := by
    rw [e]
    simp only [rxSym, Re.cat]
    rw [run_seq_lit, run_seq_spaces _ _ _ _ h0, e2, run_seq_lit, run_seq_eps, htl]
  rw [hrun]
  rfl

theorem actSym_glyph (E : Env) (t : Tui) (slots : List SymSlot) (line g : Str)
    (hg : glyphWf g = true) :
    actSym slots E [line, ' ' :: g, g] line t =
      if (g.drop 1).all topBit then Except.ok (none, t.setSyms slots g)
      else Except.ok (some (false, "error: invalid symbol '".toList ++ g ++ "'".toList), t) := by
  have htrim : trim (subAt [line, ' ' :: g, g] 1) = g := trim_glyph g hg
  simp only [actSym, htrim]
  simp only [glyphWf, Bool.and_eq_true, decide_eq_true_eq] at hg
  obtain ⟨⟨⟨⟨h1, _⟩, _⟩, _⟩, _⟩ := hg
  match g, h1 with
  | [a], _ => simp
  | a :: b :: r, _ => simp

theorem command_sym_at (E : Env) (t : Tui) (hrun : t.ctx.is_running = true) (j : Nat)
    (n g : Str) (c0 : Char) (slots : List SymSlot) (rest : List Rule)
    (h0 : isSpace c0 = false) (hg : glyphWf g = true)
    (hdrop : (rules.drop 59).drop j = ⟨rxSym (c0 :: n), actSym slots⟩ :: rest)
    (hskip1 : ∀ r ∈ rules.take 59,
      rxMatch ("sym ".toList ++ ((c0 :: n) ++ ' ' :: g)) r.rx = none)
    (hskip2 : ∀ r ∈ (rules.drop 59).take j,
      rxMatch ("sym ".toList ++ ((c0 :: n) ++ ' ' :: g)) r.rx = none) :
    command E ("sym ".toList ++ ((c0 :: n) ++ ' ' :: g)) t =
      if (g.drop 1).all topBit then Except.ok (none, t.setSyms slots g)
      else Except.ok (some (false, "error: invalid symbol '".toList ++ g ++ "'".toList), t) := by
  have hfm : firstMatch ("sym ".toList ++ ((c0 :: n) ++ ' ' :: g)) rules
      = some (⟨rxSym (c0 :: n), actSym slots⟩,
          ["sym ".toList ++ ((c0 :: n) ++ ' ' :: g), ' ' :: g, g]) := by
    rw [← List.take_append_drop 59 rules, firstMatch_skip _ _ _ hskip1,
      ← List.take_append_drop j (rules.drop 59), firstMatch_skip _ _ _ hskip2, hdrop]
    exact firstMatch_cons_some _ ⟨rxSym (c0 :: n), actSym slots⟩ _ _ (rxMatch_sym n g c0 h0 hg)
  rw [command_of_match E _ t _ _ hrun (by simp) hfm]
  exact actSym_glyph E t slots _ g hg

set_option maxHeartbeats 4000000 in
theorem skip_sym (w : Str) :
    ∀ r ∈ rules.take 59, rxMatch ("sym ".toList ++ w) r.rx = none := by
  simp [rules, styleTable, styleRules, rxStyle, rxQuit, rxSet, rxOptArg, rxMatch, Re.run, Re.cat,
    Re.lit, Re.words, plusRests, starRests, isSpace]

set_option maxHeartbeats 4000000 in
theorem skip_sym_names (w : Str) :
    (∀ r ∈ (rules.drop 59).take 1, rxMatch ("sym border-top ".toList ++ w) r.rx = none) ∧
    (∀ r ∈ (rules.drop 59).take 2, rxMatch ("sym border-top-mark ".toList ++ w) r.rx = none) ∧
    (∀ r ∈ (rules.drop 59).take 3, rxMatch ("sym border-bottom ".toList ++ w) r.rx = none) ∧
    (∀ r ∈ (rules.drop 59).take 4,
      rxMatch ("sym border-bottom-mark ".toList ++ w) r.rx = none) ∧
    (∀ r ∈ (rules.drop 59).take 5, rxMatch ("sym border.top.line ".toList ++ w) r.rx = none) ∧
    (∀ r ∈ (rules.drop 59).take 6,
      rxMatch ("sym border.bottom.line ".toList ++ w) r.rx = none) := by
  simp [rules, styleTable, styleRules, rxSym, rxOptArg, rxMatch, Re.run, Re.cat,
    Re.lit, Re.words, plusRests, starRests, isSpace]

/-! ## The command interpreter -/

/-- C2 (as amended): for every non-empty line that no rule matches, in a running
session, `command` returns the failure outcome with the message
`warning: unknown command '<input>'`, the input echoed verbatim, and leaves the
session unchanged. -/
theorem command_unknown (E : Env) (input : Str) (t : Tui) (hrun : t.ctx.is_running = true)
    (hne : input ≠ []) (hno : ∀ r ∈ rules, rxMatch input r.rx = none) :
    command E input t =
      Except.ok (some (false, "warning: unknown command '".toList ++ input ++ "'".toList), t) :=
  command_of_no_match E input t hrun hne (firstMatch_none input rules hno)

/-- The line `foo` is answered with `warning: unknown command 'foo'`. -/
theorem command_unknown_witness :
    command Env.sample "foo".toList Tui.sample =
      Except.ok (some (false, "warning: unknown command 'foo'".toList), Tui.sample) :=
  command_unknown Env.sample "foo".toList Tui.sample rfl (by decide) (by decide)

/-- C2 (as stated) fails: the line `foo` is not empty and matches no rule, the
session is running, and the message returned is not `unknown command 'foo'`. -/
theorem command_unknown_message_counterexample :
    "foo".toList ≠ [] ∧ (∀ r ∈ rules, rxMatch "foo".toList r.rx = none) ∧
    Tui.sample.ctx.is_running = true ∧
    command Env.sample "foo".toList Tui.sample ≠
      Except.ok (some (false, "unknown command 'foo'".toList), Tui.sample) := by
  refine ⟨by decide, by decide, rfl, ?_⟩
  have h : command Env.sample "foo".toList Tui.sample =
      Except.ok (some (false, "warning: unknown command 'foo'".toList), Tui.sample) := by rfl
  rw [h]
  intro hc
  injection hc with hc
  injection hc with hc _
  revert hc
  decide

/-- C3 (the code at the failing inputs): in every running session the lines
`wpm 2147483648` and `goto 18446744073709551616` match their rule and the
conversion of the number leaves `command` with the exception `out_of_range`;
the lines `prev: 3` and `next: 3` match the `prev` and `next` rules and leave
`command` with the exception `invalid_argument`. -/
theorem command_number_throws (E : Env) (t : Tui) (hrun : t.ctx.is_running = true) :
    command E "wpm 2147483648".toList t = Except.error Exn.out_of_range ∧
    command E "goto 18446744073709551616".toList t = Except.error Exn.out_of_range ∧
    command E "prev: 3".toList t = Except.error Exn.invalid_argument ∧
    command E "next: 3".toList t = Except.error Exn.invalid_argument :=
  ⟨command_eval E _ t _ _ _ hrun (by decide) rfl rfl,
   command_eval E _ t _ _ _ hrun (by decide) rfl rfl,
   command_eval E _ t _ _ _ hrun (by decide) rfl rfl,
   command_eval E _ t _ _ _ hrun (by decide) rfl rfl⟩

/-- The sample session is aborted by `wpm 2147483648`. -/
theorem command_number_throws_witness :
    command Env.sample "wpm 2147483648".toList Tui.sample = Except.error Exn.out_of_range :=
  (command_number_throws Env.sample Tui.sample rfl).1

/-- C4: for each colour depth and every colour value `v` of that depth,
`style primary v` assigns `v` to exactly the slots primary, background (as a
background colour), border, progress_fill, word_primary, prompt and success, and
`style secondary v` assigns `v` to exactly the slots secondary, progress_bar,
word_secondary, word_highlight, word_punct, word_quote and error; nothing else
of the session changes and no message is returned. -/
theorem command_style_grouped (E : Env) (t : Tui) (hrun : t.ctx.is_running = true)
    (v : Colour) (hv : v.wf = true) :
    command E ("style primary ".toList ++ v.text) t =
      Except.ok (none, { t with ctx := { t.ctx with style := { t.ctx.style with
        primary := v.directive E Ground.fg, background := v.directive E Ground.bg,
        border := v.directive E Ground.fg, progress_fill := v.directive E Ground.fg,
        word_primary := v.directive E Ground.fg, prompt := v.directive E Ground.fg,
        success := v.directive E Ground.fg } } }) ∧
    command E ("style secondary ".toList ++ v.text) t =
      Except.ok (none, { t with ctx := { t.ctx with style := { t.ctx.style with
        secondary := v.directive E Ground.fg, progress_bar := v.directive E Ground.fg,
        word_secondary := v.directive E Ground.fg, word_highlight := v.directive E Ground.fg,
        word_punct := v.directive E Ground.fg, word_quote := v.directive E Ground.fg,
        error := v.directive E Ground.fg } } }) := by
  constructor
  · exact command_style E t hrun 1 "rimary".toList 'p' _ v hv (by decide) rfl (skip_primary _)
  · exact command_style E t hrun 4 "econdary".toList 's' _ v hv (by decide) rfl (skip_secondary _)

/-- The line `style primary blue bright` in the sample session. -/
theorem command_style_grouped_witness :
    command Env.sample "style primary blue bright".toList Tui.sample =
      Except.ok (none, { Tui.sample with ctx := { Tui.sample.ctx with
        style := { Tui.sample.ctx.style with
          primary := "fg4:blue+".toList, background := "bg4:blue+".toList,
          border := "fg4:blue+".toList, progress_fill := "fg4:blue+".toList,
          word_primary := "fg4:blue+".toList, prompt := "fg4:blue+".toList,
          success := "fg4:blue+".toList } } }) :=
  (command_style_grouped Env.sample Tui.sample rfl (Colour.named "blue".toList true)
    (by decide)).1

/-- C5: for every colour value `v`, `style status-primary v` assigns `v` to the
slot primary only and `style text-highlight v` to the slot word_highlight only;
no other style slot and nothing else of the session changes. -/
theorem command_style_single (E : Env) (t : Tui) (hrun : t.ctx.is_running = true)
    (v : Colour) (hv : v.wf = true) :
    command E ("style status-primary ".toList ++ v.text) t =
      Except.ok (none, { t with ctx := { t.ctx with style := { t.ctx.style with
        primary := v.directive E Ground.fg } } }) ∧
    command E ("style text-highlight ".toList ++ v.text) t =
      Except.ok (none, { t with ctx := { t.ctx with style := { t.ctx.style with
        word_highlight := v.directive E Ground.fg } } }) := by
  constructor
  · exact command_style E t hrun 16 "tatus-primary".toList 's' _ v hv (by decide) rfl
      (skip_status_primary _)
  · exact command_style E t hrun 46 "ext-highlight".toList 't' _ v hv (by decide) rfl
      (skip_text_highlight _)

/-- The line `style text-highlight 208` in the sample session. -/
theorem command_style_single_witness :
    command Env.sample "style text-highlight 208".toList Tui.sample =
      Except.ok (none, { Tui.sample with ctx := { Tui.sample.ctx with
        style := { Tui.sample.ctx.style with word_highlight := "fg8:208".toList } } }) :=
  (command_style_single Env.sample Tui.sample rfl (Colour.pal "208".toList) (by decide)).2

/-- C8: for every toggle, `set <toggle>` without a value and with the value
`true`, `t`, `1` or `on` enables it, and with the value `false`, `f`, `0` or
`off` disables it; `border` sets both border flags, `view` hands the value to
the text model; nothing else changes and no message is returned. -/
theorem command_set (E : Env) (t : Tui) (hrun : t.ctx.is_running = true) (g : Toggle) :
    command E ("set ".toList ++ g.text) t = Except.ok (none, t.toggled g true) ∧
    (∀ w ∈ onWords, command E ("set ".toList ++ g.text ++ ' ' :: w) t
        = Except.ok (none, t.toggled g true)) ∧
    (∀ w ∈ offWords, command E ("set ".toList ++ g.text ++ ' ' :: w) t
        = Except.ok (none, t.toggled g false)) := by
  refine ⟨?_, ?_, ?_⟩
  · cases g <;> exact command_eval E _ t _ _ _ hrun (by decide) rfl rfl
  · intro w hw
    simp only [onWords, List.mem_cons, List.mem_singleton, List.not_mem_nil, or_false] at hw
    rcases hw with h | h | h | h <;> subst h <;> cases g <;>
      exact command_eval E _ t _ _ _ hrun (by decide) rfl rfl
  · intro w hw
    simp only [offWords, List.mem_cons, List.mem_singleton, List.not_mem_nil, or_false] at hw
    rcases hw with h | h | h | h <;> subst h <;> cases g <;>
      exact command_eval E _ t _ _ _ hrun (by decide) rfl rfl

/-- The line `set border off` in the sample session. -/
theorem command_set_witness :
    command Env.sample "set border off".toList Tui.sample =
      Except.ok (none, { Tui.sample with ctx := { Tui.sample.ctx with
        show_ := ⟨false, false, true, true⟩ } }) :=
  (command_set Env.sample Tui.sample rfl Toggle.border).2.2 "off".toList (by decide)

/-- C10: in every running session `quit`, `q` and `Q` clear `is_running`,
return no message and change nothing else. -/
theorem command_quit (E : Env) (t : Tui) (hrun : t.ctx.is_running = true) (line : Str)
    (hl : line ∈ ["quit".toList, "q".toList, "Q".toList]) :
    command E line t =
      Except.ok (none, { t with ctx := { t.ctx with is_running := false } }) := by
  simp only [List.mem_cons, List.mem_singleton, List.not_mem_nil, or_false] at hl
  rcases hl with h | h | h <;> subst h <;>
    exact command_eval E _ t _ _ _ hrun (by decide) rfl rfl

/-- The line `quit` in the sample session. -/
theorem command_quit_witness :
    command Env.sample "quit".toList Tui.sample =
      Except.ok (none, { Tui.sample with ctx := { Tui.sample.ctx with is_running := false } }) :=
  command_quit Env.sample Tui.sample rfl _ (by decide)

/-- C6: applying a line that begins with `style` twice gives the same outcome
and the same session as applying it once, in particular `style primary #336699`,
which in a running session sets the seven slots of `primary`; the line
`style primary FF00` is answered with the unknown-command outcome and leaves
the session, hence the style table, unchanged. -/
theorem command_style_idempotent (E : Env) (t : Tui) :
    (∀ w, (command E ("style".toList ++ w) t).bind
        (fun r => command E ("style".toList ++ w) r.2) = command E ("style".toList ++ w) t) ∧
    (command E "style primary #336699".toList t).bind
        (fun r => command E "style primary #336699".toList r.2)
      = command E "style primary #336699".toList t ∧
    (t.ctx.is_running = true →
      command E "style primary #336699".toList t =
        Except.ok (none, { t with ctx := { t.ctx with style := { t.ctx.style with
          primary := E.fg_true "#336699".toList, background := E.bg_true "#336699".toList,
          border := E.fg_true "#336699".toList, progress_fill := E.fg_true "#336699".toList,
          word_primary := E.fg_true "#336699".toList, prompt := E.fg_true "#336699".toList,
          success := E.fg_true "#336699".toList } } }) ∧
      command E "style primary FF00".toList t =
        Except.ok (some (false, "warning: unknown command 'style primary FF00'".toList), t)) :=
  ⟨command_twice_of_style E t, command_twice_of_style E t " primary #336699".toList,
    fun hrun => ⟨command_eval E _ t _ _ _ hrun (by decide) rfl rfl,
      command_of_no_match E _ t hrun (by decide) rfl⟩⟩

/-- The line `style primary FF00` in the sample session. -/
theorem command_style_idempotent_witness :
    command Env.sample "style primary FF00".toList Tui.sample =
      Except.ok (some (false, "warning: unknown command 'style primary FF00'".toList),
        Tui.sample) :=
  ((command_style_idempotent Env.sample Tui.sample).2.2 rfl).2

/-- C7 (the code at the failing inputs): in every running session the lines
`style primary 256` and `style primary 999` are accepted by the 8-bit rule: no
message is returned and the seven slots of `primary` are assigned the directive
composed from `256`, from `999`. -/
theorem command_style_above_255 (E : Env) (t : Tui) (hrun : t.ctx.is_running = true) :
    command E "style primary 256".toList t =
      Except.ok (none, { t with ctx := { t.ctx with style := { t.ctx.style with
        primary := E.fg_256 "256".toList, background := E.bg_256 "256".toList,
        border := E.fg_256 "256".toList, progress_fill := E.fg_256 "256".toList,
        word_primary := E.fg_256 "256".toList, prompt := E.fg_256 "256".toList,
        success := E.fg_256 "256".toList } } }) ∧
    command E "style primary 999".toList t =
      Except.ok (none, { t with ctx := { t.ctx with style := { t.ctx.style with
        primary := E.fg_256 "999".toList, background := E.bg_256 "999".toList,
        border := E.fg_256 "999".toList, progress_fill := E.fg_256 "999".toList,
        word_primary := E.fg_256 "999".toList, prompt := E.fg_256 "999".toList,
        success := E.fg_256 "999".toList } } }) :=
  ⟨command_eval E _ t _ _ _ hrun (by decide) rfl rfl,
   command_eval E _ t _ _ _ hrun (by decide) rfl rfl⟩

/-- The line `style primary 256` changes seven slots of the sample session. -/
theorem command_style_above_255_witness :
    command Env.sample "style primary 256".toList Tui.sample =
      Except.ok (none, { Tui.sample with ctx := { Tui.sample.ctx with
        style := { Tui.sample.ctx.style with
          primary := "fg8:256".toList, background := "bg8:256".toList,
          border := "fg8:256".toList, progress_fill := "fg8:256".toList,
          word_primary := "fg8:256".toList, prompt := "fg8:256".toList,
          success := "fg8:256".toList } } }) :=
  (command_style_above_255 Env.sample Tui.sample rfl).1


/-- C9 (as amended): for every `sym` name and every glyph of one to four bytes
(no line terminator, no white space at either end): a glyph of one byte is
stored as it is; a glyph of two to four bytes is stored iff every byte after
the first has its top bit set, and otherwise `command` returns the failure
outcome `error: invalid symbol '<glyph>'` and leaves the session unchanged. -/
theorem command_sym (E : Env) (t : Tui) (hrun : t.ctx.is_running = true) (k : SymName)
    (g : Str) (hg : glyphWf g = true) :
    (g.length = 1 →
      command E ("sym ".toList ++ k.text ++ ' ' :: g) t = Except.ok (none, t.withSym k g)) ∧
    (1 < g.length → (g.drop 1).all topBit = true →
      command E ("sym ".toList ++ k.text ++ ' ' :: g) t = Except.ok (none, t.withSym k g)) ∧
    (1 < g.length → (g.drop 1).all topBit = false →
      command E ("sym ".toList ++ k.text ++ ' ' :: g) t =
        Except.ok (some (false, "error: invalid symbol '".toList ++ g ++ "'".toList), t)) := by
  have key : ∃ slots, t.setSyms slots g = t.withSym k g ∧
      command E ("sym ".toList ++ k.text ++ ' ' :: g) t =
        if (g.drop 1).all topBit then Except.ok (none, t.setSyms slots g)
        else Except.ok (some (false, "error: invalid symbol '".toList ++ g ++ "'".toList), t) := by
    obtain ⟨s1, s2, s3, s4, s5, s6⟩ := skip_sym_names g
    cases k with
    | progress =>
      exact ⟨[SymSlot.progress], rfl,
        command_sym_at E t hrun 0 "rogress".toList g 'p' _ _ (by decide) hg rfl (skip_sym _)
          (fun r hr => absurd hr (List.not_mem_nil r))⟩
    | border_top =>
      exact ⟨[SymSlot.border_top], rfl,
        command_sym_at E t hrun 1 "order-top".toList g 'b' _ _ (by decide) hg rfl (skip_sym _) s1⟩
    | border_top_mark =>
      exact ⟨[SymSlot.border_top_mark], rfl,
        command_sym_at E t hrun 2 "order-top-mark".toList g 'b' _ _ (by decide) hg rfl
          (skip_sym _) s2⟩
    | border_bottom =>
      exact ⟨[SymSlot.border_bottom], rfl,
        command_sym_at E t hrun 3 "order-bottom".toList g 'b' _ _ (by decide) hg rfl
          (skip_sym _) s3⟩
    | border_bottom_mark =>
      exact ⟨[SymSlot.border_bottom_mark], rfl,
        command_sym_at E t hrun 4 "order-bottom-mark".toList g 'b' _ _ (by decide) hg rfl
          (skip_sym _) s4⟩
    | border_top_line =>
      exact ⟨[SymSlot.border_top, SymSlot.border_top_mark], rfl,
        command_sym_at E t hrun 5 "order.top.line".toList g 'b' _ _ (by decide) hg rfl
          (skip_sym _) s5⟩
    | border_bottom_line =>
      exact ⟨[SymSlot.border_bottom, SymSlot.border_bottom_mark], rfl,
        command_sym_at E t hrun 6 "order.bottom.line".toList g 'b' _ _ (by decide) hg rfl
          (skip_sym _) s6⟩
  obtain ⟨slots, hs, hc⟩ := key
  rw [hs] at hc
  refine ⟨fun h1 => ?_, fun _ hb => ?_, fun _ hb => ?_⟩
  · have : (g.drop 1).all topBit = true := by
      match g, h1 with
      | [a], _ => rfl
    rw [hc, this]
    rfl
  · rw [hc, hb]
    rfl
  · rw [hc, hb]
    rfl

/-- The three bytes of a block element are stored as the progress symbol. -/
theorem command_sym_witness :
    command Env.sample
        ("sym progress ".toList ++ [Char.ofNat 226, Char.ofNat 150, Char.ofNat 136]) Tui.sample =
      Except.ok (none, { Tui.sample with ctx := { Tui.sample.ctx with
        sym := { Tui.sample.ctx.sym with
          progress := [Char.ofNat 226, Char.ofNat 150, Char.ofNat 136] } } }) :=
  (command_sym Env.sample Tui.sample rfl SymName.progress
    [Char.ofNat 226, Char.ofNat 150, Char.ofNat 136] (by decide)).2.1 (by decide) (by decide)

/-- C9 (as stated) fails: a glyph of five bytes whose bytes after the first
all have the top bit set is not accepted; the line matches no rule and is
answered with the unknown-command outcome. -/
theorem command_sym_long_glyph_counterexample :
    1 < ('X' :: List.replicate 4 (Char.ofNat 128)).length ∧
    (('X' :: List.replicate 4 (Char.ofNat 128)).drop 1).all topBit = true ∧
    Tui.sample.ctx.is_running = true ∧
    command Env.sample ("sym progress X".toList ++ List.replicate 4 (Char.ofNat 128)) Tui.sample =
      Except.ok (some (false, unknownMsg
        ("sym progress X".toList ++ List.replicate 4 (Char.ofNat 128))), Tui.sample) ∧
    command Env.sample ("sym progress X".toList ++ List.replicate 4 (Char.ofNat 128)) Tui.sample ≠
      Except.ok (none, Tui.sample.withSym SymName.progress
        ('X' :: List.replicate 4 (Char.ofNat 128))) := by
  have h : command Env.sample ("sym progress X".toList ++ List.replicate 4 (Char.ofNat 128))
      Tui.sample = Except.ok (some (false, unknownMsg
        ("sym progress X".toList ++ List.replicate 4 (Char.ofNat 128))), Tui.sample) := by rfl
  refine ⟨by decide, by decide, rfl, h, ?_⟩
  rw [h]
  intro hc
  injection hc with hc
  injection hc with hc _
  cases hc


/-! ## The scheduler -/

/-- C11: in a session with `play = false`, `play` sets `play`, the mode label
`PLAY`, `counting_down`, `count_down = count_total` and `prompt.count = 0` and
changes nothing else; in a session with `play = true` it changes nothing. -/
theorem play_spec (t : Tui) :
    (t.ctx.state.play = false →
      play t = { t with ctx := { t.ctx with
        state := { t.ctx.state with
          play := true, counting_down := true, count_down := t.ctx.state.count_total },
        status := ⟨"PLAY".toList⟩,
        prompt := { t.ctx.prompt with count := 0 } } }) ∧
    (t.ctx.state.play = true → play t = t) := by
  constructor
  · intro h
    simp only [play, h, Bool.false_eq_true, if_false]
  · intro h
    simp only [play, h, if_true]

/-- The sample session is put in play. -/
theorem play_spec_witness :
    play Tui.sample = { Tui.sample with ctx := { Tui.sample.ctx with
        state := ⟨true, true, 2, 2, 250, 250⟩, status := ⟨"PLAY".toList⟩,
        prompt := ⟨[], 0, 6⟩ } } :=
  (play_spec Tui.sample).1 rfl

/-- C12: in a session with `play = true`, `pause` clears `play` and
`counting_down`, sets the mode label `PAUSE` and `count_down = 0`, invokes
`timer.stop` iff the timer is running and never invokes `timer.start`; nothing
else changes; in a session with `play = false` it changes nothing. -/
theorem pause_spec (A : Answers) (t : Tui) :
    (t.ctx.state.play = true →
      pause A t =
        { ctx := { t.ctx with
            state := { t.ctx.state with play := false, counting_down := false, count_down := 0 },
            status := ⟨"PAUSE".toList⟩ },
          fltrdr := if A.timer t.fltrdr then t.fltrdr ++ [FltrdrCall.timer_stop]
            else t.fltrdr } ∧
      (pause A t).fltrdr.count FltrdrCall.timer_start
        = t.fltrdr.count FltrdrCall.timer_start) ∧
    (t.ctx.state.play = false → pause A t = t) := by
  constructor
  · intro h
    cases ht : A.timer t.fltrdr <;> simp [pause, h, ht, Tui.call]
  · intro h
    simp only [pause, h, Bool.not_false, if_true]

/-- The sample session, put in play and paused during the countdown. -/
theorem pause_spec_witness :
    pause Answers.sample (play Tui.sample) =
      { Tui.sample with ctx := { Tui.sample.ctx with
          state := ⟨false, false, 0, 2, 250, 250⟩, status := ⟨"PAUSE".toList⟩ } } :=
  ((pause_spec Answers.sample (play Tui.sample)).1 rfl).1

/-- C14: `set_wait` sets `wait` to the text model's `get_wait()` when playing
and not counting down, to the integer quotient `60000 / get_wpm()` when playing
and counting down (for `get_wpm() > 0`), and to `refresh_rate` when not playing;
it changes no other field. -/
theorem set_wait_spec (A : Answers) (t : Tui) :
    (t.ctx.state.play = true → t.ctx.state.counting_down = false →
      set_wait A t = Except.ok { t with ctx := { t.ctx with
        state := { t.ctx.state with wait := A.get_wait t.fltrdr } } }) ∧
    (t.ctx.state.play = true → t.ctx.state.counting_down = true → 0 < A.get_wpm t.fltrdr →
      set_wait A t = Except.ok { t with ctx := { t.ctx with
        state := { t.ctx.state with wait := 60000 / A.get_wpm t.fltrdr } } }) ∧
    (t.ctx.state.play = false →
      set_wait A t = Except.ok { t with ctx := { t.ctx with
        state := { t.ctx.state with wait := t.ctx.state.refresh_rate } } }) := by
  refine ⟨fun hp hc => ?_, fun hp hc hw => ?_, fun hp => ?_⟩
  · simp only [set_wait, hp, hc, if_true, Bool.false_eq_true, if_false]
  · have hne : A.get_wpm t.fltrdr ≠ 0 := by omega
    have hd : Int.tdiv 60000 (A.get_wpm t.fltrdr) = 60000 / A.get_wpm t.fltrdr :=
      Int.tdiv_eq_ediv (by decide) (by omega)
    simp only [set_wait, hp, hc, if_true, cdiv, hne, if_false, hd]
    rfl
  · simp only [set_wait, hp, Bool.false_eq_true, if_false]

/-- The wait of a countdown tick at 300 words per minute is 200 ms. -/
theorem set_wait_spec_witness :
    set_wait Answers.sample (play Tui.sample) =
      Except.ok { play Tui.sample with ctx := { (play Tui.sample).ctx with
        state := { (play Tui.sample).ctx.state with wait := 200 } } } :=
  (set_wait_spec Answers.sample (play Tui.sample)).2.1 rfl rfl (by decide)

theorem countdown_tick_pos (t : Tui) (hc : t.ctx.state.counting_down = true)
    (h : t.ctx.state.count_down ≠ 0) :
    countdown_tick t = { t with ctx := { t.ctx with
      state := { t.ctx.state with count_down := t.ctx.state.count_down - 1 } } } := by
  simp only [countdown_tick, hc, h, if_true, if_false]

theorem countdown_tick_zero (t : Tui) (hc : t.ctx.state.counting_down = true)
    (h : t.ctx.state.count_down = 0) :
    countdown_tick t =
      ⟨{ t.ctx with state := { t.ctx.state with counting_down := false } },
        t.fltrdr ++ [FltrdrCall.timer_start]⟩ := by
  simp only [countdown_tick, hc, h, if_true, Tui.call]

theorem countdown_iterate (t : Tui) (n : Nat) (hc : t.ctx.state.counting_down = true)
    (hn : t.ctx.state.count_down = (n : Int)) (k : Nat) (hk : k ≤ n) :
    countdown_tick^[k] t = { t with ctx := { t.ctx with
      state := { t.ctx.state with count_down := (n : Int) - (k : Int) } } } := by
  induction k with
  | zero =>
    simp only [Function.iterate_zero, id_eq, Nat.cast_zero, sub_zero, ← hn]
  | succ k ih =>
    rw [Function.iterate_succ_apply', ih (by omega)]
    have h1 := countdown_tick_pos
      { t with ctx := { t.ctx with
          state := { t.ctx.state with count_down := (n : Int) - (k : Int) } } }
      hc (by show (n : Int) - (k : Int) ≠ 0; omega)
    rw [h1]
    simp only [Nat.cast_add, Nat.cast_one, sub_add_eq_sub_sub]

/-- C13 (as amended): from a session that is not playing, with
`count_total = n`, `play` followed by `k <= n` ticks leaves `counting_down` set
with `count_down = n - k` and the timer not started; `n + 1` ticks clear
`counting_down`, and the timer has been started exactly once.  Each tick that
finds `count_down` different from 0 decrements it and changes nothing else; the
tick that finds `count_down = 0` clears `counting_down` and starts the timer; a
tick outside a countdown changes nothing. -/
theorem countdown_spec (t : Tui) (n : Nat) (hp : t.ctx.state.play = false)
    (hn : t.ctx.state.count_total = (n : Int)) :
    (∀ k, k ≤ n →
      countdown_tick^[k] (play t) = { play t with ctx := { (play t).ctx with
        state := { (play t).ctx.state with count_down := (n : Int) - (k : Int) } } }) ∧
    countdown_tick^[n + 1] (play t) =
      ⟨{ (play t).ctx with
          state := { (play t).ctx.state with counting_down := false, count_down := 0 } },
        t.fltrdr ++ [FltrdrCall.timer_start]⟩ ∧
    (∀ u : Tui, u.ctx.state.counting_down = true → u.ctx.state.count_down ≠ 0 →
      countdown_tick u = { u with ctx := { u.ctx with
        state := { u.ctx.state with count_down := u.ctx.state.count_down - 1 } } }) ∧
    (∀ u : Tui, u.ctx.state.counting_down = true → u.ctx.state.count_down = 0 →
      countdown_tick u =
        ⟨{ u.ctx with state := { u.ctx.state with counting_down := false } },
          u.fltrdr ++ [FltrdrCall.timer_start]⟩) ∧
    (∀ u : Tui, u.ctx.state.counting_down = false → countdown_tick u = u) := by
  have hc : (play t).ctx.state.counting_down = true := by
    simp only [play, hp, Bool.false_eq_true, if_false]
  have hd : (play t).ctx.state.count_down = (n : Int) := by
    simp only [play, hp, Bool.false_eq_true, if_false, hn]
  have hf : (play t).fltrdr = t.fltrdr := by
    simp only [play, hp, Bool.false_eq_true, if_false]
  refine ⟨fun k hk => countdown_iterate _ n hc hd k hk, ?_, countdown_tick_pos,
    countdown_tick_zero, fun u hu => ?_⟩
  · rw [Function.iterate_succ_apply', countdown_iterate _ n hc hd n (le_refl n)]
    have h1 := countdown_tick_zero
      { play t with ctx := { (play t).ctx with
          state := { (play t).ctx.state with count_down := (n : Int) - (n : Int) } } }
      hc (by show (n : Int) - (n : Int) = 0; omega)
    rw [h1]
    simp only [sub_self, hf]
  · simp only [countdown_tick, hu, Bool.false_eq_true, if_false]

/-- With `count_total = 5` the sixth tick ends the countdown. -/
theorem countdown_spec_witness :
    countdown_tick^[6] (play Tui.paused5) =
      ⟨{ Tui.paused5.ctx with
          state := ⟨true, false, 0, 5, 250, 250⟩, status := ⟨"PLAY".toList⟩ },
        [FltrdrCall.timer_start]⟩ :=
  (countdown_spec Tui.paused5 5 rfl rfl).2.1

/-- C13 (as stated) fails: with `count_total = 5`, after `play` and five ticks
`counting_down` is still set and the timer has not been started; the fifth tick
is the one on which `count_down` reaches 0. -/
theorem countdown_five_ticks_counterexample :
    Tui.paused5.ctx.state.play = false ∧ Tui.paused5.ctx.state.count_total = 5 ∧
    (countdown_tick^[5] (play Tui.paused5)).ctx.state.counting_down = true ∧
    (countdown_tick^[5] (play Tui.paused5)).fltrdr.count FltrdrCall.timer_start = 0 ∧
    (countdown_tick^[4] (play Tui.paused5)).ctx.state.count_down = 1 ∧
    (countdown_tick^[5] (play Tui.paused5)).ctx.state.count_down = 0 := by
  decide


/-! ## The input poll -/

theorem render_ctx (t : Tui) :
    (render t).ctx.chars = t.ctx.chars ∧ (render t).ctx.state = t.ctx.state ∧
    (render t).ctx.is_running = t.ctx.is_running := by
  simp only [render]
  split <;> exact ⟨rfl, rfl, rfl⟩

theorem render_count (t : Tui) (c : FltrdrCall) (hc : ∀ n, c ≠ FltrdrCall.set_line n) :
    (render t).fltrdr.count c = t.fltrdr.count c := by
  have h : (render t).fltrdr = t.fltrdr ++ [FltrdrCall.set_line t.ctx.offset] := by
    simp only [render]
    split <;> rfl
  rw [h, List.count_append, List.count_singleton]
  have := hc t.ctx.offset
  simp [Ne.symm this]

theorem pause_ctx (A : Answers) (t : Tui) :
    (pause A t).ctx.chars = t.ctx.chars ∧ (pause A t).ctx.state.play = false ∧
    (pause A t).ctx.is_running = t.ctx.is_running := by
  unfold pause
  cases hp : t.ctx.state.play
  · exact ⟨rfl, hp, rfl⟩
  · cases A.timer t.fltrdr <;> exact ⟨rfl, rfl, rfl⟩

theorem pause_count (A : Answers) (t : Tui) (c : FltrdrCall) (hc : c ≠ FltrdrCall.timer_stop) :
    (pause A t).fltrdr.count c = t.fltrdr.count c := by
  unfold pause
  cases hp : t.ctx.state.play
  · rfl
  · cases A.timer t.fltrdr
    · rfl
    · show (t.fltrdr ++ [FltrdrCall.timer_stop]).count c = _
      rw [List.count_append, List.count_singleton]
      simp [Ne.symm hc]

/-- C15 (as amended): for every session whose key buffer has no pending first
key, and every remaining wait, when `get_input` reads `q`, `Q` or ctrl-c it
clears `is_running` and returns at once; the key is left in the first slot of
the key buffer, nothing else changes and the later reads are left unread. -/
theorem get_input_quit (K : KeyCodes) (A : Answers) (E : Env) (wait : Int) (t : Tui)
    (rest : List ReadRes) (c : Char) (hc : c ∈ ['q', 'Q', Char.ofNat 3])
    (h0 : t.ctx.chars.1 = 0) :
    get_input K A E wait t (ReadRes.byte c :: rest) =
      Except.ok (wait,
        { t with ctx := { t.ctx with is_running := false, chars := (ch c, t.ctx.chars.2) } },
        rest) := by
  simp only [List.mem_cons, List.mem_singleton, List.not_mem_nil, or_false] at hc
  rcases hc with h | h | h <;> subst h <;>
    simp [get_input, get_input_loop, get_key, read1, dispatch, ch, ctrl_key, narrow, h0,
      Tui.setChars]

/-- The key `q` read into the empty key buffer of the sample session. -/
theorem get_input_quit_witness :
    get_input KeyCodes.sample Answers.sample Env.sample 250 Tui.sample [ReadRes.byte 'q'] =
      Except.ok (250,
        { Tui.sample with ctx := { Tui.sample.ctx with is_running := false, chars := (113, 0) } },
        []) :=
  get_input_quit KeyCodes.sample Answers.sample Env.sample 250 Tui.sample [] 'q' (by decide) rfl

/-- C15 (as stated) fails: a first `g` leaves the key buffer `(g, 0)`, a state
of the wait loop; the key `q` read in the next wait increment is stored as the
second key of the sequence and `is_running` stays set, and so it is for ctrl-c
read after `g` in one poll. -/
theorem get_input_quit_pending_counterexample :
    Except.map (fun r => (r.2.1.ctx.chars, r.2.1.ctx.is_running))
      (wait_poll KeyCodes.sample Answers.sample Env.sample 250 Tui.sample [ReadRes.byte 'g'])
      = Except.ok ((103, 0), true) ∧
    Except.map (fun r => (r.2.1.ctx.chars, r.2.1.ctx.is_running))
      ((wait_poll KeyCodes.sample Answers.sample Env.sample 250 Tui.sample
          [ReadRes.byte 'g']).bind
        (fun r => wait_poll KeyCodes.sample Answers.sample Env.sample r.1 r.2.1
          [ReadRes.byte 'q']))
      = Except.ok ((103, 113), true) ∧
    Except.map (fun r => (r.2.1.ctx.chars, r.2.1.ctx.is_running))
      (get_input KeyCodes.sample Answers.sample Env.sample 250 Tui.sample
        [ReadRes.byte 'g', ReadRes.byte (Char.ofNat 3)])
      = Except.ok ((103, 3), true) := by
  refine ⟨by rfl, by rfl, by rfl⟩

theorem get_key_last (K : KeyCodes) (c : Char) :
    get_key K [ReadRes.byte c] = Except.ok ((c.toNat : Int), []) := by
  simp only [get_key, read1]
  split <;> rfl

theorem narrow_byte_ne (c : Char) (hne : c ≠ 'g') (hlt : c.toNat < 256) :
    narrow (c.toNat : Int) ≠ 103 := by
  have h : c.toNat ≠ 103 := by
    intro e
    apply hne
    apply Char.ext
    apply UInt32.ext
    exact e
  unfold narrow
  omega

theorem loop_end (K : KeyCodes) (A : Answers) (E : Env) (fuel : Nat) (single : Bool)
    (wait : Int) (t : Tui) (tty tty1 : List ReadRes) (k : Int)
    (hk : get_key K tty = Except.ok (k, tty1)) (hpos : ¬ k > 0) :
    get_input_loop K A E (fuel + 1) single wait t tty = Except.ok (wait, t, tty1) := by
  simp only [get_input_loop, hk, hpos, if_false]

theorem loop_first (K : KeyCodes) (A : Answers) (E : Env) (fuel : Nat) (single : Bool)
    (wait : Int) (t : Tui) (tty tty1 : List ReadRes) (k : Int)
    (hk : get_key K tty = Except.ok (k, tty1)) (hpos : k > 0) (h0 : t.ctx.chars.1 = 0) :
    get_input_loop K A E (fuel + 1) single wait t tty =
      match dispatch K A E k single wait (t.setChars (narrow k, t.ctx.chars.2)) tty1 with
      | Except.error e => Except.error e
      | Except.ok (Step.ret w t2 tty2) => Except.ok (w, t2, tty2)
      | Except.ok (Step.cont s t2 tty2) =>
        get_input_loop K A E fuel s wait
          (if s then (render t2).setChars (0, 0) else render t2) tty2 := by
  simp only [get_input_loop, hk, hpos, if_true, h0]

theorem loop_second (K : KeyCodes) (A : Answers) (E : Env) (fuel : Nat) (single : Bool)
    (wait : Int) (t : Tui) (tty tty1 : List ReadRes) (k : Int)
    (hk : get_key K tty = Except.ok (k, tty1)) (hpos : k > 0) (h0 : t.ctx.chars.1 ≠ 0) :
    get_input_loop K A E (fuel + 1) single wait t tty =
      match dispatch K A E t.ctx.chars.1 single wait (t.setChars (t.ctx.chars.1, narrow k))
          tty1 with
      | Except.error e => Except.error e
      | Except.ok (Step.ret w t2 tty2) => Except.ok (w, t2, tty2)
      | Except.ok (Step.cont s t2 tty2) =>
        get_input_loop K A E fuel s wait
          (if s then (render t2).setChars (0, 0) else render t2) tty2 := by
  simp only [get_input_loop, hk, hpos, if_true, h0, if_false]

theorem dispatch_g (K : KeyCodes) (A : Answers) (E : Env) (single : Bool) (wait : Int)
    (t : Tui) (tty : List ReadRes) :
    dispatch K A E 103 single wait t tty =
      if t.ctx.chars.2 = 103 then
        Except.ok (Step.cont single ((pause A t).call FltrdrCall.begin_) tty)
      else Except.ok (Step.cont false t tty) := by
  simp [dispatch, ch, ctrl_key]

/-- A first `g` read with an empty key buffer stays pending. -/
theorem loop_g_first (K : KeyCodes) (A : Answers) (E : Env) (fuel : Nat) (single : Bool)
    (wait : Int) (t : Tui) (rest : List ReadRes) (h : t.ctx.chars = (0, 0)) :
    get_input_loop K A E (fuel + 1) single wait t (ReadRes.byte 'g' :: rest) =
      get_input_loop K A E fuel false wait (render (t.setChars (103, 0))) rest := by
  have hk : get_key K (ReadRes.byte 'g' :: rest) = Except.ok (103, rest) := by
    simp [get_key, read1]
  have h1 : t.ctx.chars.1 = 0 := by rw [h]
  have h2 : t.ctx.chars.2 = 0 := by rw [h]
  rw [loop_first K A E fuel single wait t _ rest 103 hk (by decide) h1, dispatch_g]
  have e : narrow 103 = 103 := by decide
  simp [Tui.setChars, h2, e]

/-- The key read while a `g` is pending completes the sequence if it is a `g`
too; otherwise it is stored and nothing is invoked. -/
theorem loop_g_second (K : KeyCodes) (A : Answers) (E : Env) (fuel : Nat) (single : Bool)
    (wait : Int) (t : Tui) (tty tty1 : List ReadRes) (k : Int)
    (hk : get_key K tty = Except.ok (k, tty1)) (hpos : k > 0) (h : t.ctx.chars.1 = 103) :
    get_input_loop K A E (fuel + 1) single wait t tty =
      if narrow k = 103 then
        get_input_loop K A E fuel single wait
          (if single then
            (render ((pause A (t.setChars (103, narrow k))).call FltrdrCall.begin_)).setChars
              (0, 0)
           else render ((pause A (t.setChars (103, narrow k))).call FltrdrCall.begin_)) tty1
      else
        get_input_loop K A E fuel false wait (render (t.setChars (103, narrow k))) tty1 := by
  rw [loop_second K A E fuel single wait t _ tty1 k hk hpos (by rw [h]; decide), h, dispatch_g]
  by_cases e : narrow k = 103
  · simp [Tui.setChars, e]
  · simp [Tui.setChars, e]

theorem get_input_two (K : KeyCodes) (A : Answers) (E : Env) (wait : Int) (t : Tui)
    (a b : ReadRes) :
    get_input K A E wait t [a, b] = get_input_loop K A E (2 + 1) true wait t [a, b] :=
  rfl

theorem wait_poll_one (K : KeyCodes) (A : Answers) (E : Env) (wait : Int) (t : Tui)
    (a : ReadRes) :
    wait_poll K A E wait t [a] =
      get_input_loop K A E (1 + 1) true wait
        (if t.ctx.chars.2 ≠ 0 then t.setChars (0, 0) else t) [a] :=
  rfl

/-- The loop of `get_input` with nothing left to read ends at once. -/
theorem loop_nil (K : KeyCodes) (A : Answers) (E : Env) (fuel : Nat) (single : Bool)
    (wait : Int) (t : Tui) :
    get_input_loop K A E fuel single wait t [] = Except.ok (wait, t, []) := by
  cases fuel with
  | zero => rfl
  | succ n => exact loop_end K A E n single wait t [] [] 0 rfl (by decide)

/-- A key other than `g`, read while a `g` is pending, invokes nothing on the
text model but the hand-over of the offset. -/
theorem loop_g_other (K : KeyCodes) (A : Answers) (E : Env) (fuel : Nat) (single : Bool)
    (wait : Int) (t : Tui) (keys : List ReadRes) (k : Int)
    (hk : get_key K keys = Except.ok (k, [])) (hn : narrow k ≠ 103)
    (h : t.ctx.chars.1 = 103) :
    Except.map (fun r => r.2.1.fltrdr.count FltrdrCall.begin_)
      (get_input_loop K A E (fuel + 1) single wait t keys)
      = Except.ok (t.fltrdr.count FltrdrCall.begin_) := by
  have rn := fun u => render_count u FltrdrCall.begin_ (fun n => by simp)
  by_cases hpos : k > 0
  · rw [loop_g_second K A E fuel single wait t keys [] k hk hpos h, if_neg hn, loop_nil]
    simp [Except.map, rn, Tui.setChars]
  · rw [loop_end K A E fuel single wait t keys [] k hk hpos]
    rfl

/-- C16: from an empty key buffer, `g` followed by `g`, read in one poll or in
two consecutive wait increments, leaves `play` cleared and invokes `begin()`
once; `g` followed by any other byte, or by any other key that `get_key`
decodes (one whose code, stored in a `char` of the key buffer, is not that of
`g`), does not invoke `begin()`. -/
theorem get_input_gg (K : KeyCodes) (A : Answers) (E : Env) (wait : Int) (t : Tui)
    (h : t.ctx.chars = (0, 0)) :
    Except.map (fun r => (r.2.1.ctx.state.play, r.2.1.fltrdr.count FltrdrCall.begin_))
      (get_input K A E wait t [ReadRes.byte 'g', ReadRes.byte 'g'])
      = Except.ok (false, t.fltrdr.count FltrdrCall.begin_ + 1) ∧
    Except.map (fun r => (r.2.1.ctx.state.play, r.2.1.fltrdr.count FltrdrCall.begin_))
      ((wait_poll K A E wait t [ReadRes.byte 'g']).bind
        (fun r => wait_poll K A E r.1 r.2.1 [ReadRes.byte 'g']))
      = Except.ok (false, t.fltrdr.count FltrdrCall.begin_ + 1) ∧
    (∀ c : Char, c ≠ 'g' → c.toNat < 256 →
      Except.map (fun r => r.2.1.fltrdr.count FltrdrCall.begin_)
        (get_input K A E wait t [ReadRes.byte 'g', ReadRes.byte c])
        = Except.ok (t.fltrdr.count FltrdrCall.begin_) ∧
      Except.map (fun r => r.2.1.fltrdr.count FltrdrCall.begin_)
        ((wait_poll K A E wait t [ReadRes.byte 'g']).bind
          (fun r => wait_poll K A E r.1 r.2.1 [ReadRes.byte c]))
        = Except.ok (t.fltrdr.count FltrdrCall.begin_)) ∧
    (∀ (keys : List ReadRes) (k : Int), get_key K keys = Except.ok (k, []) → narrow k ≠ 103 →
      Except.map (fun r => r.2.1.fltrdr.count FltrdrCall.begin_)
        (get_input K A E wait t (ReadRes.byte 'g' :: keys))
        = Except.ok (t.fltrdr.count FltrdrCall.begin_) ∧
      Except.map (fun r => r.2.1.fltrdr.count FltrdrCall.begin_)
        ((wait_poll K A E wait t [ReadRes.byte 'g']).bind
          (fun r => wait_poll K A E r.1 r.2.1 keys))
        = Except.ok (t.fltrdr.count FltrdrCall.begin_)) := by
  have h1 : t.ctx.chars.1 = 0 := by rw [h]
  have h2 : t.ctx.chars.2 = 0 := by rw [h]
  have rc := fun u => (render_ctx u).1
  have rn := fun u => render_count u FltrdrCall.begin_ (fun n => by simp)
  have pp := fun u => (pause_ctx A u).2.1
  have pn := fun u => pause_count A u FltrdrCall.begin_ (by simp)
  have e103 : narrow 103 = 103 := by decide
  have hgk : ∀ rest, get_key K (ReadRes.byte 'g' :: rest) = Except.ok (103, rest) := by
    intro rest
    simp [get_key, read1]
  have hend : ∀ (fuel : Nat) (s : Bool) (u : Tui),
      get_input_loop K A E (fuel + 1) s wait u [] = Except.ok (wait, u, []) :=
    fun fuel s u => loop_end K A E fuel s wait u [] [] 0 rfl (by decide)
  have hpend : ∀ u : Tui, u.ctx.chars = (0, 0) →
      (render (u.setChars (103, 0))).ctx.chars.1 = 103 :=
    fun u _ => by rw [rc]; rfl
  have hclean : (if t.ctx.chars.2 ≠ 0 then t.setChars (0, 0) else t) = t := by
    simp [h2]
  have hkeep : (if (render (t.setChars (103, 0))).ctx.chars.2 ≠ 0
      then (render (t.setChars (103, 0))).setChars (0, 0)
      else render (t.setChars (103, 0))) = render (t.setChars (103, 0)) := by
    rw [rc]
    simp [Tui.setChars]
  have hstep : wait_poll K A E wait t [ReadRes.byte 'g']
      = Except.ok (wait, render (t.setChars (103, 0)), []) := by
    rw [wait_poll_one, hclean]
    exact (loop_g_first K A E 1 true wait t _ h).trans (hend 0 false _)
  have hother : ∀ (keys : List ReadRes) (k : Int), get_key K keys = Except.ok (k, []) →
      narrow k ≠ 103 →
      Except.map (fun r => r.2.1.fltrdr.count FltrdrCall.begin_)
        (get_input K A E wait t (ReadRes.byte 'g' :: keys))
        = Except.ok (t.fltrdr.count FltrdrCall.begin_) ∧
      Except.map (fun r => r.2.1.fltrdr.count FltrdrCall.begin_)
        ((wait_poll K A E wait t [ReadRes.byte 'g']).bind
          (fun r => wait_poll K A E r.1 r.2.1 keys))
        = Except.ok (t.fltrdr.count FltrdrCall.begin_) := by
    intro keys k hk hn
    constructor
    · show Except.map _ (get_input_loop K A E (keys.length + 1 + 1) true wait t _) = _
      rw [loop_g_first K A E (keys.length + 1) true wait t _ h,
        loop_g_other K A E keys.length false wait _ keys k hk hn (hpend t h), rn]
      rfl
    · rw [hstep]
      simp only [Except.bind]
      show Except.map _ (get_input_loop K A E (keys.length + 1) true wait _ keys) = _
      rw [hkeep, loop_g_other K A E keys.length true wait _ keys k hk hn (hpend t h), rn]
      rfl
  refine ⟨?_, ?_, ?_, hother⟩
  · rw [get_input_two]
    rw [loop_g_first K A E 2 true wait t _ h,
      loop_g_second K A E 1 false wait _ _ [] 103 (hgk []) (by decide) (hpend t h), e103,
      if_pos rfl, hend]
    simp [Except.map, rn, (render_ctx _).2.1, pp, Tui.call, pn, Tui.setChars]
  · rw [hstep]
    simp only [Except.bind]
    rw [wait_poll_one]
    rw [hkeep, loop_g_second K A E 1 true wait _ _ [] 103 (hgk []) (by decide) (hpend t h),
      e103, if_pos rfl, hend]
    simp [Except.map, rn, (render_ctx _).2.1, pp, Tui.call, pn, Tui.setChars]
  · intro c hc hlt
    exact hother [ReadRes.byte c] _ (get_key_last K c) (narrow_byte_ne c hc hlt)

/-- The keys `g`, `g` read by the sample session in one poll. -/
theorem get_input_gg_witness :
    Except.map (fun r => (r.2.1.ctx.state.play, r.2.1.fltrdr.count FltrdrCall.begin_))
      (get_input KeyCodes.sample Answers.sample Env.sample 250 Tui.sample
        [ReadRes.byte 'g', ReadRes.byte 'g'])
      = Except.ok (false, 1) :=
  (get_input_gg KeyCodes.sample Answers.sample Env.sample 250 Tui.sample rfl).1

theorem read1_length (tty : List ReadRes) :
    (read1 tty).2.length ≤ tty.length ∧ (tty ≠ [] → (read1 tty).2.length < tty.length) := by
  cases tty with
  | nil => exact ⟨le_refl _, fun h => absurd rfl h⟩
  | cons r rs => exact ⟨Nat.le_succ _, fun _ => Nat.lt_succ_self _⟩

theorem read1_eq (tty : List ReadRes) (r : ReadRes) (tty1 : List ReadRes)
    (h : read1 tty = (r, tty1)) : tty1.length ≤ tty.length := by
  have := (read1_length tty).1
  rw [h] at this
  exact this

theorem get_key_length (K : KeyCodes) (tty tty1 : List ReadRes) (k : Int)
    (h : get_key K tty = Except.ok (k, tty1)) :
    tty1.length ≤ tty.length ∧ (k > 0 → tty1.length < tty.length) := by
  cases tty with
  | nil =>
    simp [get_key, read1] at h
    obtain ⟨h1, h2⟩ := h
    subst h1
    subst h2
    simp
  | cons r rs =>
    have key : tty1.length ≤ rs.length := by
      unfold get_key at h
      simp only [read1] at h
      cases r with
      | failed => simp at h
      | nothing =>
        simp only [Except.ok.injEq, Prod.mk.injEq] at h
        rw [← h.2]
      | eagain =>
        simp only [Except.ok.injEq, Prod.mk.injEq] at h
        rw [← h.2]
      | byte c =>
        simp only at h
        split at h
        · split at h
          · rename_i s0 tty2 e2
            have l2 := read1_eq _ _ _ e2
            split at h
            · rename_i s1 tty3 e3
              have l3 := read1_eq _ _ _ e3
              split at h
              · split at h
                · split at h
                  · rename_i s2 tty4 e4
                    have l4 := read1_eq _ _ _ e4
                    split at h
                    · split at h <;>
                      · simp only [Except.ok.injEq, Prod.mk.injEq] at h
                        rw [← h.2]
                        omega
                    · simp only [Except.ok.injEq, Prod.mk.injEq] at h
                      rw [← h.2]
                      omega
                  · rename_i r4 tty4 _ e4
                    have l4 := read1_eq _ _ _ e4
                    simp only [Except.ok.injEq, Prod.mk.injEq] at h
                    rw [← h.2]
                    omega
                · repeat' split at h
                  all_goals
                    simp only [Except.ok.injEq, Prod.mk.injEq] at h
                    rw [← h.2]
                    omega
              · simp only [Except.ok.injEq, Prod.mk.injEq] at h
                rw [← h.2]
                omega
            · rename_i r3 tty3 _ e3
              have l3 := read1_eq _ _ _ e3
              simp only [Except.ok.injEq, Prod.mk.injEq] at h
              rw [← h.2]
              omega
          · rename_i r2 tty2 _ e2
            have l2 := read1_eq _ _ _ e2
            simp only [Except.ok.injEq, Prod.mk.injEq] at h
            rw [← h.2]
            omega
        · simp only [Except.ok.injEq, Prod.mk.injEq] at h
          rw [← h.2]
    simp only [List.length_cons]
    exact ⟨by omega, fun _ => by omega⟩




theorem command_prompt_rest (A : Answers) (E : Env) (t t1 : Tui) (tty tty1 : List ReadRes)
    (h : command_prompt A E t tty = Except.ok (t1, tty1)) :
    tty1 = tty.drop (A.readline tty).2.2 := by
  simp only [command_prompt] at h
  cases hc : command E (A.readline tty).1
      { ctx := { t.ctx with prompt := { t.ctx.prompt with count := 0 },
                            is_running := t.ctx.is_running && (A.readline tty).2.1 },
        fltrdr := t.fltrdr } with
  | error e =>
    rw [hc] at h
    cases h
  | ok res =>
    rw [hc] at h
    simp only [Except.bind] at h
    split at h <;>
    · simp only [Except.ok.injEq, Prod.mk.injEq] at h
      exact h.2.symm

theorem search_prompt_rest (b : Bool) (A : Answers) (t t1 : Tui) (tty tty1 : List ReadRes)
    (h : search_prompt b A t tty = Except.ok (t1, tty1)) :
    tty1 = tty.drop (A.readline_search tty).2.2 := by
  simp only [search_prompt, cdiv] at h
  repeat' split at h
  all_goals
    first
    | (simp only [Except.ok.injEq, Prod.mk.injEq] at h
       exact h.2.symm)
    | (simp only [Except.bind, Except.ok.injEq, Prod.mk.injEq] at h
       exact h.2.symm)
    | cases h

theorem command_prompt_le (A : Answers) (E : Env) (t : Tui) (tty : List ReadRes)
    (r : Tui × List ReadRes) (h : command_prompt A E t tty = Except.ok r) :
    r.2.length ≤ tty.length := by
  rw [command_prompt_rest A E t r.1 tty r.2 h]
  simp

theorem search_prompt_le (b : Bool) (A : Answers) (t : Tui) (tty : List ReadRes)
    (r : Tui × List ReadRes) (h : search_prompt b A t tty = Except.ok r) :
    r.2.length ≤ tty.length := by
  rw [search_prompt_rest b A t r.1 tty r.2 h]
  simp

theorem rest_ite (c : Prop) [Decidable c] (a b : Except Exn Step) (n : Nat)
    (ha : ∀ st, a = Except.ok st → st.rest.length ≤ n)
    (hb : ∀ st, b = Except.ok st → st.rest.length ≤ n) :
    ∀ st, (if c then a else b) = Except.ok st → st.rest.length ≤ n := by
  intro st h
  by_cases hc : c
  · rw [if_pos hc] at h
    exact ha st h
  · rw [if_neg hc] at h
    exact hb st h

theorem rest_ok (s : Step) (n : Nat) (hs : s.rest.length ≤ n) :
    ∀ st, Except.ok s = (Except.ok st : Except Exn Step) → st.rest.length ≤ n := by
  intro st h
  simp only [Except.ok.injEq] at h
  rw [← h]
  exact hs

theorem rest_bind (x : Except Exn (Tui × List ReadRes)) (single : Bool) (n : Nat)
    (hx : ∀ r, x = Except.ok r → r.2.length ≤ n) :
    ∀ st, x.bind (fun r => Except.ok (Step.cont single (r.1.setChars (0, 0)) r.2))
      = Except.ok st → st.rest.length ≤ n := by
  intro st h
  cases x with
  | error e => simp [Except.bind] at h
  | ok r =>
    simp only [Except.bind, Except.ok.injEq] at h
    rw [← h]
    exact hx r rfl

theorem dispatch_rest (K : KeyCodes) (A : Answers) (E : Env) (key : Int) (single : Bool)
    (wait : Int) (t : Tui) (tty : List ReadRes) :
    ∀ st, dispatch K A E key single wait t tty = Except.ok st →
      st.rest.length ≤ tty.length := by
  unfold dispatch
  repeat' first
    | apply rest_ite
    | exact rest_ok _ _ (le_refl _)
    | exact rest_bind _ _ _ (command_prompt_le A E _ tty)
    | exact rest_bind _ _ _ (search_prompt_le false A _ tty)
    | exact rest_bind _ _ _ (search_prompt_le true A _ tty)

/-- The loop of `get_input` does not depend on its fuel once the fuel exceeds
the number of reads left to the terminal. -/
theorem get_input_loop_fuel (K : KeyCodes) (A : Answers) (E : Env) (wait : Int) :
    ∀ (fuel fuel1 : Nat) (single : Bool) (t : Tui) (tty : List ReadRes),
      tty.length < fuel → tty.length < fuel1 →
      get_input_loop K A E fuel single wait t tty
        = get_input_loop K A E fuel1 single wait t tty := by
  intro fuel
  induction fuel with
  | zero => intro fuel1 single t tty h; omega
  | succ n ih =>
    intro fuel1 single t tty h h1
    cases fuel1 with
    | zero => omega
    | succ m =>
      simp only [get_input_loop]
      cases hk : get_key K tty with
      | error e => rfl
      | ok p =>
        obtain ⟨k, tty1⟩ := p
        have hl := get_key_length K tty tty1 k hk
        simp only []
        by_cases hpos : k > 0
        · simp only [hpos, if_true]
          have hlt := hl.2 hpos
          cases hd : dispatch K A E (if t.ctx.chars.1 = 0 then k else t.ctx.chars.1) single wait
              (if t.ctx.chars.1 = 0 then t.setChars (narrow k, t.ctx.chars.2)
                else t.setChars (t.ctx.chars.1, narrow k)) tty1 with
          | error e => rfl
          | ok st =>
            have hr := dispatch_rest K A E _ single wait _ tty1 st hd
            cases st with
            | ret w t2 tty2 => rfl
            | cont s t2 tty2 =>
              simp only [Step.rest] at hr
              exact ih m s _ tty2 (by omega) (by omega)
        · simp only [hpos, if_false]


/-- `get_input` has all the fuel its loop can use. -/
theorem get_input_fuel (K : KeyCodes) (A : Answers) (E : Env) (wait : Int) (t : Tui)
    (tty : List ReadRes) (fuel : Nat) (h : tty.length < fuel) :
    get_input_loop K A E fuel true wait t tty = get_input K A E wait t tty :=
  get_input_loop_fuel K A E wait fuel (tty.length + 1) true t tty h (Nat.lt_succ_self _)

/-! ## The status bar -/

theorem columns_append (a b : List Out) : columns (a ++ b) = columns a + columns b := by
  simp [columns]

theorem columns_cons (x : Out) (l : List Out) : columns (x :: l) = x.cols + columns l := by
  simp [columns]

theorem columns_nil : columns [] = 0 := rfl

theorem columns_replicate_space (n : Nat) : columns (List.replicate n Out.space) = n := by
  simp [columns, Out.cols]

theorem columns_statusMode (t : Tui) : columns (statusMode t) = t.ctx.status.mode.length + 3 := by
  simp [columns, statusMode, Out.cols]
  omega

theorem columns_statusStats (A : Answers) (t : Tui) :
    columns (statusStats A t) = (A.get_stats t.fltrdr).length + 2 := by
  simp [columns, statusStats, Out.cols]
  omega

/-- The status bar fits whenever the width is at least the length of the mode
label plus 6: `draw_status` raises no exception and writes exactly `width`
display columns when the status bar is shown (and none when it is hidden). -/
theorem draw_status_fits (A : Answers) (t : Tui)
    (hw : t.ctx.status.mode.length + 6 ≤ t.ctx.width) :
    (draw_status A t).2 = none ∧
    columns (draw_status A t).1 ≤ t.ctx.width ∧
    (t.ctx.show_.status = true → columns (draw_status A t).1 = t.ctx.width) := by
  cases hs : t.ctx.show_.status with
  | false => simp [draw_status, hs, columns]
  | true =>
    have hpad : pad_center A t = (t.ctx.width : Int) - (t.ctx.status.mode.length : Int)
        - (t.ctx.file.name.length : Int) - ((A.get_stats t.fltrdr).length : Int) - 6 := by
      simp only [pad_center, len_mode, len_file, len_stats]
      omega
    simp only [draw_status, hs, Bool.not_true, Bool.false_eq_true, if_false]
    split
    · simp only [columns_append, columns_replicate_space, columns_statusMode,
          columns_statusStats, columns_cons, columns_nil, Out.cols, List.length_drop,
          List.length_cons, List.length_nil, true_and]
      omega
    · split
      · simp only [columns_append, columns_replicate_space, columns_statusMode,
          columns_statusStats, columns_cons, columns_nil, Out.cols, List.length_drop,
          List.length_cons, List.length_nil, true_and]
        omega
      · split
        · simp only [columns_append, columns_replicate_space, columns_statusMode,
          columns_statusStats, columns_cons, columns_nil, Out.cols, List.length_drop,
          List.length_cons, List.length_nil, true_and]
          omega
        · split
          · simp only [columns_append, columns_replicate_space, columns_statusMode,
          columns_statusStats, columns_cons, columns_nil, Out.cols, List.length_drop,
          List.length_cons, List.length_nil, true_and]
            omega
          · split
            · omega
            · simp only [columns_append, columns_replicate_space, columns_statusMode,
          columns_statusStats, columns_cons, columns_nil, Out.cols, List.length_drop,
          List.length_cons, List.length_nil, true_and]
              omega

/-- C17: for each of the two mode labels that the program assigns, `PLAY`
(line 1086) and `PAUSE` (line 1108), every file name, every stats string and
every width at or above the minimum width, the minimum being at least 11
columns, `draw_status` raises no exception and the display columns it writes on
the status row never exceed the width: they are exactly `width` when the status
bar is shown (and none when it is hidden). -/
theorem draw_status_columns (A : Answers) (t : Tui)
    (hmode : t.ctx.status.mode = "PLAY".toList ∨ t.ctx.status.mode = "PAUSE".toList)
    (hmin : 11 ≤ t.ctx.width_min) (hw : t.ctx.width_min ≤ t.ctx.width) :
    (draw_status A t).2 = none ∧
    columns (draw_status A t).1 ≤ t.ctx.width ∧
    (t.ctx.show_.status = true → columns (draw_status A t).1 = t.ctx.width) := by
  have h4 : "PLAY".toList.length = 4 := rfl
  have h5 : "PAUSE".toList.length = 5 := rfl
  refine draw_status_fits A t ?_
  rcases hmode with h | h
  · rw [h, h4]
    omega
  · rw [h, h5]
    omega

/-- C17, witness: the status bar of the sample session, paused, with the file
name `report.txt`, at its minimum width of 20 columns: no exception and exactly
20 columns. -/
theorem draw_status_columns_witness :
    (Tui.report 20).ctx.status.mode = "PAUSE".toList ∧
    (Tui.report 20).ctx.width_min = 20 ∧
    (Tui.report 20).ctx.width = 20 ∧
    (draw_status Answers.sample (Tui.report 20)).2 = none ∧
    columns (draw_status Answers.sample (Tui.report 20)).1 = 20 :=
  ⟨rfl, rfl, rfl,
   (draw_status_columns Answers.sample (Tui.report 20) (Or.inr rfl) (by decide)
     (by decide)).1,
   (draw_status_columns Answers.sample (Tui.report 20) (Or.inr rfl) (by decide)
     (by decide)).2.2 rfl⟩

/-- C18 (as amended): in `draw_status` with `pad < 0` and `deficit = -pad`,
whenever `deficit` is less than the length of the file name, the file name is
rendered as `<` followed by the file name without its first `deficit + 1`
characters, and the stats string is rendered in full. -/
theorem draw_status_name_cut (A : Answers) (t : Tui) (hs : t.ctx.show_.status = true)
    (hpad : pad_center A t < 0) (hd : deficit A t < t.ctx.file.name.length) :
    draw_status A t =
      (statusMode t ++
        [Out.style t.ctx.style.secondary, Out.text ['<'],
         Out.text (t.ctx.file.name.drop (deficit A t + 1)), Out.clear, Out.space] ++
        [Out.style t.ctx.style.background, Out.style t.ctx.style.primary,
         Out.space, Out.text (A.get_stats t.fltrdr), Out.space, Out.clear] ++
        [Out.cursor_load], none) := by
  have h1 : ¬ pad_center A t ≥ 0 := by omega
  unfold deficit at hd
  simp only [draw_status, hs, Bool.not_true, Bool.false_eq_true, if_false, h1, hd, if_true,
    deficit, statusStats]

/-- At 30 columns the file name `report.txt` is cut to `<t.txt`. -/
theorem draw_status_name_cut_witness :
    draw_status Answers.sample (Tui.report 30) =
      (statusMode (Tui.report 30) ++
        [Out.style [], Out.text ['<'], Out.text "t.txt".toList, Out.clear, Out.space] ++
        [Out.style [], Out.style [], Out.space, Out.text "12% 300wpm 5m".toList, Out.space,
         Out.clear] ++
        [Out.cursor_load], none) :=
  draw_status_name_cut Answers.sample (Tui.report 30) rfl (by decide) (by decide)

/-- C18 (as stated) fails: with `deficit = 10`, less than `len_file = 12`, the
file name of ten characters is not rendered with a marker: a blank stands in
its place. -/
theorem draw_status_name_cut_counterexample :
    pad_center Answers.sample (Tui.report 24) = -10 ∧
    deficit Answers.sample (Tui.report 24) = 10 ∧
    len_file (Tui.report 24) = 12 ∧
    draw_status Answers.sample (Tui.report 24) =
      (statusMode (Tui.report 24) ++ [Out.space] ++
        statusStats Answers.sample (Tui.report 24) ++ [Out.cursor_load], none) ∧
    Out.text ['<'] ∉ (draw_status Answers.sample (Tui.report 24)).1 := by
  decide

/-- C19 (as amended): in the literal case `draw_status` computes
`len_mode = 6`, `len_file = 31`, `len_stats = 5` and `pad = -2` (deficit 2), and
renders the file name as `<` followed by the file name without its first 3
characters, with the stats shown in full. -/
theorem draw_status_literal :
    len_mode Tui.literal = 6 ∧ len_file Tui.literal = 31 ∧
    len_stats Answers.literal Tui.literal = 5 ∧
    pad_center Answers.literal Tui.literal = -2 ∧ deficit Answers.literal Tui.literal = 2 ∧
    draw_status Answers.literal Tui.literal =
      (statusMode Tui.literal ++
        [Out.style [], Out.text ['<'], Out.text "ery-long-document-name.txt".toList,
         Out.clear, Out.space] ++
        [Out.style [], Out.style [], Out.space, Out.text "12%".toList, Out.space, Out.clear] ++
        [Out.cursor_load], none) ∧
    "ery-long-document-name.txt".toList = "a-very-long-document-name.txt".toList.drop 3 := by
  decide

/-- C19 (as stated) fails: in the literal case `len_file` is not 32 and `pad`
is not -3, and the file name without its first 4 characters is not rendered. -/
theorem draw_status_literal_counterexample :
    Tui.literal.ctx.width = 40 ∧ Tui.literal.ctx.status.mode = "PLAY".toList ∧
    Tui.literal.ctx.file.name = "a-very-long-document-name.txt".toList ∧
    Answers.literal.get_stats Tui.literal.fltrdr = "12%".toList ∧
    len_file Tui.literal ≠ 32 ∧ pad_center Answers.literal Tui.literal ≠ -3 ∧
    Out.text ("a-very-long-document-name.txt".toList.drop 4)
      ∉ (draw_status Answers.literal Tui.literal).1 := by
  decide

/-- C20 (as amended): in `draw_status` with `deficit = -pad > 0`: when
`deficit` equals the length of the file name, the file name is omitted, one
blank is written in its place and the stats are rendered in full; when
`deficit` equals that length plus 1, the blank is omitted too and the stats are
rendered in full. -/
theorem draw_status_name_omitted (A : Answers) (t : Tui) (hs : t.ctx.show_.status = true)
    (hpad : pad_center A t < 0) :
    (deficit A t = t.ctx.file.name.length →
      draw_status A t =
        (statusMode t ++ [Out.space] ++
          [Out.style t.ctx.style.background, Out.style t.ctx.style.primary,
           Out.space, Out.text (A.get_stats t.fltrdr), Out.space, Out.clear] ++
          [Out.cursor_load], none)) ∧
    (deficit A t = t.ctx.file.name.length + 1 →
      draw_status A t =
        (statusMode t ++
          [Out.style t.ctx.style.background, Out.style t.ctx.style.primary,
           Out.space, Out.text (A.get_stats t.fltrdr), Out.space, Out.clear] ++
          [Out.cursor_load], none)) := by
  have h1 : ¬ pad_center A t ≥ 0 := by omega
  constructor
  · intro hd
    unfold deficit at hd
    simp only [draw_status, hs, Bool.not_true, Bool.false_eq_true, if_false, h1, hd,
      lt_self_iff_false, if_true, statusStats]
  · intro hd
    unfold deficit at hd
    have h2 : ¬ t.ctx.file.name.length + 1 < t.ctx.file.name.length := by omega
    have h3 : t.ctx.file.name.length + 1 ≠ t.ctx.file.name.length := by omega
    simp only [draw_status, hs, Bool.not_true, Bool.false_eq_true, if_false, h1, hd, h2, h3,
      if_true, statusStats]

/-- At 23 columns the file name `report.txt` and its blank are omitted. -/
theorem draw_status_name_omitted_witness :
    draw_status Answers.sample (Tui.report 23) =
      (statusMode (Tui.report 23) ++
        [Out.style [], Out.style [], Out.space, Out.text "12% 300wpm 5m".toList, Out.space,
         Out.clear] ++
        [Out.cursor_load], none) :=
  (draw_status_name_omitted Answers.sample (Tui.report 23) rfl (by decide)).2 (by decide)

/-- C20 (as stated) fails: with `deficit = len_file = 12` and with
`deficit = len_file + 1 = 13` the stats string is not rendered in full: it
is cut at the front and given a marker. -/
theorem draw_status_name_omitted_counterexample :
    deficit Answers.sample (Tui.report 22) = 12 ∧ len_file (Tui.report 22) = 12 ∧
    draw_status Answers.sample (Tui.report 22) =
      (statusMode (Tui.report 22) ++
        [Out.style [], Out.style [], Out.space, Out.text ['<'],
         Out.text "% 300wpm 5m".toList, Out.space, Out.clear, Out.cursor_load], none) ∧
    Out.text (Answers.sample.get_stats (Tui.report 22).fltrdr)
      ∉ (draw_status Answers.sample (Tui.report 22)).1 ∧
    deficit Answers.sample (Tui.report 21) = 13 ∧
    Out.text (Answers.sample.get_stats (Tui.report 21).fltrdr)
      ∉ (draw_status Answers.sample (Tui.report 21)).1 := by
  decide



/-! ## The status bar: the stats cut at the front -/

/-- C21 (as amended): in `draw_status` with `deficit = -pad`, when `deficit` is
greater than the length of the file name plus 1 and the stats string has at
least `deficit` minus the length of the file name characters, the file name is
omitted and the stats string is rendered as `<` followed by the stats string
without its first `deficit` minus the length of the file name characters. -/
theorem draw_status_stats_cut (A : Answers) (t : Tui) (hs : t.ctx.show_.status = true)
    (hpad : pad_center A t < 0) (hd : t.ctx.file.name.length + 1 < deficit A t)
    (hfit : deficit A t ≤ t.ctx.file.name.length + (A.get_stats t.fltrdr).length) :
    draw_status A t =
      (statusMode t ++
        [Out.style t.ctx.style.background, Out.style t.ctx.style.primary, Out.space,
         Out.text ['<'],
         Out.text ((A.get_stats t.fltrdr).drop (deficit A t - t.ctx.file.name.length)),
         Out.space, Out.clear, Out.cursor_load], none) := by
  have h1 : ¬ pad_center A t ≥ 0 := by omega
  unfold deficit at hd hfit
  have h2 : ¬ (pad_center A t).natAbs < t.ctx.file.name.length := by omega
  have h3 : (pad_center A t).natAbs ≠ t.ctx.file.name.length := by omega
  have h4 : (pad_center A t).natAbs ≠ t.ctx.file.name.length + 1 := by omega
  have h5 : ¬ (pad_center A t).natAbs - t.ctx.file.name.length
      > (A.get_stats t.fltrdr).length := by omega
  simp only [draw_status, hs, Bool.not_true, Bool.false_eq_true, if_false, h1, h2, h3, h4, h5,
    deficit]

/-- At 20 columns the stats lose their first four characters. -/
theorem draw_status_stats_cut_witness :
    draw_status Answers.sample (Tui.report 20) =
      (statusMode (Tui.report 20) ++
        [Out.style [], Out.style [], Out.space, Out.text ['<'],
         Out.text "300wpm 5m".toList, Out.space, Out.clear, Out.cursor_load], none) :=
  draw_status_stats_cut Answers.sample (Tui.report 20) rfl (by decide) (by decide) (by decide)

/-- C21 (as stated) fails: with `deficit = 14`, greater than `len_file + 1 = 13`,
the stats string is not rendered without its first `deficit - len_file = 2`
characters: four characters are dropped. -/
theorem draw_status_stats_cut_counterexample :
    deficit Answers.sample (Tui.report 20) = 14 ∧ len_file (Tui.report 20) = 12 ∧
    (len_file (Tui.report 20) + 1 < (deficit Answers.sample (Tui.report 20) : Int)) ∧
    Answers.sample.get_stats (Tui.report 20).fltrdr = "12% 300wpm 5m".toList ∧
    Out.text ("12% 300wpm 5m".toList.drop (14 - 12))
      ∉ (draw_status Answers.sample (Tui.report 20)).1 ∧
    Out.text ("12% 300wpm 5m".toList.drop 4)
      ∈ (draw_status Answers.sample (Tui.report 20)).1 := by
  decide


/-! ## The key decoder: plain keys and failures -/

/-- C22: `get_key` returns 0 when its first read delivers no byte (nothing
available, or the read would block), without a further read and without
failing; when the first byte read is not ESC it returns the value of that byte
and leaves the rest of the input unread. -/
theorem get_key_plain (K : KeyCodes) :
    (∀ rest, get_key K (ReadRes.nothing :: rest) = Except.ok (0, rest)) ∧
    (∀ rest, get_key K (ReadRes.eagain :: rest) = Except.ok (0, rest)) ∧
    get_key K [] = Except.ok (0, []) ∧
    (∀ (c : Char) rest, c ≠ ESC →
      get_key K (ReadRes.byte c :: rest) = Except.ok ((c.toNat : Int), rest)) := by
  refine ⟨fun _ => rfl, fun _ => rfl, rfl, fun c rest hc => ?_⟩
  have h : ¬ ((c.toNat : Int) = 27) := by
    intro e
    apply hc
    apply Char.ext
    apply UInt32.ext
    have : c.toNat = 27 := by omega
    exact this
  simp only [get_key, read1, h, if_false]

/-- The key `j` is returned and the `k` behind it is left unread. -/
theorem get_key_plain_witness :
    get_key KeyCodes.sample [ReadRes.byte 'j', ReadRes.byte 'k'] =
      Except.ok (106, [ReadRes.byte 'k']) :=
  (get_key_plain KeyCodes.sample).2.2.2 'j' [ReadRes.byte 'k'] (by decide)

/-- Once a first byte is read `get_key` returns a key. -/
theorem get_key_ok_of_byte (K : KeyCodes) (c : Char) (rest : List ReadRes) :
    ∃ r, get_key K (ReadRes.byte c :: rest) = Except.ok r := by
  simp only [get_key, read1]
  repeat' split
  all_goals exact ⟨_, rfl⟩

/-- C23 (as amended): `get_key` fails exactly when its first read reports an
error other than would-block, and then with the runtime error `read failed`;
it fails in no other case. -/
theorem get_key_fails_iff (K : KeyCodes) (tty : List ReadRes) :
    ((∃ e, get_key K tty = Except.error e) ↔ (read1 tty).1 = ReadRes.failed) ∧
    ((read1 tty).1 = ReadRes.failed →
      get_key K tty = Except.error (Exn.runtime_error "read failed".toList)) := by
  cases tty with
  | nil =>
    refine ⟨⟨fun h => ?_, fun h => ?_⟩, fun h => ?_⟩
    · obtain ⟨e, he⟩ := h
      cases he
    · cases h
    · cases h
  | cons r rest =>
    cases r with
    | byte c =>
      obtain ⟨v, hv⟩ := get_key_ok_of_byte K c rest
      refine ⟨⟨fun h => ?_, fun h => ?_⟩, fun h => ?_⟩
      · obtain ⟨e, he⟩ := h
        rw [hv] at he
        cases he
      · cases h
      · cases h
    | nothing =>
      refine ⟨⟨fun h => ?_, fun h => ?_⟩, fun h => ?_⟩
      · obtain ⟨e, he⟩ := h
        cases he
      · cases h
      · cases h
    | eagain =>
      refine ⟨⟨fun h => ?_, fun h => ?_⟩, fun h => ?_⟩
      · obtain ⟨e, he⟩ := h
        cases he
      · cases h
      · cases h
    | failed => exact ⟨⟨fun _ => rfl, fun _ => ⟨_, rfl⟩⟩, fun _ => rfl⟩

/-- A failed first read. -/
theorem get_key_fails_iff_witness :
    get_key KeyCodes.sample [ReadRes.failed, ReadRes.byte 'x'] =
      Except.error (Exn.runtime_error "read failed".toList) :=
  (get_key_fails_iff KeyCodes.sample [ReadRes.failed, ReadRes.byte 'x']).2 rfl

/-- C23 (as stated) fails: a read that fails after an ESC byte, as the first,
the second or the third byte of the continuation, does not make `get_key` fail:
it returns ESC (27). -/
theorem get_key_continuation_failure_counterexample :
    get_key KeyCodes.sample [ReadRes.byte ESC, ReadRes.failed] = Except.ok (27, []) ∧
    get_key KeyCodes.sample [ReadRes.byte ESC, ReadRes.byte '[', ReadRes.failed]
      = Except.ok (27, []) ∧
    get_key KeyCodes.sample
        [ReadRes.byte ESC, ReadRes.byte '[', ReadRes.byte '3', ReadRes.failed, ReadRes.byte 'x']
      = Except.ok (27, [ReadRes.byte 'x']) := by
  refine ⟨by rfl, by rfl, by rfl⟩


/-! ## The input poll: the caller's wait and the key buffer -/

/-- A property of the way the body of the loop is left holds of a conditional
when it holds of both branches. -/
theorem step_ite (P : Step → Prop) (c : Prop) [Decidable c] (a b : Except Exn Step)
    (ha : c → ∀ st, a = Except.ok st → P st)
    (hb : ¬ c → ∀ st, b = Except.ok st → P st) :
    ∀ st, (if c then a else b) = Except.ok st → P st := by
  intro st h
  by_cases hc : c
  · rw [if_pos hc] at h
    exact ha hc st h
  · rw [if_neg hc] at h
    exact hb hc st h

/-- A property holds of a step that is given outright. -/
theorem step_ok (P : Step → Prop) (s : Step) (hs : P s) :
    ∀ st, Except.ok s = (Except.ok st : Except Exn Step) → P st := by
  intro st h
  simp only [Except.ok.injEq] at h
  rw [← h]
  exact hs

/-- A property holds of a step that follows a prompt. -/
theorem step_bind (P : Step → Prop) (x : Except Exn (Tui × List ReadRes)) (single : Bool)
    (hx : ∀ r : Tui × List ReadRes, P (Step.cont single (r.1.setChars (0, 0)) r.2)) :
    ∀ st, x.bind (fun r => Except.ok (Step.cont single (r.1.setChars (0, 0)) r.2))
      = Except.ok st → P st := by
  intro st h
  cases x with
  | error e => simp [Except.bind] at h
  | ok r =>
    simp only [Except.bind, Except.ok.injEq] at h
    rw [← h]
    exact hx r

theorem dispatch_wait (K : KeyCodes) (A : Answers) (E : Env) (key : Int) (single : Bool)
    (wait : Int) (t : Tui) (tty : List ReadRes) :
    ∀ st, dispatch K A E key single wait t tty = Except.ok st → st.waitOk wait := by
  unfold dispatch
  repeat' first
    | (refine step_ite (Step.waitOk wait) _ _ _ (fun hc => ?_) (fun hc => ?_))
    | (refine step_bind (Step.waitOk wait) _ _ (fun r => trivial))
    | (refine step_ok (Step.waitOk wait) _ ?_)
  all_goals first
    | trivial
    | exact Or.inl rfl
    | (right
       refine ⟨rfl, ?_⟩
       simp_all [play, Tui.setChars])

theorem get_input_loop_wait (K : KeyCodes) (A : Answers) (E : Env) (wait : Int) :
    ∀ (fuel : Nat) (single : Bool) (t : Tui) (tty : List ReadRes)
      (r : Int × Tui × List ReadRes),
      get_input_loop K A E fuel single wait t tty = Except.ok r →
      r.1 = wait ∨ (r.1 = 0 ∧ r.2.1.ctx.state.play = true) := by
  intro fuel
  induction fuel with
  | zero =>
    intro single t tty r h
    simp only [get_input_loop, Except.ok.injEq] at h
    rw [← h]
    exact Or.inl rfl
  | succ n ih =>
    intro single t tty r h
    simp only [get_input_loop] at h
    cases hk : get_key K tty with
    | error e =>
      rw [hk] at h
      cases h
    | ok p =>
      obtain ⟨k, tty1⟩ := p
      rw [hk] at h
      simp only [] at h
      by_cases hpos : k > 0
      · simp only [hpos, if_true] at h
        cases hd : dispatch K A E (if t.ctx.chars.1 = 0 then k else t.ctx.chars.1) single wait
            (if t.ctx.chars.1 = 0 then t.setChars (narrow k, t.ctx.chars.2)
              else t.setChars (t.ctx.chars.1, narrow k)) tty1 with
        | error e =>
          rw [hd] at h
          cases h
        | ok st =>
          have hw := dispatch_wait K A E _ single wait _ tty1 st hd
          rw [hd] at h
          cases st with
          | ret w t2 tty2 =>
            simp only [Except.ok.injEq] at h
            rw [← h]
            exact hw
          | cont s t2 tty2 => exact ih s _ tty2 r h
      · simp only [hpos, if_false, Except.ok.injEq] at h
        rw [← h]
        exact Or.inl rfl

/-- C25 (as amended): the key that resumes playback (space in a paused session,
read with the first slot of the key buffer empty) makes `get_input` return at
once with the caller's wait set to 0; space in a playing session pauses and
leaves the caller's wait as it is; and whenever `get_input` returns, the wait
is the one it was called with, or it is 0 and the session is playing. -/
theorem get_input_wait (K : KeyCodes) (A : Answers) (E : Env) (wait : Int) (t : Tui) :
    (t.ctx.state.play = false → t.ctx.chars.1 = 0 → ∀ rest,
      get_input K A E wait t (ReadRes.byte ' ' :: rest) =
        Except.ok (0, (play (t.setChars (32, t.ctx.chars.2))).setChars (0, 0), rest)) ∧
    (t.ctx.state.play = true → t.ctx.chars = (0, 0) →
      get_input K A E wait t [ReadRes.byte ' '] =
        Except.ok (wait, (render (pause A (t.setChars (32, 0)))).setChars (0, 0), [])) ∧
    (∀ (tty : List ReadRes) (r : Int × Tui × List ReadRes),
      get_input K A E wait t tty = Except.ok r →
      r.1 = wait ∨ (r.1 = 0 ∧ r.2.1.ctx.state.play = true)) := by
  refine ⟨fun hp h0 rest => ?_, fun hp h0 => ?_, fun tty r h => ?_⟩
  · have hk : get_key K (ReadRes.byte ' ' :: rest) = Except.ok (32, rest) := by
      simp [get_key, read1]
    show get_input_loop K A E (rest.length + 1 + 1) true wait t _ = _
    rw [loop_first K A E (rest.length + 1) true wait t _ rest 32 hk (by decide) h0]
    have e : narrow 32 = 32 := by decide
    simp [dispatch, ch, ctrl_key, Tui.setChars, hp, e]
  · have hk : get_key K [ReadRes.byte ' '] = Except.ok (32, []) := by
      simp [get_key, read1]
    have h1 : t.ctx.chars.1 = 0 := by rw [h0]
    have h2 : t.ctx.chars.2 = 0 := by rw [h0]
    show get_input_loop K A E (1 + 1) true wait t _ = _
    rw [loop_first K A E 1 true wait t _ [] 32 hk (by decide) h1]
    have e : narrow 32 = 32 := by decide
    simp [dispatch, ch, ctrl_key, Tui.setChars, hp, e, h2, loop_nil]
  · exact get_input_loop_wait K A E wait _ true t tty r h

/-- Space in the paused sample session. -/
theorem get_input_wait_witness :
    get_input KeyCodes.sample Answers.sample Env.sample 250 Tui.sample [ReadRes.byte ' '] =
      Except.ok (0, (play (Tui.sample.setChars (32, 0))).setChars (0, 0), []) :=
  (get_input_wait KeyCodes.sample Answers.sample Env.sample 250 Tui.sample).1 rfl rfl []

/-- C25 (as stated) fails: space and ESC read by a counting-down session pause
it (`play` and `counting_down` are cleared), and the caller's wait of 250 is
still 250 when `get_input` returns. -/
theorem get_input_wait_pause_counterexample :
    (play Tui.sample).ctx.state.play = true ∧ (play Tui.sample).ctx.state.counting_down = true ∧
    Except.map (fun r => (r.1, r.2.1.ctx.state.play, r.2.1.ctx.state.counting_down))
      (get_input KeyCodes.sample Answers.sample Env.sample 250 (play Tui.sample)
        [ReadRes.byte ' '])
      = Except.ok (250, false, false) ∧
    Except.map (fun r => (r.1, r.2.1.ctx.state.play))
      (get_input KeyCodes.sample Answers.sample Env.sample 250 (play Tui.sample)
        [ReadRes.byte ESC])
      = Except.ok (250, false) := by
  refine ⟨rfl, rfl, by rfl, by rfl⟩

theorem dispatch_buf (K : KeyCodes) (A : Answers) (E : Env) (key : Int)
    (wait : Int) (t : Tui) (tty : List ReadRes) :
    ∀ st, dispatch K A E key true wait t tty = Except.ok st → st.bufOk key t := by
  unfold dispatch
  repeat' first
    | (refine step_ite (Step.bufOk key t) _ _ _ (fun hc => ?_) (fun hc => ?_))
    | (refine step_bind (Step.bufOk key t) _ _ (fun r => Or.inl rfl))
    | (refine step_ok (Step.bufOk key t) _ ?_)
  all_goals first
    | exact Or.inl rfl
    | exact Or.inr rfl
    | exact Or.inr ⟨by assumption, rfl⟩

theorem get_input_loop_buf (K : KeyCodes) (A : Answers) (E : Env) (wait : Int) :
    ∀ (fuel : Nat) (single : Bool) (t : Tui) (tty : List ReadRes)
      (r : Int × Tui × List ReadRes),
      ((single = true ∧ t.ctx.chars = (0, 0)) ∨ t.ctx.chars.1 = 103) →
      get_input_loop K A E fuel single wait t tty = Except.ok r →
      r.2.1.ctx.chars = (0, 0) ∨ r.2.1.ctx.chars.1 = 103 ∨ r.2.1.ctx.is_running = false := by
  intro fuel
  induction fuel with
  | zero =>
    intro single t tty r hI h
    simp only [get_input_loop, Except.ok.injEq] at h
    rw [← h]
    rcases hI with ⟨_, h0⟩ | h1
    · exact Or.inl h0
    · exact Or.inr (Or.inl h1)
  | succ n ih =>
    intro single t tty r hI h
    cases hk : get_key K tty with
    | error e =>
      simp only [get_input_loop, hk] at h
      cases h
    | ok p =>
      obtain ⟨k, tty1⟩ := p
      by_cases hpos : k > 0
      · rcases hI with ⟨hs, h0⟩ | h1
        · have h01 : t.ctx.chars.1 = 0 := by rw [h0]
          subst hs
          rw [loop_first K A E n true wait t tty tty1 k hk hpos h01] at h
          cases hd : dispatch K A E k true wait (t.setChars (narrow k, t.ctx.chars.2)) tty1 with
          | error e =>
            rw [hd] at h
            cases h
          | ok st =>
            have hb := dispatch_buf K A E k wait _ tty1 st hd
            rw [hd] at h
            cases st with
            | ret w t2 tty2 =>
              simp only [Except.ok.injEq] at h
              rw [← h]
              rcases hb with hb | hb
              · exact Or.inr (Or.inr hb)
              · exact Or.inl hb
            | cont s t2 tty2 =>
              simp only [] at h
              rcases hb with hb | ⟨hk103, ht2⟩
              · subst hb
                exact ih true _ tty2 r (Or.inl ⟨rfl, rfl⟩) h
              · subst ht2
                subst hk103
                cases s
                · refine ih false _ tty2 r (Or.inr ?_) h
                  simp only [Bool.false_eq_true, if_false]
                  rw [(render_ctx _).1]
                  rfl
                · exact ih true _ tty2 r (Or.inl ⟨rfl, rfl⟩) h
        · rw [loop_g_second K A E n single wait t tty tty1 k hk hpos h1] at h
          by_cases e : narrow k = 103
          · rw [if_pos e] at h
            refine ih single _ tty1 r ?_ h
            cases single
            · right
              simp only [Bool.false_eq_true, if_false]
              rw [(render_ctx _).1]
              show (pause A (t.setChars (103, narrow k))).ctx.chars.1 = 103
              rw [(pause_ctx A _).1]
              rfl
            · exact Or.inl ⟨rfl, rfl⟩
          · rw [if_neg e] at h
            refine ih false _ tty1 r (Or.inr ?_) h
            rw [(render_ctx _).1]
            rfl
      · rw [loop_end K A E n single wait t tty tty1 k hk hpos] at h
        simp only [Except.ok.injEq] at h
        rw [← h]
        rcases hI with ⟨_, h0⟩ | h1
        · exact Or.inl h0
        · exact Or.inr (Or.inl h1)

/-- C24 (as amended): when `get_input`, entered with the key buffer empty or
with a first `g` pending, returns, the key buffer is all zero unless its first
slot holds `g` or a quit key has stopped the session.  From an empty buffer: a
first `g` stays pending; a second `g` read in the next poll leaves the buffer
empty; a second `g` read in the same poll leaves `(g, g)` in the buffer; a key
other than `g` after the `g`, in the same poll or in the next, leaves both keys
in the buffer; and the poll of the wait loop clears a buffer whose second slot
is filled before it reads. -/
theorem get_input_buffer (K : KeyCodes) (A : Answers) (E : Env) (wait : Int) (t : Tui)
    (h : t.ctx.chars = (0, 0)) :
    (∀ (u : Tui) (tty : List ReadRes) (r : Int × Tui × List ReadRes),
      (u.ctx.chars = (0, 0) ∨ u.ctx.chars = (103, 0)) →
      get_input K A E wait u tty = Except.ok r →
      r.2.1.ctx.chars = (0, 0) ∨ r.2.1.ctx.chars.1 = 103 ∨ r.2.1.ctx.is_running = false) ∧
    Except.map (fun r => r.2.1.ctx.chars) (get_input K A E wait t [ReadRes.byte 'g'])
      = Except.ok (103, 0) ∧
    Except.map (fun r => r.2.1.ctx.chars)
      ((wait_poll K A E wait t [ReadRes.byte 'g']).bind
        (fun r => wait_poll K A E r.1 r.2.1 [ReadRes.byte 'g']))
      = Except.ok (0, 0) ∧
    Except.map (fun r => r.2.1.ctx.chars)
      (get_input K A E wait t [ReadRes.byte 'g', ReadRes.byte 'g'])
      = Except.ok (103, 103) ∧
    (∀ c : Char, c ≠ 'g' → 0 < c.toNat → c.toNat < 256 →
      narrow (c.toNat : Int) ≠ 0 ∧
      Except.map (fun r => r.2.1.ctx.chars)
        (get_input K A E wait t [ReadRes.byte 'g', ReadRes.byte c])
        = Except.ok (103, narrow (c.toNat : Int)) ∧
      Except.map (fun r => r.2.1.ctx.chars)
        ((wait_poll K A E wait t [ReadRes.byte 'g']).bind
          (fun r => wait_poll K A E r.1 r.2.1 [ReadRes.byte c]))
        = Except.ok (103, narrow (c.toNat : Int))) ∧
    (∀ u : Tui, u.ctx.chars.2 ≠ 0 →
      wait_poll K A E wait u [] = Except.ok (wait, u.setChars (0, 0), [])) := by
  have h1 : t.ctx.chars.1 = 0 := by rw [h]
  have h2 : t.ctx.chars.2 = 0 := by rw [h]
  have rc := fun u => (render_ctx u).1
  have pc := fun u => (pause_ctx A u).1
  have e103 : narrow 103 = 103 := by decide
  have hgk : ∀ rest, get_key K (ReadRes.byte 'g' :: rest) = Except.ok (103, rest) := by
    intro rest
    simp [get_key, read1]
  have hpend : (render (t.setChars (103, 0))).ctx.chars.1 = 103 := by
    rw [rc]
    rfl
  have hclean : (if t.ctx.chars.2 ≠ 0 then t.setChars (0, 0) else t) = t := by
    simp [h2]
  have hkeep : (if (render (t.setChars (103, 0))).ctx.chars.2 ≠ 0
      then (render (t.setChars (103, 0))).setChars (0, 0)
      else render (t.setChars (103, 0))) = render (t.setChars (103, 0)) := by
    rw [rc]
    simp [Tui.setChars]
  have hstep : wait_poll K A E wait t [ReadRes.byte 'g']
      = Except.ok (wait, render (t.setChars (103, 0)), []) := by
    rw [wait_poll_one, hclean]
    exact (loop_g_first K A E 1 true wait t _ h).trans (loop_nil K A E 1 false wait _)
  refine ⟨fun u tty r hu hr => ?_, ?_, ?_, ?_, fun c hc hpos hlt => ?_, fun u hu => ?_⟩
  · refine get_input_loop_buf K A E wait _ true u tty r ?_ hr
    rcases hu with hu | hu
    · exact Or.inl ⟨rfl, hu⟩
    · right
      rw [hu]
  · show Except.map _ (get_input_loop K A E (1 + 1) true wait t _) = _
    rw [loop_g_first K A E 1 true wait t _ h, loop_nil]
    simp [Except.map, rc, Tui.setChars]
  · rw [hstep]
    simp only [Except.bind]
    rw [wait_poll_one, hkeep,
      loop_g_second K A E 1 true wait _ _ [] 103 (hgk []) (by decide) hpend, e103,
      if_pos rfl, loop_nil]
    simp [Except.map, Tui.setChars]
  · rw [get_input_two]
    rw [loop_g_first K A E 2 true wait t _ h,
      loop_g_second K A E 1 false wait _ _ [] 103 (hgk []) (by decide) hpend, e103,
      if_pos rfl, loop_nil]
    simp [Except.map, rc, pc, Tui.call, Tui.setChars]
  · have hn := narrow_byte_ne c hc hlt
    have hck := get_key_last K c
    have hp : (c.toNat : Int) > 0 := by omega
    refine ⟨?_, ?_, ?_⟩
    · unfold narrow
      omega
    · rw [get_input_two]
      rw [loop_g_first K A E 2 true wait t _ h,
        loop_g_second K A E 1 false wait _ _ [] _ hck hp hpend, if_neg hn, loop_nil]
      simp [Except.map, rc, Tui.setChars]
    · rw [hstep]
      simp only [Except.bind]
      rw [wait_poll_one, hkeep,
        loop_g_second K A E 1 true wait _ _ [] _ hck hp hpend, if_neg hn, loop_nil]
      simp [Except.map, rc, Tui.setChars]
  · show get_input_loop K A E (0 + 1) true wait _ [] = _
    rw [loop_nil, if_pos hu]

/-- Two polls of the sample session, a `g` each. -/
theorem get_input_buffer_witness :
    Except.map (fun r => r.2.1.ctx.chars)
      ((wait_poll KeyCodes.sample Answers.sample Env.sample 250 Tui.sample [ReadRes.byte 'g']).bind
        (fun r => wait_poll KeyCodes.sample Answers.sample Env.sample r.1 r.2.1
          [ReadRes.byte 'g']))
      = Except.ok (0, 0) :=
  (get_input_buffer KeyCodes.sample Answers.sample Env.sample 250 Tui.sample rfl).2.2.1

/-- C24 (as stated) fails: after `g`, `g` read in one poll (sequence completed)
the buffer holds `(g, g)`, and after `g`, `x` (sequence abandoned), read in one
poll or in two, it holds `(g, x)`. -/
theorem get_input_buffer_kept_counterexample :
    Tui.sample.ctx.chars = (0, 0) ∧
    Except.map (fun r => r.2.1.ctx.chars)
      (get_input KeyCodes.sample Answers.sample Env.sample 250 Tui.sample
        [ReadRes.byte 'g', ReadRes.byte 'g'])
      = Except.ok (103, 103) ∧
    Except.map (fun r => r.2.1.ctx.chars)
      (get_input KeyCodes.sample Answers.sample Env.sample 250 Tui.sample
        [ReadRes.byte 'g', ReadRes.byte 'x'])
      = Except.ok (103, 120) ∧
    Except.map (fun r => r.2.1.ctx.chars)
      ((wait_poll KeyCodes.sample Answers.sample Env.sample 250 Tui.sample [ReadRes.byte 'g']).bind
        (fun r => wait_poll KeyCodes.sample Answers.sample Env.sample r.1 r.2.1
          [ReadRes.byte 'x']))
      = Except.ok (103, 120) := by
  refine ⟨rfl, by rfl, by rfl, by rfl⟩



/-! ## The configuration file -/

/-- A greedy `[class]*` can take the whole string iff every character is of the
class. -/
theorem starRests_nil_mem (p : Char → Bool) (s : Str) :
    [] ∈ starRests p s ↔ s.all p = true := by
  induction s with
  | nil => simp [starRests]
  | cons c cs ih =>
    cases hp : p c <;> simp [starRests, hp, ih]

theorem plusRests_nil_mem (p : Char → Bool) (s : Str) :
    ([] ∈ plusRests p s ∨ s = []) ↔ s.all p = true := by
  cases s with
  | nil => simp [plusRests]
  | cons c cs =>
    cases hp : p c <;> simp [plusRests, hp, starRests_nil_mem]

/-- The pattern `^#[^\r]*$` matches the lines that are a `#` followed by
characters other than carriage return. -/
theorem assert_rx_comment (l : Str) : assert_rx l rxComment = isCommentLine l := by
  cases l with
  | nil => rfl
  | cons c rest =>
    by_cases hc : c = '#'
    · subst hc
      have h := plusRests_nil_mem isNotCR rest
      cases hall : rest.all isNotCR
      · have hno : ¬ ([] ∈ plusRests isNotCR rest ∨ rest = []) := by
          rw [h, hall]
          simp
        have h1 : [] ∉ plusRests isNotCR rest := fun e => hno (Or.inl e)
        have h2 : rest ≠ [] := fun e => hno (Or.inr e)
        have h3 : ∀ x ∈ plusRests isNotCR rest, x ≠ [] := fun x hx e => h1 (e ▸ hx)
        simp [assert_rx, rxMatch, rxComment, Re.run, isCommentLine, hall, List.find?_append,
          List.find?_map, h2]
        intro x hx
        simpa using h3 x hx
      · have hyes : [] ∈ plusRests isNotCR rest ∨ rest = [] := by
          rw [h, hall]
        simp only [isCommentLine, hall]
        simp only [assert_rx, rxMatch, Option.isSome_map', List.find?_isSome, rxComment, Re.run,
          List.flatMap_cons, List.flatMap_nil, List.append_nil, if_true, List.mem_append,
          List.mem_map, List.mem_singleton]
        rcases hyes with h1 | h2
        · exact ⟨([], _), Or.inl ⟨[], h1, rfl⟩, rfl⟩
        · exact ⟨(rest, _), Or.inr rfl, by simp [h2]⟩
    · have : isCommentLine (c :: rest) = false := by
        unfold isCommentLine
        split
        · rename_i h
          injection h with h _
          exact absurd h hc
        · rfl
      rw [this]
      simp [assert_rx, rxMatch, rxComment, Re.run, hc]

/-- The loop of `config` hands the kept lines to `command`, and no others. -/
theorem config_loop_kept (E : Env) (path : Str) :
    ∀ (lines : List Str) (num : Nat) (t : Tui) (buf : Str),
      config_loop E path lines num t buf =
        runKept E path (keptLines isCommentLine num lines) t buf := by
  intro lines
  induction lines with
  | nil => intro num t buf; rfl
  | cons line rest ih =>
    intro num t buf
    simp only [config_loop, keptLines, assert_rx_comment]
    by_cases hskip : ((trim line).isEmpty || isCommentLine (trim line)) = true
    · simp only [hskip, if_true]
      exact ih _ _ _
    · simp only [hskip, if_false, runKept, Bool.false_eq_true]
      cases hcmd : command E (trim line) t with
      | error e => rfl
      | ok r =>
        obtain ⟨o, t1⟩ := r
        simp only [Except.bind]
        cases o with
        | none => exact ih _ _ _
        | some v =>
          obtain ⟨b, msg⟩ := v
          cases b
          · exact ih _ _ _
          · exact ih _ _ _

/-- The kept lines are the trimmed lines of the file that are neither empty nor
comments, each with its 1-based number in the file. -/
theorem keptLines_mem (c : Str → Bool) :
    ∀ (lines : List Str) (num n : Nat) (l : Str),
      (n, l) ∈ keptLines c num lines ↔
        ∃ i, ∃ line, lines[i]? = some line ∧ n = num + i + 1 ∧ l = trim line ∧
          (trim line).isEmpty = false ∧ c (trim line) = false := by
  intro lines
  induction lines with
  | nil => intro num n l; simp [keptLines]
  | cons line rest ih =>
    intro num n l
    by_cases hskip : ((trim line).isEmpty || c (trim line)) = true
    · simp only [keptLines, hskip, if_true, ih]
      constructor
      · rintro ⟨i, ln, h1, h2, h3, h4, h5⟩
        exact ⟨i + 1, ln, by simpa using h1, by omega, h3, h4, h5⟩
      · rintro ⟨i, ln, h1, h2, h3, h4, h5⟩
        cases i with
        | zero =>
          simp only [List.getElem?_cons_zero, Option.some.injEq] at h1
          subst h1
          simp [h4, h5] at hskip
        | succ j => exact ⟨j, ln, by simpa using h1, by omega, h3, h4, h5⟩
    · simp only [keptLines, hskip, if_false, List.mem_cons, ih, Prod.mk.injEq,
        Bool.false_eq_true]
      simp only [Bool.or_eq_true, not_or, Bool.not_eq_true] at hskip
      constructor
      · rintro (⟨h1, h2⟩ | ⟨i, ln, h1, h2, h3, h4, h5⟩)
        · exact ⟨0, line, by simp, by omega, h2, hskip.1, hskip.2⟩
        · exact ⟨i + 1, ln, by simpa using h1, by omega, h3, h4, h5⟩
      · rintro ⟨i, ln, h1, h2, h3, h4, h5⟩
        cases i with
        | zero =>
          simp only [List.getElem?_cons_zero, Option.some.injEq] at h1
          subst h1
          exact Or.inl ⟨by omega, h3⟩
        | succ j => exact Or.inr ⟨j, ln, by simpa using h1, by omega, h3, h4, h5⟩

theorem keptLines_gt (c : Str → Bool) (lines : List Str) (num : Nat) (x : Nat × Str)
    (h : x ∈ keptLines c num lines) : num < x.1 := by
  obtain ⟨i, ln, _, h2, _⟩ := (keptLines_mem c lines num x.1 x.2).1 h
  omega

theorem keptLines_order (c : Str → Bool) :
    ∀ (lines : List Str) (num : Nat),
      (keptLines c num lines).Pairwise (fun a b => a.1 < b.1) := by
  intro lines
  induction lines with
  | nil => intro num; simp [keptLines]
  | cons line rest ih =>
    intro num
    by_cases hskip : ((trim line).isEmpty || c (trim line)) = true
    · simp only [keptLines, hskip, if_true]
      exact ih _
    · simp only [keptLines, hskip, if_false, List.pairwise_cons, Bool.false_eq_true]
      exact ⟨fun x hx => keptLines_gt c rest (num + 1) x hx, ih _⟩

/-- C26 (as amended): for every configuration file that opens, `config` passes
to `command`, in file order, exactly the lines that after trimming are not
empty and are not comment lines, a comment line being a `#` followed by
characters other than carriage return; for each such line that `command`
rejects it buffers one error `path:line: message`, the line number being the
1-based number of the line in the file; blank and comment lines are not passed
on. -/
theorem config_lines (K : KeyCodes) (E : Env) (F : Files) (custom_path : Str) (t : Tui)
    (tty : List ReadRes) (lines : List Str) (hn : custom_path ≠ "NONE".toList)
    (hp : (config_path E F custom_path).2 ≠ [])
    (hf : F.getlines (config_path E F custom_path).2 = some lines) :
    config K E F custom_path t tty =
      (runKept E (config_path E F custom_path).2 (keptLines isCommentLine 0 lines) t
        (if (config_path E F custom_path).1 && !custom_path.isEmpty then
          "error: could not open config file '".toList ++ custom_path ++ "'\n".toList
         else [])).bind (fun r => config_finish K r tty) ∧
    (∀ (n : Nat) (l : Str), (n, l) ∈ keptLines isCommentLine 0 lines ↔
      ∃ i, ∃ line, lines[i]? = some line ∧ n = i + 1 ∧ l = trim line ∧
        l ≠ [] ∧ isCommentLine l = false) ∧
    (keptLines isCommentLine 0 lines).Pairwise (fun a b => a.1 < b.1) ∧
    (∀ l, assert_rx l rxComment = isCommentLine l) := by
  refine ⟨?_, fun n l => ?_, keptLines_order _ lines 0, assert_rx_comment⟩
  · have hp1 : (config_path E F custom_path).2.isEmpty = false := by
      cases h : (config_path E F custom_path).2 with
      | nil => exact absurd h hp
      | cons a b => rfl
    simp only [config, hn, if_false, hp1, Bool.not_false, if_true, hf, config_loop_kept]
  · rw [keptLines_mem]
    constructor
    · rintro ⟨i, ln, h1, h2, h3, h4, h5⟩
      refine ⟨i, ln, h1, by omega, h3, ?_, by rw [h3]; exact h5⟩
      rw [h3]
      intro e
      rw [e] at h4
      cases h4
    · rintro ⟨i, ln, h1, h2, h3, h4, h5⟩
      refine ⟨i, ln, h1, by omega, h3, ?_, by rw [← h3]; exact h5⟩
      rw [← h3]
      cases l with
      | nil => exact absurd rfl h4
      | cons a b => rfl

/-- The sample file: lines 3, 4 and 5 of `/cfg` are passed on. -/
theorem config_lines_witness :
    config KeyCodes.sample Env.withCfg Files.sample "/cfg".toList Tui.sample
        [ReadRes.byte '\n'] =
      (runKept Env.withCfg "/cfg".toList
        [(3, "set status off".toList), (4, "bogus".toList), (5, "#a\rb".toList)]
        Tui.sample []).bind
        (fun r => config_finish KeyCodes.sample r [ReadRes.byte '\n']) :=
  (config_lines KeyCodes.sample Env.withCfg Files.sample "/cfg".toList Tui.sample
    [ReadRes.byte '\n'] _ (by decide) (by decide) rfl).1

/-- C26 (as stated) fails: the line `#a\rb` starts with `#` and is passed to
`command`, which rejects it, and an error line is buffered for it; had the
lines that start with `#` been left out, nothing would have been buffered. -/
theorem config_hash_line_counterexample :
    startsWithHash (trim "#a\rb".toList) = true ∧
    config_loop Env.withCfg "/cfg".toList ["#a\rb".toList] 0 Tui.sample [] =
      Except.ok (Tui.sample, "/cfg:1: warning: unknown command '#a\rb'\n".toList) ∧
    runKept Env.withCfg "/cfg".toList (keptLines startsWithHash 0 ["#a\rb".toList])
      Tui.sample [] = Except.ok (Tui.sample, []) := by
  refine ⟨by decide, by rfl, by rfl⟩

/-- With the value `'\n'`, `press_to_continue` answers whether the key is 10. -/
theorem press_to_continue_enter (K : KeyCodes) (tty tty1 : List ReadRes) (k : Int)
    (hk : get_key K tty = Except.ok (k, tty1)) :
    press_to_continue K (ch '\n') tty = Except.ok (decide (k = 10), tty1) := by
  have e : ch '\n' = 10 := by decide
  simp only [press_to_continue, hk, Except.bind, e]
  by_cases h : k = 10
  · subst h
    simp
  · by_cases hpos : k > 0
    · have h10 : ¬ (10 = k) := fun e => h e.symm
      simp [hpos, h, h10]
    · simp [hpos, h]

/-- C27 (as amended): when `config` has buffered at least one error and shown the
buffer, pressing ENTER acknowledges it: when the key read by
`press_to_continue` is 10 (`'\n'`), `config` returns normally; for every other
key, and when no key is read, it throws the runtime error `aborted by user`. -/
theorem config_acknowledge (K : KeyCodes) (r : Tui × Str) (tty tty1 : List ReadRes) (k : Int)
    (hbuf : r.2 ≠ []) (hk : get_key K tty = Except.ok (k, tty1)) :
    (k = 10 → config_finish K r tty = Except.ok (r.1, r.2, tty1)) ∧
    (k ≠ 10 →
      config_finish K r tty = Except.error (Exn.runtime_error "aborted by user".toList)) := by
  have hne : r.2.isEmpty = false := by
    cases h : r.2 with
    | nil => exact absurd h hbuf
    | cons a b => rfl
  constructor
  · intro h
    simp [config_finish, hne, press_to_continue_enter K tty tty1 k hk, Except.bind, h]
  · intro h
    simp [config_finish, hne, press_to_continue_enter K tty tty1 k hk, Except.bind, h]

/-- ENTER acknowledges a buffer of one error. -/
theorem config_acknowledge_witness :
    config_finish KeyCodes.sample (Tui.sample, "/cfg:4: warning".toList) [ReadRes.byte '\n'] =
      Except.ok (Tui.sample, "/cfg:4: warning".toList, []) :=
  (config_acknowledge KeyCodes.sample (Tui.sample, "/cfg:4: warning".toList)
    [ReadRes.byte '\n'] [] 10 (by decide) rfl).1 rfl

/-- C27 (as stated) fails: the sample file has a line that `command` rejects, the
key read is `y` (121, greater than 0), and `config` does not return: it
throws `aborted by user`. -/
theorem config_any_key_counterexample :
    get_key KeyCodes.sample [ReadRes.byte 'y'] = Except.ok (121, []) ∧
    press_to_continue KeyCodes.sample (ch '\n') [ReadRes.byte 'y'] = Except.ok (false, []) ∧
    (config_loop Env.withCfg "/cfg".toList ["bogus".toList] 0 Tui.sample []).map
        (fun r => r.2)
      = Except.ok "/cfg:1: warning: unknown command 'bogus'\n".toList ∧
    config KeyCodes.sample Env.withCfg Files.sample "/cfg".toList Tui.sample [ReadRes.byte 'y']
      = Except.error (Exn.runtime_error "aborted by user".toList) := by
  refine ⟨by rfl, by rfl, by rfl, by rfl⟩



/-! ## The line of text -/

theorem bufAt_eq (buf : List Block) (i : Nat) (f : Block → Block) (b : Block)
    (h : buf[i]? = some b) : bufAt buf i f = Except.ok (buf.set i (f b)) := by
  simp only [bufAt, h]

/-- Without wrap-around `width_left` is `width / 2 - offset`. -/
theorem width_left_eq (t : Tui) (hoff : t.ctx.offset ≤ t.ctx.width / 2)
    (hw : t.ctx.width < 2 ^ 64) : width_left t = t.ctx.width / 2 - t.ctx.offset := by
  have e : (2 : Nat) ^ 64 = 18446744073709551616 := by norm_num
  unfold width_left
  rw [e] at hw ⊢
  omega

/-- C30 (as amended): while counting down with `count_down = 0`, `draw_content`
applies the countdown style to exactly one cell, the cell `width / 2 - offset -
1`, and that cell is the focal column itself: the column at which the loop over
the current span writes the highlight style. -/
theorem countdown_last_frame (isp : Char → Bool) (t : Tui) (pl pr : Nat) (buf : List Block)
    (hc : t.ctx.state.counting_down = true) (h0 : t.ctx.state.count_down = 0)
    (hoff : t.ctx.offset < t.ctx.width / 2) (hw : t.ctx.width < 2 ^ 64)
    (hlen : buf.length = t.ctx.width) :
    (∃ buf1 : List Block, countdown_pass t pl pr buf = Except.ok buf1 ∧
      ∀ j : Nat, buf1[j]? =
        if j + 1 = t.ctx.width / 2 - t.ctx.offset then
          buf[j]?.map (Block.addBefore t.ctx.style.countdown)
        else buf[j]?) ∧
    (∀ (j : Nat) (c : Char), j + 1 = t.ctx.width / 2 - t.ctx.offset →
      curr_style isp t.ctx.style (decide ((j : Int) = (width_left t : Int) - 1)) c
        = t.ctx.style.word_highlight) := by
  have hwl := width_left_eq t (by omega) hw
  constructor
  · have hne : width_left t ≠ 0 := by omega
    have hlt : width_left t - 1 < buf.length := by omega
    have hb : buf[width_left t - 1]? = some buf[width_left t - 1] :=
      List.getElem?_eq_getElem hlt
    refine ⟨buf.set (width_left t - 1)
      (Block.addBefore t.ctx.style.countdown buf[width_left t - 1]), ?_, fun j => ?_⟩
    · simp only [countdown_pass, hc, h0, if_true, ne_eq, not_true_eq_false, if_false, hne]
      exact bufAt_eq buf _ _ _ hb
    · by_cases hj : j + 1 = t.ctx.width / 2 - t.ctx.offset
      · have e : width_left t - 1 = j := by omega
        rw [if_pos hj]
        subst e
        rw [List.getElem?_set_self hlt, hb]
        rfl
      · have n : width_left t - 1 ≠ j := by omega
        rw [if_neg hj, List.getElem?_set_ne n]
  · intro j c hj
    have e : (j : Int) = (width_left t : Int) - 1 := by omega
    simp only [curr_style, e, decide_True, if_true]

/-- The last frame of the countdown at 20 columns marks the cell 9. -/
theorem countdown_last_frame_witness :
    ∃ buf1 : List Block,
      countdown_pass Tui.lastFrame 0 0 (List.replicate 20 ⟨[], []⟩) = Except.ok buf1 ∧
      ∀ j : Nat, buf1[j]? =
        if j + 1 = 10 then
          (List.replicate 20 (⟨[], []⟩ : Block))[j]?.map (Block.addBefore "C".toList)
        else (List.replicate 20 (⟨[], []⟩ : Block))[j]? :=
  (countdown_last_frame ispunctC Tui.lastFrame 0 0 (List.replicate 20 ⟨[], []⟩) rfl rfl
    (by decide) (by decide) rfl).1

/-- C30 (as stated) fails: in the last frame of the countdown at 20 columns one
cell has the countdown style, the cell 9, which is the highlighted cell of the
current word; the cell 8, immediately to the left of it, has the style of its
word only. -/
theorem countdown_last_frame_counterexample :
    Tui.lastFrame.ctx.state.counting_down = true ∧ Tui.lastFrame.ctx.state.count_down = 0 ∧
    Except.map
      (fun b => (b[8]?, b[9]?, (b.filter (fun e => e.before.contains 'C')).length))
      (draw_content_buf ispunctC Tui.lastFrame Line.sample 0 0)
      = Except.ok (some ⟨"P".toList, "e".toList⟩, some ⟨"CH".toList, "a".toList⟩, 1) := by
  refine ⟨rfl, rfl, by rfl⟩



/-! ## The start of a session, the colon forms, the range of the cuts, the entry of a poll -/

/-- C37 (the code at the failing input): for every path that is not empty, is not
`*stdin*` and does not exist, `init` throws the runtime error
`the file does not exist ''`, whose message holds no path, and leaves the file
path and the display name of the session empty; for an existing file that opens
and does not parse, `init` returns with both empty. -/
theorem init_missing_file (E : Env) (file_path : Str) (t : Tui) (h1 : file_path ≠ [])
    (h2 : file_path ≠ "*stdin*".toList) :
    (E.fs_exists file_path = false →
      init E file_path t =
        ({ t with ctx := { t.ctx with file := ⟨[], []⟩ } },
          some (Exn.runtime_error "the file does not exist ''".toList))) ∧
    (E.fs_exists file_path = true → E.ifstream_is_open file_path = true →
      E.parse_ok file_path = false →
      init E file_path t =
        (⟨{ t.ctx with file := ⟨[], []⟩ }, t.fltrdr ++ [FltrdrCall.parse file_path]⟩, none)) := by
  have e1 : file_path.isEmpty = false := by
    cases file_path with
    | nil => exact absurd rfl h1
    | cons a b => rfl
  constructor
  · intro h3
    simp only [init, e1, h2, h3, Bool.false_eq_true, if_false, Bool.not_false, if_true]
    rfl
  · intro h3 h4 h5
    simp only [init, e1, h2, h3, h4, h5, Bool.false_eq_true, if_false, Bool.not_true, Tui.call]

/-- The path `/tmp/lost.txt` does not exist, and the message does not hold it. -/
theorem init_missing_file_witness :
    init Env.sample "/tmp/lost.txt".toList Tui.sample =
      (Tui.sample, some (Exn.runtime_error "the file does not exist ''".toList)) ∧
    ¬ ("/tmp/lost.txt".toList <:+: "the file does not exist ''".toList) :=
  ⟨(init_missing_file Env.sample "/tmp/lost.txt".toList Tui.sample (by decide) (by decide)).1 rfl,
    by decide⟩

/-- C34 (the code at the failing inputs): in the running sample session the line
`set status: on` matches the `set status` rule and hides the status bar (the
line `set status on` leaves it shown), `prev: 3` leaves `command` with the
exception `invalid_argument`, `reset: wpm` is accepted with no outcome, and
`style primary red: bright` does what `style primary red bright` does. -/
theorem command_colon_forms :
    command Env.sample "set status: on".toList Tui.sample =
      Except.ok (none, { Tui.sample with ctx := { Tui.sample.ctx with
        show_ := { Tui.sample.ctx.show_ with status := false } } }) ∧
    command Env.sample "set status on".toList Tui.sample = Except.ok (none, Tui.sample) ∧
    command Env.sample "prev: 3".toList Tui.sample = Except.error Exn.invalid_argument ∧
    command Env.sample "reset: wpm".toList Tui.sample = Except.ok (none, Tui.sample) ∧
    command Env.sample "style primary red: bright".toList Tui.sample =
      command Env.sample "style primary red bright".toList Tui.sample ∧
    Except.map (fun r => (r.1, r.2.ctx.style.primary))
      (command Env.sample "style primary red: bright".toList Tui.sample) =
      Except.ok (none, "fg4:red+".toList) ∧
    Tui.sample.ctx.is_running = true ∧ Tui.sample.ctx.show_.status = true ∧
    Tui.sample.ctx.style.primary = [] := by
  refine ⟨by rfl, by rfl, by rfl, by rfl, by rfl, by rfl, rfl, rfl, rfl⟩

/-- C36: for every mode label, file name, stats string and every width of at
least the length of the mode label plus 6, `draw_status` throws nothing: the
start index `deficit + 1` of the cut of the file name is at most the length of
the file name, and the start index `deficit` minus the length of the file name
of the cut of the stats is at most the length of the stats; for a width below
the length of the mode label plus 6 that start index exceeds the length of the
stats (and the cut throws `out_of_range`). -/
theorem draw_status_in_range (A : Answers) (t : Tui) :
    (t.ctx.status.mode.length + 6 ≤ t.ctx.width →
      (draw_status A t).2 = none ∧
      (pad_center A t < 0 → deficit A t < t.ctx.file.name.length →
        deficit A t + 1 ≤ t.ctx.file.name.length) ∧
      (pad_center A t < 0 → t.ctx.file.name.length + 1 < deficit A t →
        deficit A t - t.ctx.file.name.length ≤ (A.get_stats t.fltrdr).length)) ∧
    (t.ctx.width < t.ctx.status.mode.length + 6 →
      pad_center A t < 0 ∧
      (A.get_stats t.fltrdr).length < deficit A t - t.ctx.file.name.length ∧
      (t.ctx.show_.status = true → t.ctx.file.name.length + 1 < deficit A t →
        (draw_status A t).2 = some Exn.out_of_range)) := by
  have hpad : pad_center A t = (t.ctx.width : Int) - (t.ctx.status.mode.length : Int)
      - (t.ctx.file.name.length : Int) - ((A.get_stats t.fltrdr).length : Int) - 6 := by
    simp only [pad_center, len_mode, len_file, len_stats]
    omega
  constructor
  · intro hw
    refine ⟨?_, fun _ h => h, fun hp hd => ?_⟩
    · cases hs : t.ctx.show_.status with
      | false => simp [draw_status, hs]
      | true =>
        simp only [draw_status, hs, Bool.not_true, Bool.false_eq_true, if_false]
        split
        · rfl
        · split
          · rfl
          · split
            · rfl
            · split
              · rfl
              · split
                · omega
                · rfl
    · unfold deficit at hd ⊢
      omega
  · intro hw
    refine ⟨by omega, ?_, fun hs hd => ?_⟩
    · unfold deficit
      omega
    · unfold deficit at hd
      have h1 : ¬ pad_center A t ≥ 0 := by omega
      have h2 : ¬ (pad_center A t).natAbs < t.ctx.file.name.length := by omega
      have h3 : (pad_center A t).natAbs ≠ t.ctx.file.name.length := by omega
      have h4 : (pad_center A t).natAbs ≠ t.ctx.file.name.length + 1 := by omega
      have h5 : (pad_center A t).natAbs - t.ctx.file.name.length
          > (A.get_stats t.fltrdr).length := by omega
      simp only [draw_status, hs, Bool.not_true, Bool.false_eq_true, if_false, h1, h2, h3, h4,
        h5, if_true]

/-- At 20 columns the sample status bar is drawn without an exception. -/
theorem draw_status_in_range_witness :
    (draw_status Answers.sample (Tui.report 20)).2 = none :=
  ((draw_status_in_range Answers.sample (Tui.report 20)).1 (by decide)).1

/-- The entry state of a poll has an idle key buffer, when the buffer was empty,
held a `g` in front, or had its second slot filled. -/
theorem pollEntry_idle (t : Tui)
    (h : t.ctx.chars = (0, 0) ∨ t.ctx.chars.1 = 103 ∨ t.ctx.chars.2 ≠ 0) :
    (pollEntry t).ctx.chars.2 = 0 ∧
      ((pollEntry t).ctx.chars.1 = 0 ∨ (pollEntry t).ctx.chars.1 = 103) := by
  unfold pollEntry
  by_cases h2 : t.ctx.chars.2 ≠ 0
  · rw [if_pos h2]
    exact ⟨rfl, Or.inl rfl⟩
  · rw [if_neg h2]
    have h20 : t.ctx.chars.2 = 0 := by
      by_contra hc
      exact h2 hc
    refine ⟨h20, ?_⟩
    rcases h with h | h | h
    · left
      rw [h]
    · exact Or.inr h
    · exact absurd h h2

/-- C35: starting from an empty key buffer, whenever `get_input` is entered from
the wait loop while the session is running, the second slot of the key buffer
is 0 and the first slot is 0 or `g`: the only key that is ever held back as a
pending first key is `g`.  (So the clearing of the buffer at the entry changes
nothing then.) -/
theorem get_input_entry (K : KeyCodes) (A : Answers) (E : Env) (t0 : Tui)
    (h0 : t0.ctx.chars = (0, 0)) :
    (∀ t : Tui, Entered K A E t0 t →
      t.ctx.chars.2 = 0 ∧ (t.ctx.chars.1 = 0 ∨ t.ctx.chars.1 = 103)) ∧
    (∀ (t : Tui) (wait : Int) (tty : List ReadRes), Entered K A E t0 t →
      wait_poll K A E wait t tty = get_input K A E wait t tty) := by
  have key : ∀ t : Tui, Entered K A E t0 t →
      t.ctx.chars.2 = 0 ∧ (t.ctx.chars.1 = 0 ∨ t.ctx.chars.1 = 103) := by
    intro t ht
    induction ht with
    | first => exact pollEntry_idle t0 (Or.inl h0)
    | next t u wait tty r _ hr hrun hu ih =>
      have hin : (true = true ∧ t.ctx.chars = (0, 0)) ∨ t.ctx.chars.1 = 103 := by
        rcases ih.2 with h1 | h1
        · left
          refine ⟨rfl, ?_⟩
          exact Prod.ext h1 ih.1
        · exact Or.inr h1
      have hout := get_input_loop_buf K A E wait _ true t tty r hin hr
      apply pollEntry_idle
      rw [hu]
      rcases hout with h | h | h
      · exact Or.inl h
      · exact Or.inr (Or.inl h)
      · rw [hrun] at h
        cases h
  refine ⟨key, fun t wait tty ht => ?_⟩
  have h2 := (key t ht).1
  simp only [wait_poll, h2, ne_eq, not_true_eq_false, if_false]

/-- The first entry of the sample session. -/
theorem get_input_entry_witness :
    (pollEntry Tui.sample).ctx.chars.2 = 0 ∧
      ((pollEntry Tui.sample).ctx.chars.1 = 0 ∨ (pollEntry Tui.sample).ctx.chars.1 = 103) :=
  (get_input_entry KeyCodes.sample Answers.sample Env.sample Tui.sample rfl).1 _
    (Entered.first)


/-! ## The invariant of the scheduler -/

/-- What is kept does not depend on the fields outside `state` and `status`. -/
theorem keeps_same (b : Bool) (t u v : Tui) (h : SchedKeeps b t u)
    (h1 : v.ctx.state = u.ctx.state) (h2 : v.ctx.status = u.ctx.status) : SchedKeeps b t v := by
  unfold SchedKeeps SchedInv at *
  rw [h1, h2]
  exact h

theorem keeps_pause (A : Answers) (b : Bool) (t u : Tui) (hn : 0 ≤ t.ctx.state.count_total)
    (h : SchedKeeps b t u) : SchedKeeps b t (pause A u) := by
  unfold pause
  cases hp : u.ctx.state.play
  · exact h
  · obtain ⟨_, hc, _⟩ := h
    have hpl : ("PAUSE".toList = "PLAY".toList) ↔ (false = true) := by decide
    cases A.timer u.fltrdr
    · refine ⟨⟨?_, ?_, ?_, ?_⟩, ?_, ?_⟩
      · intro h
        cases h
      · show (0 : Int) ≤ u.ctx.state.count_total
        rw [hc]
        exact hn
      · intro _
        rfl
      · exact hpl
      · exact hc
      · intro _
        exact le_refl _
    · refine ⟨⟨?_, ?_, ?_, ?_⟩, ?_, ?_⟩
      · intro h
        cases h
      · show (0 : Int) ≤ u.ctx.state.count_total
        rw [hc]
        exact hn
      · intro _
        rfl
      · exact hpl
      · exact hc
      · intro _
        exact le_refl _

theorem keeps_play (b : Bool) (t u : Tui) (hn : 0 ≤ t.ctx.state.count_total)
    (h : SchedKeeps b t u) : SchedKeeps b t (play u) := by
  unfold play
  cases hp : u.ctx.state.play
  · obtain ⟨_, hc, _⟩ := h
    have hpl : ("PLAY".toList = "PLAY".toList) ↔ (true = true) := by decide
    refine ⟨⟨?_, ?_, ?_, ?_⟩, ?_, ?_⟩
    · intro _
      rfl
    · exact le_refl _
    · intro h
      cases h
    · exact hpl
    · exact hc
    · intro _
      show (0 : Int) ≤ u.ctx.state.count_total
      rw [hc]
      exact hn
  · exact h

theorem keeps_tick (b : Bool) (t u : Tui) (h : SchedKeeps b t u) :
    SchedKeeps b t (countdown_tick u) := by
  obtain ⟨⟨i1, i2, i3, i4⟩, hc, hb⟩ := h
  unfold countdown_tick
  cases hcd : u.ctx.state.counting_down
  · exact ⟨⟨i1, i2, i3, i4⟩, hc, hb⟩
  · by_cases h0 : u.ctx.state.count_down = 0
    · simp only [if_true, h0]
      refine ⟨⟨?_, ?_, ?_, ?_⟩, ?_, ?_⟩
      · intro h
        cases h
      · show (0 : Int) ≤ u.ctx.state.count_total
        omega
      · intro _
        rfl
      · exact i4
      · exact hc
      · intro _
        exact le_refl _
    · simp only [if_true, h0, if_false]
      refine ⟨⟨?_, ?_, ?_, ?_⟩, ?_, ?_⟩
      · intro _
        exact i1 hcd
      · show u.ctx.state.count_down - 1 ≤ u.ctx.state.count_total
        omega
      · intro h
        have h1 : u.ctx.state.counting_down = false := h
        rw [hcd] at h1
        cases h1
      · exact i4
      · exact hc
      · intro hb1
        show 0 ≤ u.ctx.state.count_down - 1
        have := hb hb1
        omega

/-- No branch of `command` touches the playback record or the mode label. -/
theorem act_sched (r : Rule) (hr : r ∈ rules) (E : Env) (m : List Str) (input : Str) (t : Tui)
    (res : Outcome × Tui) (h : r.act E m input t = Except.ok res) :
    res.2.ctx.state = t.ctx.state ∧ res.2.ctx.status = t.ctx.status := by
  simp only [rules, styleTable, styleRules, List.flatMap_cons, List.flatMap_nil,
    List.cons_append, List.nil_append, List.append_nil, List.mem_cons, List.mem_singleton,
    List.not_mem_nil, or_false] at hr
  rcases hr with
    hr | hr | hr | hr | hr | hr | hr | hr | hr | hr | hr | hr | hr | hr | hr | hr | hr | hr | hr |
    hr | hr | hr | hr | hr | hr | hr | hr | hr | hr | hr | hr | hr | hr | hr | hr | hr | hr | hr |
    hr | hr | hr | hr | hr | hr | hr | hr | hr | hr | hr | hr | hr | hr | hr | hr | hr | hr | hr |
    hr | hr | hr | hr | hr | hr | hr | hr | hr | hr | hr | hr | hr | hr | hr | hr | hr | hr
  all_goals
    subst hr
    simp only [actQuit, actStyle, actSet, actSym, actCount, actReset, actOpen, actWpm, actGoto,
      actOffset, Tui.setSyms] at h
    repeat' split at h
    all_goals first
      | (simp only [Except.ok.injEq] at h
         rw [← h]
         exact ⟨rfl, rfl⟩)
      | (cases hs : stoi (trim (subAt m 1)) with
         | error e => rw [hs] at h; cases h
         | ok n =>
           rw [hs] at h
           simp only [Except.bind, Except.ok.injEq] at h
           rw [← h]
           exact ⟨rfl, rfl⟩)
      | (cases hs : stoi (subAt m 1) with
         | error e => rw [hs] at h; cases h
         | ok n =>
           rw [hs] at h
           simp only [Except.bind, Except.ok.injEq] at h
           rw [← h]
           exact ⟨rfl, rfl⟩)
      | (cases hs : stoul (subAt m 1) with
         | error e => rw [hs] at h; cases h
         | ok n =>
           rw [hs] at h
           simp only [Except.bind, Except.ok.injEq] at h
           rw [← h]
           exact ⟨rfl, rfl⟩)

/-- The function `command` touches neither the playback record nor the mode label. -/
theorem command_sched (E : Env) (input : Str) (t : Tui) (res : Outcome × Tui)
    (h : command E input t = Except.ok res) :
    res.2.ctx.state = t.ctx.state ∧ res.2.ctx.status = t.ctx.status := by
  unfold command at h
  split at h
  · simp only [Except.ok.injEq] at h
    rw [← h]
    exact ⟨rfl, rfl⟩
  · split at h
    · simp only [Except.ok.injEq] at h
      rw [← h]
      exact ⟨rfl, rfl⟩
    · split at h
      · rename_i r m hm
        exact act_sched r (firstMatch_some input rules r m hm).1 E m input t res h
      · simp only [Except.ok.injEq] at h
        rw [← h]
        exact ⟨rfl, rfl⟩

theorem command_prompt_sched (A : Answers) (E : Env) (t : Tui) (tty : List ReadRes)
    (r : Tui × List ReadRes) (h : command_prompt A E t tty = Except.ok r) :
    r.1.ctx.state = t.ctx.state ∧ r.1.ctx.status = t.ctx.status := by
  simp only [command_prompt] at h
  cases hc : command E (A.readline tty).1
      { ctx := { t.ctx with prompt := { t.ctx.prompt with count := 0 },
                            is_running := t.ctx.is_running && (A.readline tty).2.1 },
        fltrdr := t.fltrdr } with
  | error e =>
    rw [hc] at h
    cases h
  | ok res =>
    have hs := command_sched E _ _ res hc
    rw [hc] at h
    simp only [Except.bind] at h
    split at h <;>
    · simp only [Except.ok.injEq] at h
      rw [← h]
      exact hs

theorem search_prompt_sched (b : Bool) (A : Answers) (t : Tui) (tty : List ReadRes)
    (r : Tui × List ReadRes) (h : search_prompt b A t tty = Except.ok r) :
    r.1.ctx.state = t.ctx.state ∧ r.1.ctx.status = t.ctx.status := by
  simp only [search_prompt, cdiv] at h
  repeat' split at h
  all_goals
    first
    | (simp only [Except.ok.injEq] at h
       rw [← h]
       exact ⟨rfl, rfl⟩)
    | (simp only [Except.bind, Except.ok.injEq] at h
       rw [← h]
       exact ⟨rfl, rfl⟩)
    | cases h

/-- A property holds of a step that follows a prompt, when it holds for every
result of the prompt. -/
theorem step_bind_of (P : Step → Prop) (x : Except Exn (Tui × List ReadRes)) (single : Bool)
    (hx : ∀ r : Tui × List ReadRes, x = Except.ok r →
      P (Step.cont single (r.1.setChars (0, 0)) r.2)) :
    ∀ st, x.bind (fun r => Except.ok (Step.cont single (r.1.setChars (0, 0)) r.2))
      = Except.ok st → P st := by
  intro st h
  cases x with
  | error e => simp [Except.bind] at h
  | ok r =>
    simp only [Except.bind, Except.ok.injEq] at h
    rw [← h]
    exact hx r rfl

theorem dispatch_keeps (K : KeyCodes) (A : Answers) (E : Env) (key : Int) (single : Bool)
    (wait : Int) (b : Bool) (t0 t : Tui) (tty : List ReadRes)
    (hn : 0 ≤ t0.ctx.state.count_total) (hG : SchedKeeps b t0 t) :
    ∀ st, dispatch K A E key single wait t tty = Except.ok st → SchedKeeps b t0 st.tui := by
  have hp := keeps_pause A b t0 t hn hG
  have hq := keeps_play b t0 t hn hG
  unfold dispatch
  repeat' first
    | (refine step_ite (fun st => SchedKeeps b t0 st.tui) _ _ _ (fun hc => ?_) (fun hc => ?_))
    | (refine step_bind_of (fun st => SchedKeeps b t0 st.tui) _ _ (fun r hr => ?_))
    | (refine step_ok (fun st => SchedKeeps b t0 st.tui) _ ?_)
  all_goals first
    | exact hG
    | exact hp
    | exact keeps_same b t0 t _ hG rfl rfl
    | exact keeps_same b t0 (pause A t) _ hp rfl rfl
    | exact keeps_same b t0 (play t) _ hq rfl rfl
    | exact keeps_same b t0 (pause A t) _ hp (command_prompt_sched A E _ tty r hr).1
        (command_prompt_sched A E _ tty r hr).2
    | exact keeps_same b t0 (pause A t) _ hp (search_prompt_sched _ A _ tty r hr).1
        (search_prompt_sched _ A _ tty r hr).2

theorem render_sched (t : Tui) :
    (render t).ctx.state = t.ctx.state ∧ (render t).ctx.status = t.ctx.status := by
  simp only [render]
  split <;> exact ⟨rfl, rfl⟩

theorem get_input_loop_keeps (K : KeyCodes) (A : Answers) (E : Env) (wait : Int) (b : Bool)
    (t0 : Tui) (hn : 0 ≤ t0.ctx.state.count_total) :
    ∀ (fuel : Nat) (single : Bool) (t : Tui) (tty : List ReadRes)
      (r : Int × Tui × List ReadRes), SchedKeeps b t0 t →
      get_input_loop K A E fuel single wait t tty = Except.ok r → SchedKeeps b t0 r.2.1 := by
  intro fuel
  induction fuel with
  | zero =>
    intro single t tty r hG h
    simp only [get_input_loop, Except.ok.injEq] at h
    rw [← h]
    exact hG
  | succ n ih =>
    intro single t tty r hG h
    simp only [get_input_loop] at h
    cases hk : get_key K tty with
    | error e =>
      rw [hk] at h
      cases h
    | ok p =>
      obtain ⟨k, tty1⟩ := p
      rw [hk] at h
      simp only [] at h
      by_cases hpos : k > 0
      · simp only [hpos, if_true] at h
        have hG1 : SchedKeeps b t0 (if t.ctx.chars.1 = 0 then t.setChars (narrow k, t.ctx.chars.2)
              else t.setChars (t.ctx.chars.1, narrow k)) := by
          split <;> exact keeps_same b t0 t _ hG rfl rfl
        cases hd : dispatch K A E (if t.ctx.chars.1 = 0 then k else t.ctx.chars.1) single wait
            (if t.ctx.chars.1 = 0 then t.setChars (narrow k, t.ctx.chars.2)
              else t.setChars (t.ctx.chars.1, narrow k)) tty1 with
        | error e =>
          rw [hd] at h
          cases h
        | ok st =>
          have hw := dispatch_keeps K A E _ single wait b t0 _ tty1 hn hG1 st hd
          rw [hd] at h
          cases st with
          | ret w t2 tty2 =>
            simp only [Except.ok.injEq] at h
            rw [← h]
            exact hw
          | cont s t2 tty2 =>
            refine ih s _ tty2 r ?_ h
            have hr := keeps_same b t0 t2 (render t2) hw (render_sched t2).1 (render_sched t2).2
            split
            · exact keeps_same b t0 _ _ hr rfl rfl
            · exact hr
      · simp only [hpos, if_false, Except.ok.injEq] at h
        rw [← h]
        exact hG

theorem invalid_size_keeps (K : KeyCodes) (A : Answers) (b : Bool) (t0 t : Tui)
    (tty : List ReadRes) (r : Tui × List ReadRes) (hn : 0 ≤ t0.ctx.state.count_total)
    (hG : SchedKeeps b t0 t) (h : event_loop_invalid_size K A t tty = Except.ok r) :
    SchedKeeps b t0 r.1 := by
  have hp := keeps_pause A b t0 t hn hG
  unfold event_loop_invalid_size at h
  cases hk : get_key K tty with
  | error e =>
    rw [hk] at h
    cases h
  | ok p =>
    rw [hk] at h
    simp only [Except.bind] at h
    repeat' split at h
    all_goals
      simp only [Except.ok.injEq] at h
      rw [← h]
      exact hp

/-- C33: with a countdown length `count_total` that is not negative, every
operation of the scheduler (`play`, `pause`, the countdown tick of `event_loop`,
the branch for a terminal that is too small, and `get_input` with every key it
dispatches) preserves the invariant: `counting_down` implies `play`;
`count_down` is at most `count_total`; `count_down` is 0 whenever
`counting_down` is false; the mode label is `PLAY` iff `play` is true.  With
`b = true`: a `count_down` that is not negative stays so, so the countdown tick
never takes `count_down` below 0. -/
theorem scheduler_invariant (K : KeyCodes) (A : Answers) (E : Env) (b : Bool) (t : Tui)
    (hn : 0 ≤ t.ctx.state.count_total) (h : SchedInv t)
    (hb : b = true → 0 ≤ t.ctx.state.count_down) :
    SchedKeeps b t (play t) ∧ SchedKeeps b t (pause A t) ∧ SchedKeeps b t (countdown_tick t) ∧
    (∀ (tty : List ReadRes) (r : Tui × List ReadRes),
      event_loop_invalid_size K A t tty = Except.ok r → SchedKeeps b t r.1) ∧
    (∀ (wait : Int) (tty : List ReadRes) (r : Int × Tui × List ReadRes),
      get_input K A E wait t tty = Except.ok r → SchedKeeps b t r.2.1) := by
  have hG : SchedKeeps b t t := ⟨h, rfl, hb⟩
  exact ⟨keeps_play b t t hn hG, keeps_pause A b t t hn hG, keeps_tick b t t hG,
    fun tty r hr => invalid_size_keeps K A b t t tty r hn hG hr,
    fun wait tty r hr => get_input_loop_keeps K A E wait b t hn _ true t tty r hG hr⟩

/-- The first tick of the countdown of the sample session. -/
theorem scheduler_invariant_witness :
    SchedKeeps true Tui.counting (countdown_tick Tui.counting) :=
  (scheduler_invariant KeyCodes.sample Answers.sample Env.sample true Tui.counting
    (by decide) (by unfold SchedInv; decide) (fun _ => by decide)).2.2.1

/-! ## The wait loop -/

/-- With no key arriving the poll uses up one read and changes nothing. -/
theorem get_input_no_input (K : KeyCodes) (A : Answers) (E : Env) (wait : Int) (t : Tui)
    (tty : List ReadRes) (h : noInput tty) :
    get_input K A E wait t tty = Except.ok (wait, t, tty.tail) := by
  cases tty with
  | nil => rfl
  | cons r rest =>
    have hk : get_key K (r :: rest) = Except.ok (0, rest) := by
      rcases h r (List.mem_cons_self _ _) with e | e <;> subst e <;> rfl
    exact loop_end K A E _ true wait t _ rest 0 hk (by decide)

theorem noInput_tail (tty : List ReadRes) (h : noInput tty) : noInput tty.tail :=
  fun r hr => h r (List.mem_of_mem_tail hr)

theorem pollEntry_pollEntry (t : Tui) : pollEntry (pollEntry t) = pollEntry t := by
  by_cases h : t.ctx.chars.2 ≠ 0
  · have e : pollEntry t = t.setChars (0, 0) := by
      unfold pollEntry
      rw [if_pos h]
    rw [e]
    unfold pollEntry
    rw [if_neg (by simp [Tui.setChars])]
  · have e : pollEntry t = t := by
      unfold pollEntry
      rw [if_neg h]
    rw [e, e]

theorem pollEntry_ctx (t : Tui) :
    (pollEntry t).ctx.is_running = t.ctx.is_running ∧
    (pollEntry t).ctx.input_interval = t.ctx.input_interval := by
  unfold pollEntry
  split <;> exact ⟨rfl, rfl⟩

/-- The wait loop on a terminal without input, for a wait that takes `k`
increments. -/
theorem wait_loop_steps (K : KeyCodes) (A : Answers) (E : Env) :
    ∀ (k fuel : Nat) (wait : Int) (t : Tui) (tty : List ReadRes) (log : List WaitEvent),
      t.ctx.is_running = true → 1 ≤ t.ctx.input_interval → 0 ≤ wait → noInput tty →
      wait ≤ (k : Int) * t.ctx.input_interval →
      (k : Int) * t.ctx.input_interval < wait + t.ctx.input_interval → k < fuel →
      wait_loop K A E fuel wait t tty log =
        Except.ok (some (if k = 0 then t else pollEntry t, tty.drop k,
          log ++ (waitSleeps t.ctx.input_interval k wait).flatMap
            (fun d => [WaitEvent.sleep d, WaitEvent.poll]))) := by
  intro k
  induction k with
  | zero =>
    intro fuel wait t tty log hrun hi hw hno h1 h2 hf
    have hw0 : wait = 0 := by
      simp only [Nat.cast_zero, zero_mul] at h1
      omega
    cases fuel with
    | zero => omega
    | succ f =>
      simp [wait_loop, hw0, waitSleeps]
  | succ k ih =>
    intro fuel wait t tty log hrun hi hw hno h1 h2 hf
    have hk0 : (0 : Int) ≤ (k : Int) * t.ctx.input_interval :=
      mul_nonneg (Int.ofNat_nonneg k) (by omega)
    have e1 : ((k + 1 : Nat) : Int) * t.ctx.input_interval
        = (k : Int) * t.ctx.input_interval + t.ctx.input_interval := by
      push_cast
      ring
    rw [e1] at h1 h2
    have hpos : wait ≠ 0 := by omega
    cases fuel with
    | zero => omega
    | succ f =>
      have hpoll : ∀ w, wait_poll K A E w t tty = Except.ok (w, pollEntry t, tty.tail) := by
        intro w
        exact get_input_no_input K A E w (pollEntry t) tty hno
      simp only [wait_loop, hrun, hpos, ne_eq, not_false_eq_true, and_self, if_true, hpoll]
      have hrun1 := (pollEntry_ctx t).1.trans hrun
      have hint := (pollEntry_ctx t).2
      by_cases hgt : wait > t.ctx.input_interval
      · simp only [hgt, if_true]
        rw [ih f (wait - t.ctx.input_interval) (pollEntry t) tty.tail _ hrun1
          (by rw [hint]; exact hi) (by omega) (noInput_tail tty hno)
          (by rw [hint]; omega) (by rw [hint]; omega) (by omega)]
        have hmin : min wait t.ctx.input_interval = t.ctx.input_interval := by omega
        simp only [waitSleeps, hmin, hint, pollEntry_pollEntry, List.flatMap_cons,
          List.append_assoc, List.cons_append, List.nil_append, List.drop_succ_cons,
          Nat.succ_ne_zero, if_false, ite_self, List.tail_drop, List.drop_tail]
      · simp only [hgt, if_false]
        rw [ih f 0 (pollEntry t) tty.tail _ hrun1
          (by rw [hint]; exact hi) (le_refl _) (noInput_tail tty hno)
          (by rw [hint]; omega) (by rw [hint]; omega) (by omega)]
        have hmin : min wait t.ctx.input_interval = wait := by omega
        simp only [waitSleeps, hmin, hint, pollEntry_pollEntry, List.flatMap_cons,
          List.append_assoc, List.cons_append, List.nil_append, sub_self,
          Nat.succ_ne_zero, if_false, ite_self, List.tail_drop, List.drop_tail]

theorem waitSleeps_length (i : Int) : ∀ (k : Nat) (w : Int), (waitSleeps i k w).length = k := by
  intro k
  induction k with
  | zero => intro w; rfl
  | succ k ih => intro w; simp only [waitSleeps, List.length_cons, ih]

theorem waitSleeps_sum (i : Int) (hi : 1 ≤ i) :
    ∀ (k : Nat) (w : Int), 0 ≤ w → w ≤ (k : Int) * i → (waitSleeps i k w).sum = w := by
  intro k
  induction k with
  | zero =>
    intro w h0 h1
    simp only [Nat.cast_zero, zero_mul] at h1
    simp only [waitSleeps, List.sum_nil]
    omega
  | succ k ih =>
    intro w h0 h1
    have hk0 : (0 : Int) ≤ (k : Int) * i := mul_nonneg (Int.ofNat_nonneg k) (by omega)
    have e1 : ((k + 1 : Nat) : Int) * i = (k : Int) * i + i := by
      push_cast
      ring
    rw [e1] at h1
    simp only [waitSleeps, List.sum_cons]
    rw [ih (w - min w i) (by omega) (by omega)]
    omega

theorem waitSleeps_get (i : Int) (hi : 1 ≤ i) :
    ∀ (k : Nat) (w : Int) (j : Nat), j < k → (k : Int) * i < w + i →
      (waitSleeps i k w)[j]? = some (min (w - (j : Int) * i) i) := by
  intro k
  induction k with
  | zero => intro w j hj; omega
  | succ k ih =>
    intro w j hj h2
    have e1 : ((k + 1 : Nat) : Int) * i = (k : Int) * i + i := by
      push_cast
      ring
    rw [e1] at h2
    cases j with
    | zero => simp [waitSleeps]
    | succ j =>
      have hk1 : (1 : Int) ≤ (k : Int) := by omega
      have hki : i ≤ (k : Int) * i := by nlinarith
      have hmin : min w i = i := by omega
      have e2 : ((j + 1 : Nat) : Int) * i = (j : Int) * i + i := by
        push_cast
        ring
      simp only [waitSleeps, List.getElem?_cons_succ, hmin]
      rw [ih (w - i) j (by omega) (by omega), e2]
      congr 2
      ring

/-- The number of increments is the ceiling of `wait / interval`. -/
theorem waitIncrements_bounds (wait i : Int) (hi : 1 ≤ i) (hw : 0 ≤ wait) :
    wait ≤ (waitIncrements wait i : Int) * i ∧
    (waitIncrements wait i : Int) * i < wait + i := by
  have hq : 0 ≤ (wait + i - 1) / i := Int.ediv_nonneg (by omega) (by omega)
  have e : ((waitIncrements wait i : Nat) : Int) = (wait + i - 1) / i := by
    unfold waitIncrements
    exact Int.toNat_of_nonneg hq
  rw [e]
  have h1 := Int.ediv_mul_le (wait + i - 1) (show i ≠ 0 by omega)
  have h2 := Int.lt_ediv_add_one_mul_self (wait + i - 1) (show 0 < i by omega)
  have e2 : ((wait + i - 1) / i + 1) * i = (wait + i - 1) / i * i + i := by ring
  rw [e2] at h2
  constructor <;> omega

/-- C31: for every wait of at least 0 and every `input_interval` of at least 1,
in a running session and with no key arriving, the wait loop of `event_loop`
ends after exactly `ceil(wait / input_interval)` increments; each increment
sleeps the smaller of what remains and `input_interval`, the sleeps sum to
`wait`, and the input is polled once after each sleep. -/
theorem wait_loop_spec (K : KeyCodes) (A : Answers) (E : Env) (wait : Int) (t : Tui)
    (tty : List ReadRes) (hrun : t.ctx.is_running = true) (hi : 1 ≤ t.ctx.input_interval)
    (hw : 0 ≤ wait) (hno : noInput tty) :
    (∀ fuel : Nat, waitIncrements wait t.ctx.input_interval < fuel →
      wait_loop K A E fuel wait t tty [] =
        Except.ok (some
          (if waitIncrements wait t.ctx.input_interval = 0 then t else pollEntry t,
            tty.drop (waitIncrements wait t.ctx.input_interval),
            (waitSleeps t.ctx.input_interval (waitIncrements wait t.ctx.input_interval)
              wait).flatMap (fun d => [WaitEvent.sleep d, WaitEvent.poll])))) ∧
    (waitSleeps t.ctx.input_interval (waitIncrements wait t.ctx.input_interval) wait).length
      = waitIncrements wait t.ctx.input_interval ∧
    (waitSleeps t.ctx.input_interval (waitIncrements wait t.ctx.input_interval) wait).sum
      = wait ∧
    (∀ j : Nat, j < waitIncrements wait t.ctx.input_interval →
      (waitSleeps t.ctx.input_interval (waitIncrements wait t.ctx.input_interval) wait)[j]?
        = some (min (wait - (j : Int) * t.ctx.input_interval) t.ctx.input_interval)) ∧
    (wait ≤ (waitIncrements wait t.ctx.input_interval : Int) * t.ctx.input_interval ∧
      (waitIncrements wait t.ctx.input_interval : Int) * t.ctx.input_interval
        < wait + t.ctx.input_interval) := by
  have hb := waitIncrements_bounds wait t.ctx.input_interval hi hw
  refine ⟨fun fuel hf => ?_, waitSleeps_length _ _ _, waitSleeps_sum _ hi _ _ hw hb.1,
    fun j hj => waitSleeps_get _ hi _ _ j hj hb.2, hb⟩
  have h := wait_loop_steps K A E (waitIncrements wait t.ctx.input_interval) fuel wait t tty []
    hrun hi hw hno hb.1 hb.2 hf
  rw [h, List.nil_append]

/-- A wait of 120 ms at an interval of 50 ms: sleeps of 50, 50 and 20 ms. -/
theorem wait_loop_spec_witness :
    wait_loop KeyCodes.sample Answers.sample Env.sample 4 120 Tui.sample [] [] =
      Except.ok (some (Tui.sample, [],
        [WaitEvent.sleep 50, WaitEvent.poll, WaitEvent.sleep 50, WaitEvent.poll,
         WaitEvent.sleep 20, WaitEvent.poll])) :=
  (wait_loop_spec KeyCodes.sample Answers.sample Env.sample 120 Tui.sample [] rfl (by decide)
    (by decide) (fun r hr => absurd hr (List.not_mem_nil r))).1 4 (by decide)

/-! ## The patterns: what a match says about the line -/

theorem mem_starRests (p : Char → Bool) :
    ∀ (s r : Str), r ∈ starRests p s → ∃ ws : Str, ws.all p = true ∧ s = ws ++ r := by
  intro s
  induction s with
  | nil =>
    intro r h
    simp only [starRests, List.mem_singleton] at h
    exact ⟨[], rfl, by rw [h]; rfl⟩
  | cons c cs ih =>
    intro r h
    simp only [starRests, List.mem_append, List.mem_singleton] at h
    rcases h with h | h
    · by_cases hp : p c = true
      · rw [if_pos hp] at h
        obtain ⟨ws, h1, h2⟩ := ih r h
        refine ⟨c :: ws, ?_, by rw [h2]; rfl⟩
        simp only [List.all_cons, hp, h1, Bool.and_self]
      · rw [if_neg hp] at h
        cases h
    · exact ⟨[], rfl, by rw [h]; rfl⟩

theorem mem_plusRests (p : Char → Bool) (s r : Str) (h : r ∈ plusRests p s) :
    ∃ (c : Char) (ws : Str), p c = true ∧ ws.all p = true ∧ s = c :: (ws ++ r) := by
  cases s with
  | nil => simp [plusRests] at h
  | cons c cs =>
    simp only [plusRests] at h
    by_cases hp : p c = true
    · rw [if_pos hp] at h
      obtain ⟨ws, h1, h2⟩ := mem_starRests p cs r h
      exact ⟨c, ws, hp, h1, by rw [h2]⟩
    · rw [if_neg hp] at h
      cases h

theorem mem_repRests (p : Char → Bool) :
    ∀ (hi lo : Nat) (s r : Str), r ∈ repRests p lo hi s →
      ∃ ws : Str, lo ≤ ws.length ∧ ws.length ≤ hi ∧ ws.all p = true ∧ s = ws ++ r := by
  intro hi
  induction hi with
  | zero =>
    intro lo s r h
    simp only [repRests] at h
    by_cases h0 : lo = 0
    · rw [if_pos h0] at h
      simp only [List.mem_singleton] at h
      exact ⟨[], by simp [h0], by simp, rfl, by rw [h]; rfl⟩
    · rw [if_neg h0] at h
      cases h
  | succ hi ih =>
    intro lo s r h
    cases s with
    | nil =>
      simp only [repRests] at h
      by_cases h0 : lo = 0
      · rw [if_pos h0] at h
        simp only [List.mem_singleton] at h
        exact ⟨[], by simp [h0], by simp, rfl, by rw [h]; rfl⟩
      · rw [if_neg h0] at h
        cases h
    | cons c cs =>
      simp only [repRests, List.mem_append] at h
      rcases h with h | h
      · by_cases hp : p c = true
        · rw [if_pos hp] at h
          obtain ⟨ws, h1, h2, h3, h4⟩ := ih (lo - 1) cs r h
          refine ⟨c :: ws, ?_, ?_, ?_, by rw [h4]; rfl⟩
          · simp only [List.length_cons]
            omega
          · simp only [List.length_cons]
            omega
          · simp only [List.all_cons, hp, h3, Bool.and_self]
        · rw [if_neg hp] at h
          cases h
      · by_cases h0 : lo = 0
        · rw [if_pos h0] at h
          simp only [List.mem_singleton] at h
          exact ⟨[], by simp [h0], by simp, rfl, by rw [h]; rfl⟩
        · rw [if_neg h0] at h
          cases h

theorem acc_eps (s rest : Str) (h : Acc Re.eps s rest) : rest = s := by
  obtain ⟨m, m1, h⟩ := h
  simp only [Re.run, List.mem_singleton, Prod.mk.injEq] at h
  exact h.1

theorem acc_chr (c : Char) (s rest : Str) (h : Acc (Re.chr c) s rest) : s = c :: rest := by
  obtain ⟨m, m1, h⟩ := h
  cases s with
  | nil => simp [Re.run] at h
  | cons x xs =>
    simp only [Re.run] at h
    by_cases hx : x = c
    · rw [if_pos hx] at h
      simp only [List.mem_singleton, Prod.mk.injEq] at h
      rw [hx, h.1]
    · rw [if_neg hx] at h
      cases h

theorem acc_seq (a b : Re) (s rest : Str) (h : Acc (Re.seq a b) s rest) :
    ∃ mid : Str, Acc a s mid ∧ Acc b mid rest := by
  obtain ⟨m, m1, h⟩ := h
  simp only [Re.run, List.mem_flatMap] at h
  obtain ⟨y, hy, hx⟩ := h
  exact ⟨y.1, ⟨m, y.2, hy⟩, ⟨y.2, m1, hx⟩⟩

theorem acc_alt (a b : Re) (s rest : Str) (h : Acc (Re.alt a b) s rest) :
    Acc a s rest ∨ Acc b s rest := by
  obtain ⟨m, m1, h⟩ := h
  simp only [Re.run, List.mem_append] at h
  rcases h with h | h
  · exact Or.inl ⟨m, m1, h⟩
  · exact Or.inr ⟨m, m1, h⟩

theorem acc_opt (a : Re) (s rest : Str) (h : Acc (Re.opt a) s rest) :
    Acc a s rest ∨ rest = s := by
  obtain ⟨m, m1, h⟩ := h
  simp only [Re.run, List.mem_append, List.mem_singleton, Prod.mk.injEq] at h
  rcases h with h | h
  · exact Or.inl ⟨m, m1, h⟩
  · exact Or.inr h.1

theorem acc_grp (i : Nat) (a : Re) (s rest : Str) (h : Acc (Re.grp i a) s rest) :
    Acc a s rest := by
  obtain ⟨m, m1, h⟩ := h
  simp only [Re.run, List.mem_map, Prod.mk.injEq] at h
  obtain ⟨y, hy, h1, _⟩ := h
  exact ⟨m, y.2, by rw [← h1]; exact hy⟩

theorem acc_plus (p : Char → Bool) (s rest : Str) (h : Acc (Re.plus p) s rest) :
    ∃ (c : Char) (ws : Str), p c = true ∧ ws.all p = true ∧ s = c :: (ws ++ rest) := by
  obtain ⟨m, m1, h⟩ := h
  simp only [Re.run, List.mem_map, Prod.mk.injEq] at h
  obtain ⟨y, hy, h1, _⟩ := h
  rw [← h1]
  exact mem_plusRests p s y hy

theorem acc_rep (p : Char → Bool) (lo hi : Nat) (s rest : Str)
    (h : Acc (Re.rep p lo hi) s rest) :
    ∃ ws : Str, lo ≤ ws.length ∧ ws.length ≤ hi ∧ ws.all p = true ∧ s = ws ++ rest := by
  obtain ⟨m, m1, h⟩ := h
  simp only [Re.run, List.mem_map, Prod.mk.injEq] at h
  obtain ⟨y, hy, h1, _⟩ := h
  rw [← h1]
  exact mem_repRests p hi lo s y hy

theorem acc_lit : ∀ (w s rest : Str), Acc (Re.lit w) s rest → s = w ++ rest := by
  intro w
  induction w with
  | nil =>
    intro s rest h
    rw [acc_eps s rest h]
    rfl
  | cons c cs ih =>
    intro s rest h
    obtain ⟨mid, h1, h2⟩ := acc_seq _ _ s rest h
    rw [acc_chr c s mid h1, ih mid rest h2]
    rfl

theorem acc_words : ∀ (ws : List Str) (s rest : Str), Acc (Re.words ws) s rest →
    ∃ w ∈ ws, s = w ++ rest := by
  intro ws
  induction ws with
  | nil =>
    intro s rest h
    obtain ⟨m, m1, h⟩ := h
    cases s <;> simp [Re.words, Re.run] at h
  | cons w ws ih =>
    intro s rest h
    cases ws with
    | nil => exact ⟨w, List.mem_singleton.2 rfl, acc_lit w s rest h⟩
    | cons w2 ws2 =>
      rcases acc_alt _ _ s rest h with h1 | h1
      · exact ⟨w, List.mem_cons_self _ _, acc_lit w s rest h1⟩
      · obtain ⟨v, hv, e⟩ := ih s rest h1
        exact ⟨v, List.mem_cons_of_mem _ hv, e⟩

theorem acc_of_match (input : Str) (r : Re) (m : List Str) (h : rxMatch input r = some m) :
    Acc r input [] := by
  simp only [rxMatch, Option.map_eq_some'] at h
  obtain ⟨x, hx, _⟩ := h
  have h1 := List.mem_of_find?_eq_some hx
  have h2 := List.find?_some hx
  have e : x.1 = [] := by
    cases hx1 : x.1 with
    | nil => rfl
    | cons a b => rw [hx1] at h2; cases h2
  exact ⟨_, x.2, by rw [← e]; exact h1⟩

theorem takeWhile_stop (p : Char → Bool) :
    ∀ (w rest : Str), w.all p = true → stopsAt p rest = true → (w ++ rest).takeWhile p = w := by
  intro w
  induction w with
  | nil =>
    intro rest _ hr
    cases rest with
    | nil => rfl
    | cons c t =>
      have hc : p c = false := by simpa [stopsAt] using hr
      simp [List.takeWhile, hc]
  | cons a w ih =>
    intro rest hw hr
    simp only [List.all_cons, Bool.and_eq_true] at hw
    have e := ih rest hw.2 hr
    simp only [List.cons_append, List.takeWhile_cons, hw.1, if_true, e]

theorem dropWhile_stop (p : Char → Bool) :
    ∀ (w rest : Str), w.all p = true → stopsAt p rest = true → (w ++ rest).dropWhile p = rest := by
  intro w
  induction w with
  | nil =>
    intro rest _ hr
    cases rest with
    | nil => rfl
    | cons c t =>
      have hc : p c = false := by simpa [stopsAt] using hr
      simp [List.dropWhile, hc]
  | cons a w ih =>
    intro rest hw hr
    simp only [List.all_cons, Bool.and_eq_true] at hw
    have e := ih rest hw.2 hr
    simp only [List.cons_append, List.dropWhile_cons, hw.1, if_true, e]

theorem isSep_of_space (c : Char) (h : isSpace c = true) : isSep c = true := by
  simp [isSep, h]

theorem stops_space (c : Char) (t : Str) (h : isSpace c = true) :
    stopsAt notSep (c :: t) = true := by
  simp [stopsAt, notSep, isSep_of_space c h]

theorem stops_word (w t : Str) (hw : w.all notSep = true) (hne : w ≠ []) :
    stopsAt isSpace (w ++ t) = true := by
  cases w with
  | nil => exact absurd rfl hne
  | cons a w =>
    simp only [List.all_cons, Bool.and_eq_true] at hw
    have ha : isSep a = false := by simpa [notSep] using hw.1
    have hs : isSpace a = false := by
      cases h : isSpace a with
      | false => rfl
      | true => rw [isSep_of_space a h] at ha; cases ha
    simp [stopsAt, hs]

theorem word1_stop (w rest : Str) (hw : w.all notSep = true)
    (hr : stopsAt notSep rest = true) : word1 (w ++ rest) = w :=
  takeWhile_stop notSep w rest hw hr

theorem after1_stop (w ws t : Str) (c : Char) (hw : w.all notSep = true)
    (hc : isSpace c = true) (hws : ws.all isSpace = true) (ht : stopsAt isSpace t = true) :
    after1 (w ++ c :: (ws ++ t)) = t := by
  unfold after1
  rw [dropWhile_stop notSep w _ hw (stops_space c _ hc)]
  have e : c :: (ws ++ t) = (c :: ws) ++ t := rfl
  rw [e]
  exact dropWhile_stop isSpace (c :: ws) t (by simp [hc, hws]) ht

theorem acc_cat_nil (s rest : Str) (h : Acc (Re.cat []) s rest) : rest = s :=
  acc_eps s rest h

theorem acc_cat_cons (r : Re) (rs : List Re) (s rest : Str) (h : Acc (Re.cat (r :: rs)) s rest) :
    ∃ mid : Str, Acc r s mid ∧ Acc (Re.cat rs) mid rest :=
  acc_seq r (Re.cat rs) s rest h

theorem acc_optArg (arg : Re) (s rest : Str) (h : Acc (rxOptArg arg) s rest) :
    rest = s ∨ stopsAt notSep s = true ∧ s ≠ [] := by
  rcases acc_opt _ s rest h with h1 | h1
  · right
    obtain ⟨mid, h2, h3⟩ := acc_cat_cons _ _ s rest (acc_grp _ _ s rest h1)
    obtain ⟨mid2, h4, _⟩ := acc_cat_cons _ _ mid rest h3
    obtain ⟨c, ws, hc, _, e⟩ := acc_plus _ mid mid2 h4
    rcases acc_opt _ s mid h2 with h5 | h5
    · rw [acc_chr _ s mid h5]
      exact ⟨rfl, by simp⟩
    · rw [← h5, e]
      exact ⟨stops_space c _ hc, by simp⟩
  · exact Or.inl h1

theorem acc_optArg_end (arg : Re) (s : Str) (h : Acc (Re.cat [rxOptArg arg]) s []) :
    stopsAt notSep s = true := by
  obtain ⟨mid, h1, h2⟩ := acc_cat_cons _ _ s [] h
  have e := acc_cat_nil mid [] h2
  subst e
  rcases acc_optArg arg s [] h1 with h3 | h3
  · rw [← h3]
    rfl
  · exact h3.1

theorem acc_head_word (w1 : Str) (rs : List Re) (input : Str)
    (h : Acc (Re.cat (Re.lit w1 :: Re.plus isSpace :: rs)) input [])
    (h1 : w1.all notSep = true) : word1 input = w1 := by
  obtain ⟨mid, h2, h3⟩ := acc_cat_cons _ _ input [] h
  obtain ⟨mid2, h4, _⟩ := acc_cat_cons _ _ mid [] h3
  obtain ⟨c, ws, hc, _, e⟩ := acc_plus _ mid mid2 h4
  rw [acc_lit w1 input mid h2, e]
  exact word1_stop w1 _ h1 (stops_space c _ hc)

theorem acc_head_words (w1 name : Str) (rs : List Re) (input : Str)
    (h : Acc (Re.cat (Re.lit w1 :: Re.plus isSpace :: Re.lit name :: rs)) input [])
    (h1 : w1.all notSep = true) (hn : name.all notSep = true) (hne : name ≠ []) :
    ∃ mid : Str, Acc (Re.cat rs) mid [] ∧ after1 input = name ++ mid := by
  obtain ⟨mid, h2, h3⟩ := acc_cat_cons _ _ input [] h
  obtain ⟨mid2, h4, h5⟩ := acc_cat_cons _ _ mid [] h3
  obtain ⟨mid3, h6, h7⟩ := acc_cat_cons _ _ mid2 [] h5
  obtain ⟨c, ws, hc, hws, e⟩ := acc_plus _ mid mid2 h4
  refine ⟨mid3, h7, ?_⟩
  rw [acc_lit w1 input mid h2, e, acc_lit name mid2 mid3 h6]
  exact after1_stop w1 ws _ c h1 hc hws (stops_word name mid3 hn hne)

theorem acc_word_optArg (cmd : Str) (arg : Re) (input : Str)
    (h : Acc (Re.cat [Re.lit cmd, rxOptArg arg]) input [])
    (h1 : cmd.all notSep = true) : word1 input = cmd := by
  obtain ⟨mid, h2, h3⟩ := acc_cat_cons _ _ input [] h
  rw [acc_lit cmd input mid h2]
  exact word1_stop cmd mid h1 (acc_optArg_end arg mid h3)

/-! ## The key of a line: the only branch that can take it -/

theorem digit_not_space (c : Char) (h : isDigit c = true) : isSpace c = false := by
  simp only [isDigit, Bool.and_eq_true, decide_eq_true_eq] at h
  simp only [isSpace, Bool.or_eq_false_iff, Bool.and_eq_false_iff, decide_eq_false_iff_not]
  omega

theorem hex_not_space (c : Char) (h : isHex c = true) : isSpace c = false := by
  simp only [isHex, Bool.or_eq_true, Bool.and_eq_true, decide_eq_true_eq] at h
  simp only [isSpace, Bool.or_eq_false_iff, Bool.and_eq_false_iff, decide_eq_false_iff_not]
  omega

theorem digit_is_hex (c : Char) (h : isDigit c = true) : isHex c = true := by
  simp only [isDigit, Bool.and_eq_true, decide_eq_true_eq] at h
  simp only [isHex, Bool.or_eq_true, Bool.and_eq_true, decide_eq_true_eq]
  omega

theorem colour_true24 (col : Str) (h : Acc (rxColour Depth.true24) col []) :
    stopsAt isSpace col = true ∧ clsOf col = Depth.true24 := by
  obtain ⟨mid, h1, h2⟩ := acc_seq _ _ col [] (acc_grp _ _ col [] h)
  obtain ⟨ws, hlo, _, hall, e⟩ := acc_rep _ _ _ mid [] h2
  rw [List.append_nil] at e
  subst e
  rcases acc_opt _ col mid h1 with h3 | h3
  · rw [acc_chr _ col mid h3]
    refine ⟨rfl, ?_⟩
    have hd : isDigit '#' = false := by decide
    simp [clsOf, hd]
  · subst h3
    cases hm : mid with
    | nil => rw [hm] at hlo; simp at hlo
    | cons a t =>
      rw [hm] at hall hlo
      have hall2 := hall
      simp only [List.all_cons, Bool.and_eq_true] at hall
      refine ⟨by simp [stopsAt, hex_not_space a hall.1], ?_⟩
      have hlen : ¬ (a :: t).length ≤ 3 := by omega
      simp only [clsOf, hlen, decide_False, Bool.and_false, hall2, Bool.or_true, if_true]
      rfl

theorem colour_pal256 (col : Str) (h : Acc (rxColour Depth.pal256) col []) :
    stopsAt isSpace col = true ∧ clsOf col = Depth.pal256 := by
  obtain ⟨ws, hlo, hhi, hall, e⟩ := acc_rep _ _ _ col [] (acc_grp _ _ col [] h)
  rw [List.append_nil] at e
  subst e
  cases hm : col with
  | nil => rw [hm] at hlo; simp at hlo
  | cons a t =>
    rw [hm] at hall hhi
    have hall2 := hall
    simp only [List.all_cons, Bool.and_eq_true] at hall
    refine ⟨by simp [stopsAt, digit_not_space a hall.1], ?_⟩
    simp only [clsOf, hall2, hhi, decide_True, Bool.and_self, if_true]

theorem clsOf_named (c : Char) (w mid : Str) (hd : isDigit c = false) (hh : c ≠ '#')
    (hx : (c :: w).all isHex = false) : clsOf ((c :: w) ++ mid) = Depth.named4 := by
  have h1 : ((c :: w) ++ mid).all isDigit = false := by
    simp [List.all_cons, hd]
  have h2 : ((c :: w) ++ mid).all isHex = false := by
    rw [List.all_append, hx]
    rfl
  have h3 : (((c :: w) ++ mid).head? == some '#') = false := by
    simp [hh]
  simp only [clsOf, h1, h2, h3, Bool.false_and, Bool.or_false, if_false]
  rfl

theorem colour_named4 (col : Str) (h : Acc (rxColour Depth.named4) col []) :
    stopsAt isSpace col = true ∧ clsOf col = Depth.named4 := by
  obtain ⟨mid, h1, _⟩ := acc_seq _ _ col [] h
  obtain ⟨w, hw, e⟩ := acc_words _ col mid (acc_grp _ _ col mid h1)
  subst e
  simp only [List.mem_cons, List.mem_singleton, List.not_mem_nil, or_false] at hw
  rcases hw with hw | hw | hw | hw | hw | hw | hw | hw <;> subst hw <;>
    exact ⟨rfl, clsOf_named _ _ mid (by decide) (by decide) (by decide)⟩

theorem colour_shape (d : Depth) (col : Str) (h : Acc (rxColour d) col []) :
    stopsAt isSpace col = true ∧ clsOf col = d := by
  cases d with
  | true24 => exact colour_true24 col h
  | pal256 => exact colour_pal256 col h
  | named4 => exact colour_named4 col h

theorem tag_quit (input : Str) (m : List Str) (h : rxMatch input rxQuit = some m) :
    tagOf input = RuleKey.quit := by
  have h0 := acc_of_match input _ m h
  obtain ⟨w, hw, e⟩ := acc_words _ input [] (acc_grp _ _ input [] h0)
  simp only [List.mem_cons, List.mem_singleton, List.not_mem_nil, or_false] at hw
  rcases hw with hw | hw | hw | hw <;> subst hw <;> subst e <;> decide

theorem tag_style (name : Str) (d : Depth) (hn : name.all notSep = true) (hne : name ≠ [])
    (input : Str) (m : List Str) (h : rxMatch input (rxStyle name d) = some m) :
    tagOf input = RuleKey.style name d := by
  have h0 : Acc (Re.cat [Re.lit "style".toList, Re.plus isSpace, Re.lit name, Re.plus isSpace,
      rxColour d]) input [] := acc_of_match input _ m h
  have hw1 := acc_head_word _ _ input h0 (by decide)
  obtain ⟨mid, h1, ha⟩ := acc_head_words _ name _ input h0 (by decide) hn hne
  obtain ⟨col, h2, h3⟩ := acc_cat_cons _ _ mid [] h1
  obtain ⟨c, ws, hc, hws, e⟩ := acc_plus _ mid col h2
  obtain ⟨col2, h4, h5⟩ := acc_cat_cons _ _ col [] h3
  have e2 := acc_cat_nil col2 [] h5
  subst e2
  obtain ⟨hs, hcl⟩ := colour_shape d col h4
  have hw2 : word2 input = name := by
    unfold word2
    rw [ha, e]
    exact word1_stop name _ hn (stops_space c _ hc)
  have ha2 : after2 input = col := by
    unfold after2
    rw [ha, e]
    exact after1_stop name ws col c hn hc hws hs
  unfold tagOf
  rw [hw1, if_pos rfl, hw2, ha2, hcl]

theorem words_optArg (w1 name : Str) (arg : Re) (input : Str) (m : List Str)
    (h : rxMatch input (Re.cat [Re.lit w1, Re.plus isSpace, Re.lit name, rxOptArg arg]) = some m)
    (h1 : w1.all notSep = true) (hn : name.all notSep = true) (hne : name ≠ []) :
    word1 input = w1 ∧ word2 input = name := by
  have h0 := acc_of_match input _ m h
  refine ⟨acc_head_word _ _ input h0 h1, ?_⟩
  obtain ⟨mid, h2, ha⟩ := acc_head_words _ name _ input h0 h1 hn hne
  unfold word2
  rw [ha]
  exact word1_stop name mid hn (acc_optArg_end arg mid h2)

theorem tag_set (name : Str) (hn : name.all notSep = true) (hne : name ≠ [])
    (input : Str) (m : List Str) (h : rxMatch input (rxSet name) = some m) :
    tagOf input = RuleKey.set name := by
  obtain ⟨hw1, hw2⟩ := words_optArg _ name _ input m h (by decide) hn hne
  unfold tagOf
  rw [hw1, if_neg (by decide), if_pos rfl, hw2]

theorem tag_sym (name : Str) (hn : name.all notSep = true) (hne : name ≠ [])
    (input : Str) (m : List Str) (h : rxMatch input (rxSym name) = some m) :
    tagOf input = RuleKey.sym name := by
  obtain ⟨hw1, hw2⟩ := words_optArg _ name _ input m h (by decide) hn hne
  unfold tagOf
  rw [hw1, if_neg (by decide), if_neg (by decide), if_pos rfl, hw2]

theorem tag_count (cmd : Str) (arg : Re)
    (hc : cmd ∈ ["prev".toList, "next".toList, "reset".toList])
    (input : Str) (m : List Str)
    (h : rxMatch input (Re.cat [Re.lit cmd, rxOptArg arg]) = some m) :
    tagOf input = RuleKey.count cmd := by
  have h0 := acc_of_match input _ m h
  simp only [List.mem_cons, List.mem_singleton, List.not_mem_nil, or_false] at hc
  rcases hc with hc | hc | hc <;> subst hc
  all_goals
    have hw1 := acc_word_optArg _ arg input h0 (by decide)
    unfold tagOf
    rw [hw1, if_neg (by decide), if_neg (by decide), if_neg (by decide), if_pos (by decide)]

theorem tag_arg (cmd : Str) (rs : List Re)
    (hc : cmd ∈ ["open".toList, "wpm".toList, "goto".toList, "offset".toList])
    (input : Str) (m : List Str)
    (h : rxMatch input (Re.cat (Re.lit cmd :: Re.plus isSpace :: rs)) = some m) :
    tagOf input = RuleKey.arg cmd := by
  have h0 := acc_of_match input _ m h
  simp only [List.mem_cons, List.mem_singleton, List.not_mem_nil, or_false] at hc
  rcases hc with hc | hc | hc | hc <;> subst hc
  all_goals
    have hw1 := acc_head_word _ rs input h0 (by decide)
    unfold tagOf
    rw [hw1, if_neg (by decide), if_neg (by decide), if_neg (by decide), if_neg (by decide),
      if_pos (by decide)]

theorem ruleKeys_nodup : ruleKeys.Nodup := by
  decide

theorem forall₂_append {α β : Type} (R : α → β → Prop) :
    ∀ (a c : List α) (b d : List β), List.Forall₂ R a b → List.Forall₂ R c d →
      List.Forall₂ R (a ++ c) (b ++ d) := by
  intro a c b d h1 h2
  induction h1 with
  | nil => exact h2
  | cons h _ ih => exact List.Forall₂.cons h ih

theorem style_keyed :
    ∀ (table : List (Str × List (Slot × Ground))),
      (∀ e ∈ table, e.1.all notSep = true ∧ e.1 ≠ []) →
      List.Forall₂ (fun (k : RuleKey) (r : Rule) =>
        ∀ (input : Str) (m : List Str), rxMatch input r.rx = some m → tagOf input = k)
        (table.flatMap (fun e =>
          [RuleKey.style e.1 Depth.true24, RuleKey.style e.1 Depth.pal256,
           RuleKey.style e.1 Depth.named4]))
        (table.flatMap (fun e => styleRules e.1 e.2)) := by
  intro table
  induction table with
  | nil =>
    intro _
    exact List.Forall₂.nil
  | cons e es ih =>
    intro h
    obtain ⟨hn, hne⟩ := h e (List.mem_cons_self _ _)
    rw [List.flatMap_cons, List.flatMap_cons]
    refine forall₂_append _ _ _ _ _ ?_ (ih (fun x hx => h x (List.mem_cons_of_mem _ hx)))
    unfold styleRules
    refine List.Forall₂.cons (fun input m h => tag_style _ _ hn hne input m h) ?_
    refine List.Forall₂.cons (fun input m h => tag_style _ _ hn hne input m h) ?_
    refine List.Forall₂.cons (fun input m h => tag_style _ _ hn hne input m h) ?_
    exact List.Forall₂.nil

theorem rules_keyed :
    List.Forall₂ (fun (k : RuleKey) (r : Rule) =>
      ∀ (input : Str) (m : List Str), rxMatch input r.rx = some m → tagOf input = k)
      ruleKeys rules := by
  unfold ruleKeys rules
  refine forall₂_append _ _ _ _ _ (forall₂_append _ _ _ _ _ ?_ ?_) ?_
  · exact List.Forall₂.cons (fun input m h => tag_quit input m h) List.Forall₂.nil
  · exact style_keyed styleTable (by decide)
  · refine List.Forall₂.cons (fun input m h => tag_set _ (by decide) (by decide) input m h) ?_
    refine List.Forall₂.cons (fun input m h => tag_set _ (by decide) (by decide) input m h) ?_
    refine List.Forall₂.cons (fun input m h => tag_set _ (by decide) (by decide) input m h) ?_
    refine List.Forall₂.cons (fun input m h => tag_set _ (by decide) (by decide) input m h) ?_
    refine List.Forall₂.cons (fun input m h => tag_sym _ (by decide) (by decide) input m h) ?_
    refine List.Forall₂.cons (fun input m h => tag_sym _ (by decide) (by decide) input m h) ?_
    refine List.Forall₂.cons (fun input m h => tag_sym _ (by decide) (by decide) input m h) ?_
    refine List.Forall₂.cons (fun input m h => tag_sym _ (by decide) (by decide) input m h) ?_
    refine List.Forall₂.cons (fun input m h => tag_sym _ (by decide) (by decide) input m h) ?_
    refine List.Forall₂.cons (fun input m h => tag_sym _ (by decide) (by decide) input m h) ?_
    refine List.Forall₂.cons (fun input m h => tag_sym _ (by decide) (by decide) input m h) ?_
    refine List.Forall₂.cons (fun input m h => tag_set _ (by decide) (by decide) input m h) ?_
    refine List.Forall₂.cons (fun input m h => tag_set _ (by decide) (by decide) input m h) ?_
    refine List.Forall₂.cons (fun input m h => tag_count _ _ (by decide) input m h) ?_
    refine List.Forall₂.cons (fun input m h => tag_count _ _ (by decide) input m h) ?_
    refine List.Forall₂.cons (fun input m h => tag_count _ _ (by decide) input m h) ?_
    refine List.Forall₂.cons (fun input m h => tag_arg _ _ (by decide) input m h) ?_
    refine List.Forall₂.cons (fun input m h => tag_arg _ _ (by decide) input m h) ?_
    refine List.Forall₂.cons (fun input m h => tag_arg _ _ (by decide) input m h) ?_
    refine List.Forall₂.cons (fun input m h => tag_arg _ _ (by decide) input m h) ?_
    exact List.Forall₂.nil

/-! ## The order of the branches of the command interpreter -/

theorem rules_exclusive (input : Str) (i j : Nat) (hi : i < rules.length)
    (hj : j < rules.length) (m1 m2 : List Str)
    (h1 : rxMatch input (rules.get ⟨i, hi⟩).rx = some m1)
    (h2 : rxMatch input (rules.get ⟨j, hj⟩).rx = some m2) : i = j := by
  obtain ⟨hlen, hget⟩ := List.forall₂_iff_get.1 rules_keyed
  have hi2 : i < ruleKeys.length := by rw [hlen]; exact hi
  have hj2 : j < ruleKeys.length := by rw [hlen]; exact hj
  have e1 := hget i hi2 hi input m1 h1
  have e2 := hget j hj2 hj input m2 h2
  have e3 : ruleKeys.get ⟨i, hi2⟩ = ruleKeys.get ⟨j, hj2⟩ := by rw [← e1, ← e2]
  have e4 := (List.Nodup.get_inj_iff ruleKeys_nodup).1 e3
  exact Fin.mk.inj_iff.1 e4

theorem rules_exclusive_mem (input : Str) (r1 r2 : Rule) (hr1 : r1 ∈ rules) (hr2 : r2 ∈ rules)
    (m1 m2 : List Str) (h1 : rxMatch input r1.rx = some m1)
    (h2 : rxMatch input r2.rx = some m2) : r1 = r2 := by
  obtain ⟨⟨i, hi⟩, e1⟩ := List.get_of_mem hr1
  obtain ⟨⟨j, hj⟩, e2⟩ := List.get_of_mem hr2
  subst e1
  subst e2
  have e := rules_exclusive input i j hi hj m1 m2 h1 h2
  subst e
  rfl

theorem firstMatch_at (input : Str) :
    ∀ (l : List Rule) (i : Nat) (hi : i < l.length) (m : List Str),
      rxMatch input (l.get ⟨i, hi⟩).rx = some m →
      (∀ (j : Nat) (hj : j < l.length), j < i → rxMatch input (l.get ⟨j, hj⟩).rx = none) →
      firstMatch input l = some (l.get ⟨i, hi⟩, m) := by
  intro l
  induction l with
  | nil =>
    intro i hi
    exact absurd hi (Nat.not_lt_zero _)
  | cons r rs ih =>
    intro i hi m hm hb
    cases i with
    | zero =>
      have hm2 : rxMatch input r.rx = some m := hm
      simp only [firstMatch, hm2]
      rfl
    | succ k =>
      have h0 : rxMatch input r.rx = none := hb 0 (Nat.succ_pos _) (Nat.succ_pos _)
      simp only [firstMatch, h0]
      exact ih k (Nat.lt_of_succ_lt_succ hi) m hm
        (fun j hj hlt => hb (j + 1) (Nat.succ_lt_succ hj) (Nat.succ_lt_succ hlt))

theorem firstMatch_unique (input : Str) (r0 : Rule) (m0 : List Str)
    (h0 : rxMatch input r0.rx = some m0) :
    ∀ (l : List Rule), r0 ∈ l →
      (∀ r ∈ l, ∀ m : List Str, rxMatch input r.rx = some m → r = r0) →
      firstMatch input l = some (r0, m0) := by
  intro l
  induction l with
  | nil =>
    intro h
    cases h
  | cons r rs ih =>
    intro hmem hall
    cases hx : rxMatch input r.rx with
    | some m =>
      have e := hall r (List.mem_cons_self _ _) m hx
      subst e
      rw [h0] at hx
      simp only [firstMatch, h0]
    | none =>
      simp only [firstMatch, hx]
      refine ih ?_ (fun x hx2 => hall x (List.mem_cons_of_mem _ hx2))
      rcases List.mem_cons.1 hmem with e | e
      · subst e
        rw [h0] at hx
        cases hx
      · exact e

theorem firstMatch_none_inv (input : Str) :
    ∀ (l : List Rule), firstMatch input l = none → ∀ r ∈ l, rxMatch input r.rx = none := by
  intro l
  induction l with
  | nil =>
    intro _ r hr
    cases hr
  | cons x xs ih =>
    intro h r hr
    cases hx : rxMatch input x.rx with
    | some m =>
      simp only [firstMatch, hx] at h
      cases h
    | none =>
      simp only [firstMatch, hx] at h
      rcases List.mem_cons.1 hr with e | e
      · rw [e]
        exact hx
      · exact ih h r e

theorem firstMatch_perm (input : Str) (rs : List Rule) (hp : rs.Perm rules) :
    firstMatch input rs = firstMatch input rules := by
  cases h : firstMatch input rules with
  | none =>
    exact firstMatch_none input rs
      (fun r hr => firstMatch_none_inv input rules h r ((List.Perm.mem_iff hp).1 hr))
  | some x =>
    obtain ⟨r0, m0⟩ := x
    obtain ⟨hmem, hm⟩ := firstMatch_some input rules r0 m0 h
    exact firstMatch_unique input r0 m0 hm rs ((List.Perm.mem_iff hp).2 hmem)
      (fun r hr m hrm =>
        rules_exclusive_mem input r r0 ((List.Perm.mem_iff hp).1 hr) hmem m m0 hrm hm)

theorem commandWith_perm (input : Str) (rs : List Rule) (hp : rs.Perm rules) (E : Env)
    (t : Tui) : commandWith rs E input t = command E input t := by
  unfold commandWith command
  rw [firstMatch_perm input rs hp]

/-- C32 (amended): `command` runs the first rule, in source order, whose pattern
matches the line; no line is matched by the patterns of two different rules;
and testing the rules in any other order gives the same outcome and the same
state for every line. -/
theorem command_rule_order (input : Str) :
    (∀ (E : Env) (t : Tui) (i : Nat) (hi : i < rules.length) (m : List Str),
      t.ctx.is_running = true → input ≠ [] →
      rxMatch input (rules.get ⟨i, hi⟩).rx = some m →
      (∀ (j : Nat) (hj : j < rules.length), j < i →
        rxMatch input (rules.get ⟨j, hj⟩).rx = none) →
      command E input t = (rules.get ⟨i, hi⟩).act E m input t) ∧
    (∀ (i j : Nat) (hi : i < rules.length) (hj : j < rules.length) (m1 m2 : List Str),
      rxMatch input (rules.get ⟨i, hi⟩).rx = some m1 →
      rxMatch input (rules.get ⟨j, hj⟩).rx = some m2 → i = j) ∧
    (∀ (rs : List Rule), rs.Perm rules → ∀ (E : Env) (t : Tui),
      commandWith rs E input t = command E input t) := by
  refine ⟨?_, ?_, ?_⟩
  · intro E t i hi m hrun hne hm hb
    exact command_of_match E input t _ m hrun hne (firstMatch_at input rules i hi m hm hb)
  · intro i j hi hj m1 m2 h1 h2
    exact rules_exclusive input i j hi hj m1 m2 h1 h2
  · intro rs hp E t
    exact commandWith_perm input rs hp E t

/-- C32, witness: the line `style primary #ff0000` is matched by rule 1 (the
24-bit rule of `primary`) and not by rule 0, so `command` runs rule 1 on it;
and with the rules tested in the reverse order the line
`style status-primary red` gives the same result. -/
theorem command_rule_order_witness :
    Tui.sample.ctx.is_running = true ∧
    rxMatch "style primary #ff0000".toList (rules.get ⟨1, by decide⟩).rx =
      some ["style primary #ff0000".toList, "#ff0000".toList] ∧
    command Env.sample "style primary #ff0000".toList Tui.sample =
      (rules.get ⟨1, by decide⟩).act Env.sample
        ["style primary #ff0000".toList, "#ff0000".toList]
        "style primary #ff0000".toList Tui.sample ∧
    commandWith rules.reverse Env.sample "style status-primary red".toList Tui.sample =
      command Env.sample "style status-primary red".toList Tui.sample :=
  ⟨rfl, by rfl,
   (command_rule_order "style primary #ff0000".toList).1 Env.sample Tui.sample 1 (by decide)
     ["style primary #ff0000".toList, "#ff0000".toList] rfl (by decide) (by rfl)
     (fun j hj hlt => by
       have e : j = 0 := by omega
       subst e
       rfl),
   (command_rule_order "style status-primary red".toList).2.2 rules.reverse
     (List.reverse_perm rules) Env.sample Tui.sample⟩

/-- C32, counterexample: there is no line that the patterns of two different
rules match, and no line, state and reordering of the rules for which the
reordered `command` gives another result; the line of the claim,
`style status-primary red`, is matched by the pattern of `status-primary` and
not by the pattern of `primary`. -/
theorem command_rule_order_counterexample :
    (¬ ∃ (input : Str) (i j : Nat) (hi : i < rules.length) (hj : j < rules.length),
      i ≠ j ∧ (rxMatch input (rules.get ⟨i, hi⟩).rx).isSome = true ∧
        (rxMatch input (rules.get ⟨j, hj⟩).rx).isSome = true) ∧
    (¬ ∃ (input : Str) (rs : List Rule) (E : Env) (t : Tui),
      rs.Perm rules ∧ commandWith rs E input t ≠ command E input t) ∧
    rxMatch "style status-primary red".toList (rxStyle "status-primary".toList Depth.named4) =
      some ["style status-primary red".toList, "red".toList, [], []] ∧
    rxMatch "style status-primary red".toList (rxStyle "primary".toList Depth.named4) =
      none := by
  refine ⟨?_, ?_, by rfl, by rfl⟩
  · rintro ⟨input, i, j, hi, hj, hne, h1, h2⟩
    obtain ⟨m1, e1⟩ := Option.isSome_iff_exists.1 h1
    obtain ⟨m2, e2⟩ := Option.isSome_iff_exists.1 h2
    exact hne (rules_exclusive input i j hi hj m1 m2 e1 e2)
  · rintro ⟨input, rs, E, t, hp, hne⟩
    exact hne (commandWith_perm input rs hp E t)

end Fltrdr
